import Mathlib

/-!
# A verification development for the paged B+ tree table engine

Shallow embedding of `src/persistent_btree` (`table.h`, `table.c`, `main.c`) in the
namespace `BTree`, and of the array-backed variant `src/persistent_arr/main.c` in the
namespace `Arr`.

* Memory is a list of bytes (`List Nat`, every byte read is reduced `% 256`).
* The accessors of a node read 0 where the page buffer ends; the statements that read
  cells carry the bounds that keep these reads inside the page buffer
  (`num_cells ≤ LEAF_NODE_MAX_CELLS`, or the keys of all cells inside the buffer).
  `leaf_node_find_iter`, the single pass of the leaf search, checks its key read and is
  `undefined` when the read lies outside the buffer.
* `uint32_t` values are natural numbers; arithmetic that can wrap carries an
  explicit `% 2 ^ 32`.
* A function that can stop the process (`exit(EXIT_FAILURE)`), touch memory
  outside an object, or loop returns `Except Fault _`.
* `node.h` is not part of the sources at hand; the accessors it declares are
  modelled from the node layout of the specification and marked as such.
* The C library calls `strtok`, `strlen` and `strcpy` are modelled on byte lists; `atoi`
  is a parameter.
* System calls are taken to succeed: `open`, `lseek`, `read`, `write` and `close` do
  not return -1, and `read` and `write` transfer all the bytes that exist.
* `malloc` returns memory with arbitrary content (`Heap`); the number of bytes asked
  for a `Cursor` in `leaf_node_find` is not modelled.
-/

set_option maxRecDepth 20000

namespace BTree

/-! ## Constants of `table.h` -/

def TABLE_MAX_PAGES : Nat := 100
def COLUMN_USERNAME_SIZE : Nat := 32
def COLUMN_EMAIL_SIZE : Nat := 255
def INVALID_PAGE_NUM : Nat := 2 ^ 32 - 1

def ID_SIZE : Nat := 4
def USERNAME_SIZE : Nat := COLUMN_USERNAME_SIZE + 1
def EMAIL_SIZE : Nat := COLUMN_EMAIL_SIZE + 1
def ID_OFFSET : Nat := 0
def USERNAME_OFFSET : Nat := ID_OFFSET + ID_SIZE
def EMAIL_OFFSET : Nat := USERNAME_OFFSET + USERNAME_SIZE
def ROW_SIZE : Nat := ID_SIZE + USERNAME_SIZE + EMAIL_SIZE
def PAGE_SIZE : Nat := 4096

/-! ## Bytes and memory -/

/-- A page buffer: the bytes behind a `void*` handed out by `get_page`. -/
abbrev Page := List Nat

/-- The byte at offset `off` of a buffer (0 outside the buffer). -/
def byte_at (buf : List Nat) (off : Nat) : Nat := buf.getD off 0 % 256

/-- Little-endian `uint32_t` load from `buf + off`. -/
def read_u32 (buf : List Nat) (off : Nat) : Nat :=
  byte_at buf off + 256 * byte_at buf (off + 1) + 65536 * byte_at buf (off + 2)
    + 16777216 * byte_at buf (off + 3)

/-- Little-endian object representation of a `uint32_t`. -/
def u32_bytes (v : Nat) : List Nat :=
  [v % 256, v / 256 % 256, v / 65536 % 256, v / 16777216 % 256]

/-- The call `memcpy(dest + off, src, n)`: `n` bytes of `src` replace the bytes
`[off, off + n)` of `dest`. -/
def memcpy (dest : List Nat) (off : Nat) (src : List Nat) (n : Nat) : List Nat :=
  dest.take off ++ src.take n ++ dest.drop (off + n)

/-! ## Rows (`table.h` 25-29, `table.c` 14-24) -/

/-- The struct `Row`: a 32-bit id, `char username[33]`, `char email[256]`. -/
structure Row where
  id : Nat
  username : List Nat
  email : List Nat
deriving DecidableEq, Repr

/-- `serialize_row(source, destination)`; `destination` is the memory starting at
the destination pointer, the result is that memory after the three copies. -/
def serialize_row (source : Row) (destination : List Nat) : List Nat :=
  let d1 := memcpy destination ID_OFFSET (u32_bytes source.id) ID_SIZE
  let d2 := memcpy d1 USERNAME_OFFSET source.username USERNAME_SIZE
  memcpy d2 EMAIL_OFFSET source.email EMAIL_SIZE

/-- `deserialize_row(source, destination)`: all three fields of the destination
row are overwritten, so the row read is the result. -/
def deserialize_row (source : List Nat) : Row :=
  { id := read_u32 source ID_OFFSET
    username := (source.drop USERNAME_OFFSET).take USERNAME_SIZE
    email := (source.drop EMAIL_OFFSET).take EMAIL_SIZE }

/-! ## Pager (`table.h` 18-23, `table.c` 26-108) -/

/-- How a call can fail to return. -/
inductive Fault where
  /-- The process stops through `exit(EXIT_FAILURE)`. -/
  | exit_failure
  /-- An access outside an object; C leaves the behaviour undefined. -/
  | undefined
  /-- The step budget of the model ran out before the loop or recursion ended. -/
  | out_of_fuel
deriving DecidableEq, Repr

/-- What `malloc` hands back. Fresh memory is not cleared: `page n` is the content
found in the buffer allocated for cache slot `n` (a slot is allocated at most once
between open and close), `end_of_table` the content found in that field of a
freshly allocated `Cursor`. -/
structure Heap where
  page : Nat → Page
  end_of_table : Bool

/-- The struct `Pager`. `file` is the content of the file behind
`file_descriptor`; `pages` is the array of `TABLE_MAX_PAGES` slots, `none`
standing for `NULL`. -/
structure Pager where
  file : List Nat
  file_length : Nat
  num_pages : Nat
  pages : List (Option Page)
deriving DecidableEq, Repr

/-- The struct `Table`. -/
structure Table where
  pager : Pager
  root_page_num : Nat
deriving DecidableEq, Repr

/-- The struct `Cursor`; its `table` pointer is the table every function below
receives next to the cursor. -/
structure Cursor where
  page_num : Nat
  cell_num : Nat
  end_of_table : Bool
deriving DecidableEq, Repr

/-- `lseek(fd, off, SEEK_SET)` followed by `read(fd, buf, n)` on a regular file:
the bytes delivered, fewer than `n` at the end of the file. -/
def file_read (file : List Nat) (off n : Nat) : List Nat := (file.drop off).take n

/-- `lseek(fd, off, SEEK_SET)` followed by `write(fd, data, |data|)`: a write past
the end extends the file, the gap reading as zeros. -/
def file_write (file : List Nat) (off : Nat) (data : List Nat) : List Nat :=
  (file ++ List.replicate (off - file.length) 0).take off ++ data
    ++ file.drop (off + data.length)

/-- The bytes of page `p` as they stand in the file. -/
def disk_page (file : List Nat) (p : Nat) : List Nat := file_read file (p * PAGE_SIZE) PAGE_SIZE

/-- `get_unused_page_num` (table.c 26). -/
def get_unused_page_num (pager : Pager) : Nat := pager.num_pages

/-- `pager_open` (table.c 28-53) on a file with the given content (an absent file
is created empty). `off_t` values are stored into `uint32_t` fields. -/
def pager_open (file : List Nat) : Except Fault Pager :=
  let file_length := file.length
  let pager : Pager :=
    { file := file
      file_length := file_length % 2 ^ 32
      num_pages := (file_length / PAGE_SIZE) % 2 ^ 32
      pages := [] }
  if file_length % PAGE_SIZE ≠ 0 then .error .exit_failure
  else .ok { pager with pages := List.replicate TABLE_MAX_PAGES none }

/-- `pager_flush` (table.c 55-74). -/
def pager_flush (pager : Pager) (page_num : Nat) : Except Fault Pager :=
  match pager.pages[page_num]? with
  | none => .error .undefined
  | some none => .error .exit_failure
  | some (some page) =>
    .ok { pager with
      file := file_write pager.file (page_num * PAGE_SIZE % 2 ^ 32) (page.take PAGE_SIZE) }

/-- The buffer `get_page` builds on a cache miss (table.c 83-97): `fresh` is the
content `malloc` delivered, overwritten by what `read` delivers when the page number
is not beyond the pages of the file. -/
def get_page_miss (fresh : Page) (pager : Pager) (page_num : Nat) : Page :=
  let num_pages :=
    if pager.file_length % PAGE_SIZE ≠ 0 then (pager.file_length / PAGE_SIZE + 1) % 2 ^ 32
    else pager.file_length / PAGE_SIZE
  if page_num ≤ num_pages then
    let bytes := file_read pager.file (page_num * PAGE_SIZE % 2 ^ 32) PAGE_SIZE
    bytes ++ fresh.drop bytes.length
  else fresh

/-- `get_page` (table.c 76-108). `fresh` is the content of the buffer `malloc`
returns on a cache miss. The result is the page buffer and the pager afterwards. -/
def get_page (fresh : Page) (pager : Pager) (page_num : Nat) : Except Fault (Page × Pager) :=
  if page_num > TABLE_MAX_PAGES then .error .exit_failure
  else
    match pager.pages[page_num]? with
    | none => .error .undefined
    | some (some page) => .ok (page, pager)
    | some none =>
      let page := get_page_miss fresh pager page_num
      .ok (page,
        { pager with
          pages := pager.pages.set page_num (some page)
          num_pages :=
            if page_num ≥ pager.num_pages then (page_num + 1) % 2 ^ 32 else pager.num_pages })

/-- The first loop of `db_close` (table.c 129-136), at index `i` with `n` indices
left to visit. -/
def db_close_loop : Nat → Nat → Pager → Except Fault Pager
  | 0, _, pager => .ok pager
  | n + 1, i, pager =>
    match pager.pages[i]? with
    | none => .error .undefined
    | some none => db_close_loop n (i + 1) pager
    | some (some _) =>
      match pager_flush pager i with
      | .error e => .error e
      | .ok flushed => db_close_loop n (i + 1) { flushed with pages := flushed.pages.set i none }

/-- `db_close` (table.c 126-152): the content of the file once it is closed. The
second loop only releases buffers. -/
def db_close (table : Table) : Except Fault (List Nat) :=
  match db_close_loop table.pager.num_pages 0 table.pager with
  | .error e => .error e
  | .ok pager => .ok pager.file

/-! ## Node layout (`node.h`) -/

/-- Modelled from the spec: `node.h` is missing; node type tag of an internal node (§4.2). -/
def NODE_INTERNAL : Nat := 0
/-- Modelled from the spec: `node.h` is missing; node type tag of a leaf (§4.2). -/
def NODE_LEAF : Nat := 1
/-- Modelled from the spec: `node.h` is missing; offset of the node type byte. -/
def NODE_TYPE_OFFSET : Nat := 0
/-- Modelled from the spec: `node.h` is missing; offset of the is-root byte. -/
def IS_ROOT_OFFSET : Nat := 1
/-- Modelled from the spec: `node.h` is missing; offset of the parent page number. -/
def PARENT_POINTER_OFFSET : Nat := 2
/-- Modelled from the spec: `node.h` is missing; size of the common header. -/
def COMMON_NODE_HEADER_SIZE : Nat := 6
/-- Modelled from the spec: `node.h` is missing; offset of the leaf cell count. -/
def LEAF_NODE_NUM_CELLS_OFFSET : Nat := 6
/-- Modelled from the spec: `node.h` is missing; offset of the next-leaf page number. -/
def LEAF_NODE_NEXT_LEAF_OFFSET : Nat := 10
/-- Modelled from the spec: `node.h` is missing; size of the leaf header. -/
def LEAF_NODE_HEADER_SIZE : Nat := 14
/-- Modelled from the spec: `node.h` is missing; size of a key. -/
def LEAF_NODE_KEY_SIZE : Nat := 4
/-- Modelled from the spec: `node.h` is missing; a leaf cell is a key and a row. -/
def LEAF_NODE_CELL_SIZE : Nat := LEAF_NODE_KEY_SIZE + ROW_SIZE
/-- Modelled from the spec: `node.h` is missing;
`(PAGE_SIZE − leaf_header_size) / leaf_cell_size`. -/
def LEAF_NODE_MAX_CELLS : Nat := (PAGE_SIZE - LEAF_NODE_HEADER_SIZE) / LEAF_NODE_CELL_SIZE
/-- Modelled from the spec: `node.h` is missing; offset of the key count of an internal node. -/
def INTERNAL_NODE_NUM_KEYS_OFFSET : Nat := 6
/-- Modelled from the spec: `node.h` is missing; offset of the right child page number. -/
def INTERNAL_NODE_RIGHT_CHILD_OFFSET : Nat := 10
/-- Modelled from the spec: `node.h` is missing; size of the internal header. -/
def INTERNAL_NODE_HEADER_SIZE : Nat := 14
/-- Modelled from the spec: `node.h` is missing; an internal cell is a child page
number followed by a key. -/
def INTERNAL_NODE_CELL_SIZE : Nat := 8

/-- Modelled from the spec: `node.h` is missing; the node type byte. -/
def get_node_type (node : Page) : Nat := byte_at node NODE_TYPE_OFFSET
/-- Modelled from the spec: `node.h` is missing; `*leaf_node_num_cells(node)`. -/
def leaf_node_num_cells (node : Page) : Nat := read_u32 node LEAF_NODE_NUM_CELLS_OFFSET
/-- Modelled from the spec: `node.h` is missing; `*leaf_node_next_leaf(node)`. -/
def leaf_node_next_leaf (node : Page) : Nat := read_u32 node LEAF_NODE_NEXT_LEAF_OFFSET
/-- Modelled from the spec: `node.h` is missing; `*leaf_node_key(node, cell_num)`, the
key at `header_size + i * cell_size`. -/
def leaf_node_key (node : Page) (cell_num : Nat) : Nat :=
  read_u32 node (LEAF_NODE_HEADER_SIZE + cell_num * LEAF_NODE_CELL_SIZE)
/-- Modelled from the spec: `node.h` is missing; `leaf_node_value(node, cell_num)`, the
memory starting at the value of the cell, right after its key. -/
def leaf_node_value (node : Page) (cell_num : Nat) : List Nat :=
  node.drop (LEAF_NODE_HEADER_SIZE + cell_num * LEAF_NODE_CELL_SIZE + LEAF_NODE_KEY_SIZE)
/-- Modelled from the spec: `node.h` is missing; `*internal_node_num_keys(node)`. -/
def internal_node_num_keys (node : Page) : Nat := read_u32 node INTERNAL_NODE_NUM_KEYS_OFFSET
/-- Modelled from the spec: `node.h` is missing; `*internal_node_right_child(node)`. -/
def internal_node_right_child (node : Page) : Nat :=
  read_u32 node INTERNAL_NODE_RIGHT_CHILD_OFFSET
/-- Modelled from the spec: `node.h` is missing; `*internal_node_key(node, key_num)`. -/
def internal_node_key (node : Page) (key_num : Nat) : Nat :=
  read_u32 node (INTERNAL_NODE_HEADER_SIZE + key_num * INTERNAL_NODE_CELL_SIZE + 4)
/-- Modelled from the spec: `node.h` is missing; `*internal_node_child(node, child_num)`:
`child[i]`, or the right child when `i` is the number of keys. -/
def internal_node_child (node : Page) (child_num : Nat) : Nat :=
  if child_num = internal_node_num_keys node then internal_node_right_child node
  else read_u32 node (INTERNAL_NODE_HEADER_SIZE + child_num * INTERNAL_NODE_CELL_SIZE)
/-- Modelled from the spec: `node.h` is missing; `internal_node_find_child(node, key)`:
the smallest index `i` among the `num_keys` separator keys with `key ≤ keys[i]`,
and `num_keys` if there is none. -/
def internal_node_find_child (node : Page) (key : Nat) : Nat :=
  ((List.range (internal_node_num_keys node)).find?
    (fun i => decide (key ≤ internal_node_key node i))).getD (internal_node_num_keys node)

/-- Store of one byte at `buf + off`. -/
def write_byte (buf : List Nat) (off v : Nat) : List Nat := memcpy buf off [v % 256] 1
/-- Little-endian `uint32_t` store at `buf + off`. -/
def write_u32 (buf : List Nat) (off v : Nat) : List Nat := memcpy buf off (u32_bytes v) 4

/-- Modelled from the spec: `node.h` is missing; `set_node_root(node, is_root)`. -/
def set_node_root (node : Page) (is_root : Bool) : Page :=
  write_byte node IS_ROOT_OFFSET (if is_root then 1 else 0)
/-- Modelled from the spec: `node.h` is missing; `initialize_leaf_node(node)`: a fresh
leaf, not root, with no cell and no next leaf. -/
def initialize_leaf_node (node : Page) : Page :=
  write_u32 (write_u32 (set_node_root (write_byte node NODE_TYPE_OFFSET NODE_LEAF) false)
    LEAF_NODE_NUM_CELLS_OFFSET 0) LEAF_NODE_NEXT_LEAF_OFFSET 0

/-! ## Table and cursor (`table.c` 110-241) -/

/-- `db_open` (table.c 110-124). -/
def db_open (heap : Heap) (file : List Nat) : Except Fault Table :=
  match pager_open file with
  | .error e => .error e
  | .ok pager =>
    if pager.num_pages = 0 then
      match get_page (heap.page 0) pager 0 with
      | .error e => .error e
      | .ok (root_node, pager) =>
        let root_node := set_node_root (initialize_leaf_node root_node) true
        .ok { pager := { pager with pages := pager.pages.set 0 (some root_node) }
              root_page_num := 0 }
    else .ok { pager := pager, root_page_num := 0 }

/-- The `while` loop of `leaf_node_find` (table.c 164-177); the result is the
`cell_num` stored in the cursor. -/
def leaf_node_find_loop (node : Page) (key : Nat) : Nat → Nat → Nat → Except Fault Nat
  | fuel, min_index, one_past_max_index =>
    if one_past_max_index = min_index then .ok min_index
    else
      match fuel with
      | 0 => .error .out_of_fuel
      | fuel + 1 =>
        let index := (min_index + one_past_max_index) % 2 ^ 32 / 2
        let key_at_index := leaf_node_key node index
        if key = key_at_index then .ok index
        else if key < key_at_index then leaf_node_find_loop node key fuel min_index index
        else leaf_node_find_loop node key fuel ((index + 1) % 2 ^ 32) one_past_max_index

/-- What one pass through the `while` loop of `leaf_node_find` leaves: the loop is
over with a `cell_num`, or it goes on with new bounds. -/
inductive LoopStep where
  | done (cell_num : Nat)
  | next (min_index one_past_max_index : Nat)
deriving DecidableEq, Repr

/-- One pass through the `while` loop of `leaf_node_find` (table.c 164-177) from the
bounds `min_index`, `one_past_max_index`: the test of the loop, then its body. The read
`*leaf_node_key(node, index)` (table.c 166) takes the `LEAF_NODE_KEY_SIZE` bytes at
`LEAF_NODE_HEADER_SIZE + index * LEAF_NODE_CELL_SIZE` of the page buffer; when they do
not all lie inside the buffer the read is outside the object and the pass is
`undefined`. -/
def leaf_node_find_iter (node : Page) (key min_index one_past_max_index : Nat) :
    Except Fault LoopStep :=
  if one_past_max_index = min_index then .ok (.done min_index)
  else
    let index := (min_index + one_past_max_index) % 2 ^ 32 / 2
    if LEAF_NODE_HEADER_SIZE + index * LEAF_NODE_CELL_SIZE + LEAF_NODE_KEY_SIZE ≤ node.length then
      let key_at_index := leaf_node_key node index
      if key = key_at_index then .ok (.done index)
      else if key < key_at_index then .ok (.next min_index index)
      else .ok (.next ((index + 1) % 2 ^ 32) one_past_max_index)
    else .error .undefined

/-- `leaf_node_find` (table.c 154-180). The cursor's `end_of_table` is left as
`malloc` delivered it. -/
def leaf_node_find (heap : Heap) (fuel : Nat) (table : Table) (page_num key : Nat) :
    Except Fault (Cursor × Table) :=
  match get_page (heap.page page_num) table.pager page_num with
  | .error e => .error e
  | .ok (node, pager) =>
    let num_cells := leaf_node_num_cells node
    match leaf_node_find_loop node key fuel 0 num_cells with
    | .error e => .error e
    | .ok cell_num =>
      .ok ({ page_num := page_num, cell_num := cell_num, end_of_table := heap.end_of_table },
           { table with pager := pager })

/-- `internal_node_find` (table.c 182-195); `fuel` bounds the depth of the recursion
and the iterations of the leaf search. -/
def internal_node_find (heap : Heap) : Nat → Table → Nat → Nat → Except Fault (Cursor × Table)
  | 0, _, _, _ => .error .out_of_fuel
  | fuel + 1, table, page_num, key =>
    match get_page (heap.page page_num) table.pager page_num with
    | .error e => .error e
    | .ok (node, pager) =>
      let child_index := internal_node_find_child node key
      let child_num := internal_node_child node child_index
      match get_page (heap.page child_num) pager child_num with
      | .error e => .error e
      | .ok (child, pager) =>
        if get_node_type child = NODE_LEAF then
          leaf_node_find heap fuel { table with pager := pager } child_num key
        else if get_node_type child = NODE_INTERNAL then
          internal_node_find heap fuel { table with pager := pager } child_num key
        else .error .undefined

/-- `table_find` (table.c 197-206). -/
def table_find (heap : Heap) (fuel : Nat) (table : Table) (key : Nat) :
    Except Fault (Cursor × Table) :=
  let root_page_num := table.root_page_num
  match get_page (heap.page root_page_num) table.pager root_page_num with
  | .error e => .error e
  | .ok (root_node, pager) =>
    if get_node_type root_node = NODE_LEAF then
      leaf_node_find heap fuel { table with pager := pager } root_page_num key
    else
      internal_node_find heap fuel { table with pager := pager } root_page_num key

/-- `table_start` (table.c 208-217). -/
def table_start (heap : Heap) (fuel : Nat) (table : Table) : Except Fault (Cursor × Table) :=
  match table_find heap fuel table 0 with
  | .error e => .error e
  | .ok (cursor, table) =>
    match get_page (heap.page cursor.page_num) table.pager cursor.page_num with
    | .error e => .error e
    | .ok (node, pager) =>
      let num_cells := leaf_node_num_cells node
      .ok ({ cursor with end_of_table := decide (num_cells = 0) }, { table with pager := pager })

/-- `cursor_value` (table.c 219-225): the memory starting at the row of the cell. -/
def cursor_value (heap : Heap) (table : Table) (cursor : Cursor) :
    Except Fault (List Nat × Table) :=
  let page_num := cursor.page_num
  match get_page (heap.page page_num) table.pager page_num with
  | .error e => .error e
  | .ok (page, pager) => .ok (leaf_node_value page cursor.cell_num, { table with pager := pager })

/-- `cursor_advance` (table.c 227-241). -/
def cursor_advance (heap : Heap) (table : Table) (cursor : Cursor) :
    Except Fault (Cursor × Table) :=
  let page_num := cursor.page_num
  match get_page (heap.page page_num) table.pager page_num with
  | .error e => .error e
  | .ok (node, pager) =>
    let cursor := { cursor with cell_num := (cursor.cell_num + 1) % 2 ^ 32 }
    let cursor :=
      if cursor.cell_num ≥ leaf_node_num_cells node then
        let next_page_num := leaf_node_next_leaf node
        if next_page_num = 0 then { cursor with end_of_table := true }
        else { cursor with page_num := next_page_num, cell_num := 0 }
      else cursor
    .ok (cursor, { table with pager := pager })

/-! ## Statements (`main.c` 168-204) -/

/-- The enum `ExecuteResult`. -/
inductive ExecuteResult where
  | EXECUTE_SUCCESS
  | EXECUTE_TABLE_FULL
  | EXECUTE_DUPLICATE_KEY
deriving DecidableEq, Repr

/-- The `while` loop of `execute_select` (main.c 195-199): the rows printed, in
order. -/
def execute_select_loop (heap : Heap) : Nat → Table → Cursor → Except Fault (List Row × Table)
  | fuel, table, cursor =>
    if cursor.end_of_table then .ok ([], table)
    else
      match fuel with
      | 0 => .error .out_of_fuel
      | fuel + 1 =>
        match cursor_value heap table cursor with
        | .error e => .error e
        | .ok (value, table) =>
          let row := deserialize_row value
          match cursor_advance heap table cursor with
          | .error e => .error e
          | .ok (cursor, table) =>
            match execute_select_loop heap fuel table cursor with
            | .error e => .error e
            | .ok (rows, table) => .ok (row :: rows, table)

/-- `execute_select` (main.c 191-204): result code, rows printed, table afterwards. -/
def execute_select (heap : Heap) (fuel : Nat) (table : Table) :
    Except Fault (ExecuteResult × List Row × Table) :=
  match table_start heap fuel table with
  | .error e => .error e
  | .ok (cursor, table) =>
    match execute_select_loop heap fuel table cursor with
    | .error e => .error e
    | .ok (rows, table) => .ok (.EXECUTE_SUCCESS, rows, table)

/-- `execute_insert` (main.c 168-189). `leaf_node_insert` is declared in `node.h`,
which is missing, and is taken as a parameter. -/
def execute_insert (heap : Heap) (fuel : Nat)
    (leaf_node_insert : Table → Cursor → Nat → Row → Except Fault Table)
    (row_to_insert : Row) (table : Table) : Except Fault (ExecuteResult × Table) :=
  match get_page (heap.page table.root_page_num) table.pager table.root_page_num with
  | .error e => .error e
  | .ok (node, pager) =>
    let table := { table with pager := pager }
    let num_cells := leaf_node_num_cells node
    let key_to_insert := row_to_insert.id
    match table_find heap fuel table key_to_insert with
    | .error e => .error e
    | .ok (cursor, table) =>
      if cursor.cell_num < num_cells ∧ leaf_node_key node cursor.cell_num = key_to_insert then
        .ok (.EXECUTE_DUPLICATE_KEY, table)
      else
        match leaf_node_insert table cursor row_to_insert.id row_to_insert with
        | .error e => .error e
        | .ok table => .ok (.EXECUTE_SUCCESS, table)

/-! ## Parsing a statement (`main.c` 10-43, 126-166, 206-268) -/

/-- The enum `PrepareResult`. -/
inductive PrepareResult where
  | PREPARE_SUCCESS
  | PREPARE_NEGATIVE_ID
  | PREPARE_UNRECOGNIZED_COMMAND
  | PREPARE_STRING_TOO_LONG
  | PREPARE_SYNTAX_ERROR
deriving DecidableEq, Repr

/-- The enum `StatementType`. -/
inductive StatementType where
  | STATEMENT_INSERT
  | STATEMENT_SELECT
deriving DecidableEq, Repr

/-- The struct `Statement`. -/
structure Statement where
  type : StatementType
  row_to_insert : Row
deriving DecidableEq, Repr

/-- The C library call `strtok(.., " ")` on the text `s` still to be scanned (a C string
without its terminating NUL): leading spaces are skipped; the token runs to the next
space or to the end; the scan resumes after that space. `none` stands for `NULL`. -/
def strtok (s : List Nat) : Option (List Nat) × List Nat :=
  let s := s.dropWhile (fun c => c == 32)
  if s.isEmpty then (none, [])
  else (some (s.takeWhile (fun c => c != 32)), (s.dropWhile (fun c => c != 32)).drop 1)

/-- The C library call `strlen` on a C string given without its terminating NUL. -/
def strlen (s : List Nat) : Nat := s.length

/-- The C library call `strcpy(dest, src)`: the characters of `src` and a terminating
NUL replace the first `strlen(src) + 1` bytes at `dest`. -/
def strcpy (dest src : List Nat) : List Nat :=
  src ++ [0] ++ dest.drop (src.length + 1)

/-- `prepare_insert` (main.c 126-154) on the text of the input buffer. The C library
call `atoi` is a parameter (the standard leaves it undefined on overflow). The result
is the code returned and the statement afterwards. -/
def prepare_insert (atoi : List Nat → Int) (buffer : List Nat) (statement : Statement) :
    PrepareResult × Statement :=
  let statement := { statement with type := .STATEMENT_INSERT }
  let (_, rest) := strtok buffer
  let (id_string, rest) := strtok rest
  let (username, rest) := strtok rest
  let (email, _) := strtok rest
  match id_string, username, email with
  | some id_string, some username, some email =>
    let id := atoi id_string
    if id < 0 then (.PREPARE_NEGATIVE_ID, statement)
    else if strlen username > COLUMN_USERNAME_SIZE then (.PREPARE_STRING_TOO_LONG, statement)
    else if strlen email > COLUMN_EMAIL_SIZE then (.PREPARE_STRING_TOO_LONG, statement)
    else
      (.PREPARE_SUCCESS,
        { statement with
          row_to_insert :=
            { id := (id % 2 ^ 32).toNat
              username := strcpy statement.row_to_insert.username username
              email := strcpy statement.row_to_insert.email email } })
  | _, _, _ => (.PREPARE_SYNTAX_ERROR, statement)

/-- The pager states of a session: the state `pager_open` returns on `file`, then any
number of successful `get_page` calls (each buffer `malloc` delivers has `PAGE_SIZE`
bytes) and of stores into the page buffers handed out. -/
inductive Reachable (file : List Nat) : Pager → Prop where
  | opened (pager : Pager) : pager_open file = .ok pager → Reachable file pager
  | fetched (pager pager' : Pager) (fresh : Page) (page_num : Nat) (node : Page) :
      Reachable file pager → fresh.length = PAGE_SIZE →
      get_page fresh pager page_num = .ok (node, pager') → Reachable file pager'
  | stored (pager : Pager) (page_num : Nat) (old new : Page) :
      Reachable file pager → pager.pages[page_num]? = some (some old) →
      new.length = PAGE_SIZE →
      Reachable file { pager with pages := pager.pages.set page_num (some new) }

/-- The bytes `get_page` hands out for page `p` in this state: the cached buffer, or
the buffer a miss would build. -/
def page_at (heap : Heap) (pager : Pager) (p : Nat) : Page :=
  match pager.pages[p]? with
  | some (some page) => page
  | _ => get_page_miss (heap.page p) pager p

/-- Page `p` passes the guard of `get_page` and has a slot in the cache. -/
def Fetchable (pager : Pager) (p : Nat) : Prop :=
  p ≤ TABLE_MAX_PAGES ∧ p < pager.pages.length

/-- Two pager states in which `get_page` hands out the same bytes for every page. -/
def SamePages (heap : Heap) (a b : Pager) : Prop :=
  a.pages.length = b.pages.length ∧ ∀ q, page_at heap a q = page_at heap b q

/-- Two tables with the same root whose pagers hand out the same bytes. -/
def TableSim (heap : Heap) (ta tb : Table) : Prop :=
  ta.root_page_num = tb.root_page_num ∧ SamePages heap ta.pager tb.pager

/-- Two runs that fail alike, or return the same value and leave tables with the same
root whose pagers hand out the same bytes. -/
def ResultSim (heap : Heap) {α : Type} (x y : Except Fault (α × Table)) : Prop :=
  (∃ e, x = .error e ∧ y = .error e) ∨
  (∃ v ta tb, x = .ok (v, ta) ∧ y = .ok (v, tb) ∧ TableSim heap ta tb)

/-- What `execute_select` shows to the user: the result code and the rows printed. -/
def select_output (r : Except Fault (ExecuteResult × List Row × Table)) :
    Except Fault (ExecuteResult × List Row) :=
  match r with
  | .error e => .error e
  | .ok (code, rows, _) => .ok (code, rows)

/-- `Leftmost heap pager p leaf`: going down from page `p` through the first child of
every internal node ends on the leaf page `leaf`. -/
inductive Leftmost (heap : Heap) (pager : Pager) : Nat → Nat → Prop where
  | leaf (p : Nat) : Fetchable pager p →
      get_node_type (page_at heap pager p) = NODE_LEAF → Leftmost heap pager p p
  | step (p leaf : Nat) : Fetchable pager p →
      get_node_type (page_at heap pager p) = NODE_INTERNAL →
      Leftmost heap pager (internal_node_child (page_at heap pager p) 0) leaf →
      Leftmost heap pager p leaf

/-- `LeafChain heap pager p leaves`: starting at page `p`, the `next_leaf` pointers run
through the leaf pages with contents `leaves` and end with `next_leaf = 0`. -/
inductive LeafChain (heap : Heap) (pager : Pager) : Nat → List Page → Prop where
  | last (p : Nat) (node : Page) : Fetchable pager p → page_at heap pager p = node →
      leaf_node_next_leaf node = 0 → LeafChain heap pager p [node]
  | next (p : Nat) (node : Page) (rest : List Page) : Fetchable pager p →
      page_at heap pager p = node → leaf_node_next_leaf node ≠ 0 →
      LeafChain heap pager (leaf_node_next_leaf node) rest →
      LeafChain heap pager p (node :: rest)

/-- The rows of the cells `k, k + 1, ..` of a leaf, in cell order. -/
def leaf_rows_from (node : Page) (k : Nat) : List Row :=
  (List.range' k (leaf_node_num_cells node - k)).map
    (fun i => deserialize_row (leaf_node_value node i))

/-- The rows of all cells of a leaf, in cell order. -/
def leaf_rows (node : Page) : List Row := leaf_rows_from node 0

/-- The keys of all cells of a leaf, in cell order. -/
def leaf_keys (node : Page) : List Nat :=
  (List.range (leaf_node_num_cells node)).map (leaf_node_key node)

/-- The keys of a leaf are strictly ascending. -/
def LeafSorted (node : Page) : Prop :=
  ∀ i j, i < j → j < leaf_node_num_cells node → leaf_node_key node i < leaf_node_key node j

/-- The bytes page `p` holds in this state: the cached buffer if the page is loaded,
the bytes on disk otherwise. -/
def page_held (pager : Pager) (p : Nat) : Page :=
  match pager.pages[p]? with
  | some (some page) => page
  | _ => disk_page pager.file p

/-- The pager states of a session started by `db_open` on `file` in which `get_page` is
called on a page that exists or on `get_unused_page_num`, and page buffers handed out
are written to. -/
inductive Session (heap : Heap) (file : List Nat) : Pager → Prop where
  | opened (table : Table) : (heap.page 0).length = PAGE_SIZE →
      db_open heap file = .ok table → Session heap file table.pager
  | fetched (pager pager' : Pager) (fresh : Page) (page_num : Nat) (node : Page) :
      Session heap file pager → fresh.length = PAGE_SIZE →
      page_num ≤ get_unused_page_num pager →
      get_page fresh pager page_num = .ok (node, pager') → Session heap file pager'
  | stored (pager : Pager) (page_num : Nat) (old new : Page) :
      Session heap file pager → pager.pages[page_num]? = some (some old) →
      new.length = PAGE_SIZE →
      Session heap file { pager with pages := pager.pages.set page_num (some new) }

/-- The bounds `(min_index, one_past_max_index)` with which the `while` loop of
`leaf_node_find` on `node` and `key` starts a pass: `(0, num_cells)` at first, then
whatever a pass leaves when the loop goes on. -/
inductive LoopReach (node : Page) (key : Nat) : Nat → Nat → Prop where
  | start : LoopReach node key 0 (leaf_node_num_cells node)
  | pass (lo hi lo' hi' : Nat) : LoopReach node key lo hi →
      leaf_node_find_iter node key lo hi = .ok (.next lo' hi') → LoopReach node key lo' hi'

/-! ## Example data -/

/-- A row for examples: id 1, username "user1", email "person1@example.com", both
NUL-padded to the size of their field. -/
def sample_row : Row :=
  { id := 1
    username := [117, 115, 101, 114, 49] ++ List.replicate 28 0
    email := [112, 101, 114, 115, 111, 110, 49, 64, 101, 120, 97, 109, 112, 108, 101, 46, 99,
      111, 109] ++ List.replicate 237 0 }

/-- A 4096-byte leaf page for examples: the given root flag, next-leaf pointer and
keys, every row zero-filled, the rest of the page zero. -/
def sample_leaf (is_root next_leaf : Nat) (keys : List Nat) : Page :=
  let used := [NODE_LEAF, is_root, 0, 0, 0, 0] ++ u32_bytes keys.length ++ u32_bytes next_leaf
    ++ keys.flatMap (fun k => u32_bytes k ++ List.replicate ROW_SIZE 0)
  used ++ List.replicate (PAGE_SIZE - used.length) 0

/-- A 4096-byte leaf page for examples whose cell count reads `2^31 - 1`; the rest of
the page is zero. -/
def sample_huge_leaf : Page :=
  [NODE_LEAF, 1, 0, 0, 0, 0] ++ u32_bytes (2 ^ 31 - 1) ++ List.replicate (PAGE_SIZE - 10) 0

/-- A 4096-byte internal page for examples: the given root flag, right child and
`(child, key)` cells, the rest of the page zero. -/
def sample_internal (is_root right_child : Nat) (cells : List (Nat × Nat)) : Page :=
  let used := [NODE_INTERNAL, is_root, 0, 0, 0, 0] ++ u32_bytes cells.length
    ++ u32_bytes right_child ++ cells.flatMap (fun c => u32_bytes c.1 ++ u32_bytes c.2)
  used ++ List.replicate (PAGE_SIZE - used.length) 0

/-- A pager for examples: an empty file and the given buffers in the first slots. -/
def sample_pager (loaded : List (Option Page)) : Pager :=
  { file := []
    file_length := 0
    num_pages := loaded.length
    pages := loaded ++ List.replicate (TABLE_MAX_PAGES - loaded.length) none }

/-- The tree of three pages left by the first leaf split: the root (page 0) is an
internal node with the one key 7, its left child (page 2) holds the keys 1..7, its
right child (page 1) the keys 8..14. -/
def sample_tree : Table :=
  { pager := sample_pager
      [some (sample_internal 1 1 [(2, 7)]),
       some (sample_leaf 0 0 [8, 9, 10, 11, 12, 13, 14]),
       some (sample_leaf 0 1 [1, 2, 3, 4, 5, 6, 7])]
    root_page_num := 0 }

/-- A file of `n` zero bytes (what a sparse file of that length reads as). -/
def zero_file (n : Nat) : List Nat := List.replicate n 0

/-- The table `db_open` returns on an empty file when `malloc` delivers zeroed memory:
page 0 is an empty root leaf. -/
def sample_open : Table :=
  { pager := sample_pager
      [some (set_node_root (initialize_leaf_node (List.replicate PAGE_SIZE 0)) true)]
    root_page_num := 0 }

/-- A second row for examples: id 2, username "user2", email "b@x". -/
def sample_row_two : Row :=
  { id := 2
    username := [117, 115, 101, 114, 50] ++ List.replicate 28 0
    email := [98, 64, 120] ++ List.replicate 253 0 }

/-- A 4096-byte root leaf page for examples with no next leaf that holds the given
rows, each under its id as key, in the order given; the rest of the page is zero. -/
def sample_row_leaf (rows : List Row) : Page :=
  let used := [NODE_LEAF, 1, 0, 0, 0, 0] ++ u32_bytes rows.length ++ u32_bytes 0
    ++ rows.flatMap (fun r => u32_bytes r.id ++ serialize_row r (List.replicate ROW_SIZE 0))
  used ++ List.replicate (PAGE_SIZE - used.length) 0

/-- The pager of `sample_open` after the two example rows were stored into the buffer of
its root leaf. -/
def sample_session : Pager :=
  { sample_open.pager with
    pages := sample_open.pager.pages.set 0 (some (sample_row_leaf [sample_row, sample_row_two])) }

/-- An `atoi` for examples: the value of the leading decimal digits, negated after a
leading `-`. -/
def sample_atoi (s : List Nat) : Int :=
  let digits (t : List Nat) : Nat :=
    (t.takeWhile (fun c => decide (48 ≤ c ∧ c ≤ 57))).foldl (fun acc c => 10 * acc + (c - 48)) 0
  match s with
  | 45 :: t => - (digits t : Int)
  | _ => (digits s : Int)

/-- The text `insert 7 bob b@x`. -/
def sample_insert_line : List Nat :=
  [105, 110, 115, 101, 114, 116, 32, 55, 32, 98, 111, 98, 32, 98, 64, 120]

/-- A heap for examples: `malloc` delivers zeroed memory. -/
def sample_heap : Heap :=
  { page := fun _ => List.replicate PAGE_SIZE 0, end_of_table := false }

end BTree

/-! # The array-backed variant (`src/persistent_arr/main.c`)

The rows lie one after the other in the pages, `ROWS_PER_PAGE` to a page. Bytes,
files, faults and the `malloc` oracle are those of the B+ tree development. -/

namespace Arr

/-! ## Constants (`main.c` 11-13, 69-78) -/

def TABLE_MAX_PAGES : Nat := 100
def COLUMN_USERNAME_SIZE : Nat := 32
def COLUMN_EMAIL_SIZE : Nat := 255

def ID_SIZE : Nat := 4
def USERNAME_SIZE : Nat := COLUMN_USERNAME_SIZE + 1
def EMAIL_SIZE : Nat := COLUMN_EMAIL_SIZE + 1
def ID_OFFSET : Nat := 0
def USERNAME_OFFSET : Nat := ID_OFFSET + ID_SIZE
def EMAIL_OFFSET : Nat := USERNAME_OFFSET + USERNAME_SIZE
def ROW_SIZE : Nat := ID_SIZE + USERNAME_SIZE + EMAIL_SIZE
def PAGE_SIZE : Nat := 4096
def ROWS_PER_PAGE : Nat := PAGE_SIZE / ROW_SIZE
def TABLE_MAX_ROWS : Nat := ROWS_PER_PAGE * TABLE_MAX_PAGES

/-! ## Types (`main.c` 36-67) -/

/-- The enum `ExecuteResult`. -/
inductive ExecuteResult where
  | EXECUTE_SUCCESS
  | EXECUTE_TABLE_FULL
deriving DecidableEq, Repr

/-- The struct `Row`: a 32-bit id, `char username[33]`, `char email[256]`. -/
structure Row where
  id : Nat
  username : List Nat
  email : List Nat
deriving DecidableEq, Repr

/-- The struct `Pager`. `file` is the content of the file behind
`file_descriptor`; `pages` is the array of `TABLE_MAX_PAGES` slots, `none`
standing for `NULL`. -/
structure Pager where
  file : List Nat
  file_length : Nat
  pages : List (Option BTree.Page)
deriving DecidableEq, Repr

/-- The struct `Table`. -/
structure Table where
  pager : Pager
  num_rows : Nat
deriving DecidableEq, Repr

/-! ## Opening and closing (`main.c` 93-183) -/

/-- `pager_open` (main.c 93-112) on a file with the given content (an absent file
is created empty). The `off_t` length is stored into a `uint32_t` field. -/
def pager_open (file : List Nat) : Pager :=
  { file := file
    file_length := file.length % 2 ^ 32
    pages := List.replicate TABLE_MAX_PAGES none }

/-- `db_open` (main.c 114-123). -/
def db_open (file : List Nat) : Table :=
  let pager := pager_open file
  let num_rows := pager.file_length / ROW_SIZE
  { pager := pager, num_rows := num_rows }

/-- `pager_flush` (main.c 125-144): `size` bytes of the page buffer are written at
`page_num * PAGE_SIZE`. -/
def pager_flush (pager : Pager) (page_num size : Nat) : Except BTree.Fault Pager :=
  match pager.pages[page_num]? with
  | none => .error .undefined
  | some none => .error .exit_failure
  | some (some page) =>
    .ok { pager with
      file := BTree.file_write pager.file (page_num * PAGE_SIZE % 2 ^ 32) (page.take size) }

/-- The first loop of `db_close` (main.c 150-157), at index `i` with `n` indices
left to visit. -/
def db_close_loop : Nat → Nat → Pager → Except BTree.Fault Pager
  | 0, _, pager => .ok pager
  | n + 1, i, pager =>
    match pager.pages[i]? with
    | none => .error .undefined
    | some none => db_close_loop n (i + 1) pager
    | some (some _) =>
      match pager_flush pager i PAGE_SIZE with
      | .error e => .error e
      | .ok flushed => db_close_loop n (i + 1) { flushed with pages := flushed.pages.set i none }

/-- `db_close` (main.c 146-183): the content of the file once it is closed. The
last loop only releases buffers. -/
def db_close (table : Table) : Except BTree.Fault (List Nat) :=
  let pager := table.pager
  let num_full_pages := table.num_rows / ROWS_PER_PAGE
  match db_close_loop num_full_pages 0 pager with
  | .error e => .error e
  | .ok pager =>
    let num_additional_rows := table.num_rows % ROWS_PER_PAGE
    if num_additional_rows > 0 then
      let page_num := num_full_pages
      match pager.pages[page_num]? with
      | none => .error .undefined
      | some none => .ok pager.file
      | some (some _) =>
        match pager_flush pager page_num (num_additional_rows * ROW_SIZE % 2 ^ 32) with
        | .error e => .error e
        | .ok flushed => .ok flushed.file
    else .ok pager.file

/-! ## Rows and their slots (`main.c` 202-248) -/

/-- `serialize_row(source, destination)`; `destination` is the memory starting at
the destination pointer, the result is that memory after the three copies. -/
def serialize_row (source : Row) (destination : List Nat) : List Nat :=
  let d1 := BTree.memcpy destination ID_OFFSET (BTree.u32_bytes source.id) ID_SIZE
  let d2 := BTree.memcpy d1 USERNAME_OFFSET source.username USERNAME_SIZE
  BTree.memcpy d2 EMAIL_OFFSET source.email EMAIL_SIZE

/-- `deserialize_row(source, destination)`: all three fields of the destination
row are overwritten, so the row read is the result. -/
def deserialize_row (source : List Nat) : Row :=
  { id := BTree.read_u32 source ID_OFFSET
    username := (source.drop USERNAME_OFFSET).take USERNAME_SIZE
    email := (source.drop EMAIL_OFFSET).take EMAIL_SIZE }

/-- `get_page` (main.c 214-240). `fresh` is the content of the buffer `malloc`
returns on a cache miss. The result is the page buffer and the pager afterwards. -/
def get_page (fresh : BTree.Page) (pager : Pager) (page_num : Nat) :
    Except BTree.Fault (BTree.Page × Pager) :=
  if page_num > TABLE_MAX_PAGES then .error .exit_failure
  else
    match pager.pages[page_num]? with
    | none => .error .undefined
    | some (some page) => .ok (page, pager)
    | some none =>
      let num_pages :=
        if pager.file_length % PAGE_SIZE ≠ 0 then (pager.file_length / PAGE_SIZE + 1) % 2 ^ 32
        else pager.file_length / PAGE_SIZE
      let page :=
        if page_num ≤ num_pages then
          let bytes := BTree.file_read pager.file (page_num * PAGE_SIZE % 2 ^ 32) PAGE_SIZE
          bytes ++ fresh.drop bytes.length
        else fresh
      .ok (page, { pager with pages := pager.pages.set page_num (some page) })

/-- The pointer `row_slot` returns, as the number of the page buffer it points into
and the byte offset in that buffer. -/
structure Slot where
  page_num : Nat
  byte_offset : Nat
deriving DecidableEq, Repr

/-- `row_slot` (main.c 242-248): the slot and the table afterwards. -/
def row_slot (heap : BTree.Heap) (table : Table) (row_num : Nat) :
    Except BTree.Fault (Slot × Table) :=
  let page_num := row_num / ROWS_PER_PAGE
  match get_page (heap.page page_num) table.pager page_num with
  | .error e => .error e
  | .ok (_, pager) =>
    let row_offset := row_num % ROWS_PER_PAGE
    let byte_offset := row_offset * ROW_SIZE % 2 ^ 32
    .ok ({ page_num := page_num, byte_offset := byte_offset }, { table with pager := pager })

/-- The memory from a slot to the end of its page buffer. -/
def slot_memory (table : Table) (slot : Slot) : Except BTree.Fault (List Nat) :=
  match table.pager.pages[slot.page_num]? with
  | some (some page) => .ok (page.drop slot.byte_offset)
  | _ => .error .undefined

/-- A store through a slot: `memory` replaces what lies from the slot to the end of
its page buffer. -/
def slot_store (table : Table) (slot : Slot) (memory : List Nat) : Except BTree.Fault Table :=
  match table.pager.pages[slot.page_num]? with
  | some (some page) =>
    .ok { table with
      pager := { table.pager with
        pages := table.pager.pages.set slot.page_num (some (page.take slot.byte_offset ++ memory)) } }
  | _ => .error .undefined

/-! ## Statements (`main.c` 294-314) -/

/-- `execute_insert` (main.c 294-305): result code and table afterwards. -/
def execute_insert (heap : BTree.Heap) (row_to_insert : Row) (table : Table) :
    Except BTree.Fault (ExecuteResult × Table) :=
  if table.num_rows ≥ TABLE_MAX_ROWS then .ok (.EXECUTE_TABLE_FULL, table)
  else
    match row_slot heap table table.num_rows with
    | .error e => .error e
    | .ok (slot, table) =>
      match slot_memory table slot with
      | .error e => .error e
      | .ok destination =>
        match slot_store table slot (serialize_row row_to_insert destination) with
        | .error e => .error e
        | .ok table =>
          .ok (.EXECUTE_SUCCESS, { table with num_rows := (table.num_rows + 1) % 2 ^ 32 })

/-- The `for` loop of `execute_select` (main.c 309-312), at index `i` with `n`
indices left to visit: the rows printed, in order. -/
def execute_select_loop (heap : BTree.Heap) : Nat → Nat → Table → Except BTree.Fault (List Row × Table)
  | 0, _, table => .ok ([], table)
  | n + 1, i, table =>
    match row_slot heap table i with
    | .error e => .error e
    | .ok (slot, table) =>
      match slot_memory table slot with
      | .error e => .error e
      | .ok source =>
        let row := deserialize_row source
        match execute_select_loop heap n (i + 1) table with
        | .error e => .error e
        | .ok (rows, table) => .ok (row :: rows, table)

/-- `execute_select` (main.c 307-314): result code, rows printed, table afterwards. -/
def execute_select (heap : BTree.Heap) (table : Table) :
    Except BTree.Fault (ExecuteResult × List Row × Table) :=
  match execute_select_loop heap table.num_rows 0 table with
  | .error e => .error e
  | .ok (rows, table) => .ok (.EXECUTE_SUCCESS, rows, table)

/-! ## Vocabulary of the statements -/

/-- The table after `execute_insert` has been called on each row in turn, provided
every call returned `EXECUTE_SUCCESS`. -/
def insert_rows (heap : BTree.Heap) : List Row → Table → Except BTree.Fault (Option Table)
  | [], table => .ok (some table)
  | row :: rows, table =>
    match execute_insert heap row table with
    | .error e => .error e
    | .ok (.EXECUTE_SUCCESS, table) => insert_rows heap rows table
    | .ok (.EXECUTE_TABLE_FULL, _) => .ok none

/-- The rows `execute_select` prints. -/
def select_rows (heap : BTree.Heap) (table : Table) : Except BTree.Fault (List Row) :=
  match execute_select heap table with
  | .error e => .error e
  | .ok (_, rows, _) => .ok rows

/-- The table holds `n` rows that were never written out: the file is empty, the
cache has its `TABLE_MAX_PAGES` slots, every buffer in it is `PAGE_SIZE` bytes long and
the pages that hold the `n` rows are in it. -/
def Loaded (table : Table) (n : Nat) : Prop :=
  table.num_rows = n ∧ table.pager.file = [] ∧ table.pager.file_length = 0 ∧
  table.pager.pages.length = TABLE_MAX_PAGES ∧
  (∀ (p : Nat) (page : BTree.Page),
    table.pager.pages[p]? = some (some page) → page.length = PAGE_SIZE) ∧
  (∀ p : Nat, p * ROWS_PER_PAGE < n → ∃ page, table.pager.pages[p]? = some (some page))

/-! ## Example data -/

/-- A row for examples: the given id, username "u", email "e", both NUL-padded to
the size of their field. -/
def sample_row (id : Nat) : Row :=
  { id := id
    username := 117 :: List.replicate 32 0
    email := 101 :: List.replicate 255 0 }

/-- The rows with ids `0, 1, .., n - 1`. -/
def sample_rows (n : Nat) : List Row := (List.range n).map sample_row

/-- A heap for examples: `malloc` delivers zeroed memory. -/
def sample_heap : BTree.Heap :=
  { page := fun _ => List.replicate PAGE_SIZE 0, end_of_table := false }

end Arr

namespace BTree

/-! ## Rows -/

theorem row_consts : ID_OFFSET = 0 ∧ ID_SIZE = 4 ∧ USERNAME_OFFSET = 4 ∧ USERNAME_SIZE = 33 ∧
    EMAIL_OFFSET = 37 ∧ EMAIL_SIZE = 256 ∧ ROW_SIZE = 293 := by decide

theorem read_u32_u32_bytes (v : Nat) (rest : List Nat) (hv : v < 2 ^ 32) :
    read_u32 (u32_bytes v ++ rest) 0 = v := by
  simp [read_u32, byte_at, u32_bytes]
  omega

theorem serialize_row_eq (r : Row) (dest : List Nat)
    (hu : r.username.length = USERNAME_SIZE) (he : r.email.length = EMAIL_SIZE) :
    serialize_row r dest = u32_bytes r.id ++ (r.username ++ (r.email ++ dest.drop ROW_SIZE)) := by
  obtain ⟨h1, h2, h3, h4, h5, h6, h7⟩ := row_consts
  rw [h4] at hu; rw [h6] at he
  have hlen : (u32_bytes r.id).length = 4 := rfl
  simp only [serialize_row, memcpy, h1, h2, h3, h4, h5, h6, h7]
  have e1 : List.take 4 (u32_bytes r.id) = u32_bytes r.id := List.take_of_length_le (by simp [hlen])
  have e2 : List.take 33 r.username = r.username := List.take_of_length_le (by omega)
  have e3 : List.take 256 r.email = r.email := List.take_of_length_le (by omega)
  simp only [List.take_zero, List.nil_append, e1, e2, e3, Nat.zero_add]
  have t1 : ∀ (a b : List Nat) (n : Nat), a.length = n → List.take n (a ++ b) = a := by
    intro a b n h; subst h; simp
  have d1 : ∀ (a b : List Nat) (n k : Nat), a.length = n → List.drop (n + k) (a ++ b) = b.drop k := by
    intro a b n k h; subst h; simp [List.drop_append]
  rw [t1 _ _ 4 hlen, d1 _ _ 4 33 hlen, List.drop_drop]
  rw [t1 (u32_bytes r.id ++ r.username) _ 37 (by simp [hlen, hu]),
    d1 (u32_bytes r.id ++ r.username) _ 37 256 (by simp [hlen, hu]), List.drop_drop]
  simp [List.append_assoc]

theorem deserialize_serialize_row (r : Row) (dest : List Nat) (hid : r.id < 2 ^ 32)
    (hu : r.username.length = USERNAME_SIZE) (he : r.email.length = EMAIL_SIZE) :
    deserialize_row (serialize_row r dest) = r := by
  rw [serialize_row_eq r dest hu he]
  obtain ⟨h1, h2, h3, h4, h5, h6, h7⟩ := row_consts
  rw [h4] at hu; rw [h6] at he
  have hlen : (u32_bytes r.id).length = 4 := rfl
  cases r with
  | mk id u e =>
    simp only [deserialize_row, h1, h3, h4, h5, h6] at *
    rw [read_u32_u32_bytes id _ hid]
    congr 1
    · rw [List.drop_append_of_le_length (by simp [hlen]), List.drop_of_length_le (by simp [hlen]), List.nil_append,
        List.take_append_of_le_length (by omega), List.take_of_length_le (by omega)]
    · rw [← List.append_assoc, List.drop_append_of_le_length (by simp [hlen, hu]),
        List.drop_of_length_le (by simp [hlen, hu]), List.nil_append,
        List.take_append_of_le_length (by omega), List.take_of_length_le (by omega)]

/-- C10: `deserialize_row` applied to the buffer written by `serialize_row r` gives back
`r` in all three fields; `serialize_row` writes exactly the `ROW_SIZE = 293` bytes
`[0, 293)` of the destination, the id in `[0, 4)`, the username in `[4, 37)`, the
email in `[37, 293)`, and leaves every other byte of the destination as it was. -/
theorem serialize_row_roundtrip (r : Row) (dest : List Nat) (hid : r.id < 2 ^ 32)
    (hu : r.username.length = 33) (he : r.email.length = 256) (hd : ROW_SIZE ≤ dest.length) :
    deserialize_row (serialize_row r dest) = r ∧
    ROW_SIZE = 293 ∧
    (serialize_row r dest).length = dest.length ∧
    (serialize_row r dest).take 4 = u32_bytes r.id ∧
    ((serialize_row r dest).drop 4).take 33 = r.username ∧
    ((serialize_row r dest).drop 37).take 256 = r.email ∧
    (serialize_row r dest).drop 293 = dest.drop 293 := by
  have hlen : (u32_bytes r.id).length = 4 := rfl
  have hrow : ROW_SIZE = 293 := by decide
  rw [hrow] at hd
  have heq := serialize_row_eq r dest hu he
  rw [hrow] at heq
  refine ⟨deserialize_serialize_row r dest hid hu he, hrow, ?_, ?_, ?_, ?_, ?_⟩
  · rw [heq]; simp [hlen, hu, he]; omega
  · rw [heq, List.take_append_of_le_length (by simp [hlen]), List.take_of_length_le (by simp [hlen])]
  · rw [heq, List.drop_append_of_le_length (by simp [hlen]), List.drop_of_length_le (by simp [hlen]),
      List.nil_append, List.take_append_of_le_length (by omega), List.take_of_length_le (by omega)]
  · rw [heq, ← List.append_assoc, List.drop_append_of_le_length (by simp [hlen, hu]),
      List.drop_of_length_le (by simp [hlen, hu]), List.nil_append,
      List.take_append_of_le_length (by omega), List.take_of_length_le (by omega)]
  · rw [heq, ← List.append_assoc, ← List.append_assoc, List.drop_append_of_le_length (by simp [hlen, hu, he]),
      List.drop_of_length_le (by simp [hlen, hu, he]), List.nil_append]

theorem serialize_row_roundtrip_witness :
    sample_row.id < 2 ^ 32 ∧ sample_row.username.length = 33 ∧ sample_row.email.length = 256 ∧
    deserialize_row (serialize_row sample_row (List.replicate PAGE_SIZE 7)) = sample_row ∧
    (serialize_row sample_row (List.replicate PAGE_SIZE 7)).drop 293
      = (List.replicate PAGE_SIZE 7).drop 293 := by
  have h1 : sample_row.id < 2 ^ 32 := by decide
  have h2 : sample_row.username.length = 33 := by decide
  have h3 : sample_row.email.length = 256 := by rfl
  have h4 : ROW_SIZE ≤ (List.replicate PAGE_SIZE 7).length := by
    rw [List.length_replicate]; decide
  have h := serialize_row_roundtrip sample_row (List.replicate PAGE_SIZE 7) h1 h2 h3 h4
  exact ⟨h1, h2, h3, h.1, h.2.2.2.2.2.2⟩

/-! ## Leaf search -/

theorem leaf_node_find_loop_spec (node : Page) (key n : Nat) (hn : n < 2 ^ 31)
    (hsorted : ∀ i j, i < j → j < n → leaf_node_key node i < leaf_node_key node j) :
    ∀ fuel lo hi, lo ≤ hi → hi ≤ n → hi - lo ≤ fuel →
      (∀ i, i < lo → leaf_node_key node i < key) →
      (∀ i, hi ≤ i → i < n → key < leaf_node_key node i) →
      ∃ r, leaf_node_find_loop node key fuel lo hi = .ok r ∧ lo ≤ r ∧ r ≤ hi ∧
        (∀ i, i < r → leaf_node_key node i < key) ∧
        (r < n → key ≤ leaf_node_key node r) := by
  intro fuel
  induction fuel with
  | zero =>
    intro lo hi hle hhi hfuel hlo hup
    have : hi = lo := by omega
    subst this
    refine ⟨hi, ?_, le_refl _, le_refl _, hlo, ?_⟩
    · unfold leaf_node_find_loop; simp
    · intro h; exact le_of_lt (hup hi (le_refl _) h)
  | succ fuel ih =>
    intro lo hi hle hhi hfuel hlo hup
    by_cases heq : hi = lo
    · subst heq
      refine ⟨hi, ?_, le_refl _, le_refl _, hlo, ?_⟩
      · unfold leaf_node_find_loop; simp
      · intro h; exact le_of_lt (hup hi (le_refl _) h)
    · have hlt : lo < hi := by omega
      have hmod : (lo + hi) % 2 ^ 32 / 2 = (lo + hi) / 2 := by
        rw [Nat.mod_eq_of_lt (by omega)]
      have hidx1 : lo ≤ (lo + hi) / 2 := by omega
      have hidx2 : (lo + hi) / 2 < hi := by omega
      have hmod2 : ((lo + hi) / 2 + 1) % 2 ^ 32 = (lo + hi) / 2 + 1 :=
        Nat.mod_eq_of_lt (by omega)
      unfold leaf_node_find_loop
      simp only [heq, if_false, hmod, hmod2]
      by_cases hk : key = leaf_node_key node ((lo + hi) / 2)
      · simp only [hk, if_true]
        refine ⟨(lo + hi) / 2, rfl, hidx1, le_of_lt hidx2, ?_, fun _ => le_refl _⟩
        intro i hi'
        exact hsorted i _ hi' (by omega)
      · simp only [hk, if_false]
        by_cases hlt' : key < leaf_node_key node ((lo + hi) / 2)
        · simp only [hlt', if_true]
          obtain ⟨r, hr, h1, h2, h3, h4⟩ := ih lo ((lo + hi) / 2) hidx1 (by omega) (by omega) hlo
            (by
              intro i hi1 hi2
              rcases Nat.eq_or_lt_of_le hi1 with h | h
              · rw [← h]; exact hlt'
              · exact lt_trans hlt' (hsorted _ i h hi2))
          exact ⟨r, hr, h1, by omega, h3, h4⟩
        · simp only [hlt', if_false]
          have hgt : leaf_node_key node ((lo + hi) / 2) < key := by omega
          obtain ⟨r, hr, h1, h2, h3, h4⟩ := ih ((lo + hi) / 2 + 1) hi (by omega) hhi (by omega)
            (by
              intro i hi1
              rcases Nat.eq_or_lt_of_le (Nat.le_of_lt_succ hi1) with h | h
              · rw [h]; exact hgt
              · exact lt_trans (hsorted i _ h (by omega)) hgt)
            hup
          exact ⟨r, hr, by omega, h2, h3, h4⟩

theorem get_page_hit (fresh : Page) (pager : Pager) (p : Nat) (page : Page)
    (hp : p ≤ TABLE_MAX_PAGES) (h : pager.pages[p]? = some (some page)) :
    get_page fresh pager p = .ok (page, pager) := by
  simp [get_page, Nat.not_lt.mpr hp, h]

theorem get_page_miss_eq (fresh : Page) (pager : Pager) (p : Nat)
    (hp : p ≤ TABLE_MAX_PAGES) (h : pager.pages[p]? = some none) :
    get_page fresh pager p = .ok (get_page_miss fresh pager p,
      { pager with
        pages := pager.pages.set p (some (get_page_miss fresh pager p))
        num_pages := if p ≥ pager.num_pages then (p + 1) % 2 ^ 32 else pager.num_pages }) := by
  simp [get_page, Nat.not_lt.mpr hp, h]

/-- What a successful `get_page` did: a cache hit, or a miss that filled the slot. -/
theorem get_page_ok (fresh : Page) (pager pager' : Pager) (p : Nat) (node : Page)
    (h : get_page fresh pager p = .ok (node, pager')) :
    p ≤ TABLE_MAX_PAGES ∧ p < pager.pages.length ∧
    ((pager.pages[p]? = some (some node) ∧ pager' = pager) ∨
     (pager.pages[p]? = some none ∧ node = get_page_miss fresh pager p ∧
      pager' = { pager with
        pages := pager.pages.set p (some node)
        num_pages := if p ≥ pager.num_pages then (p + 1) % 2 ^ 32 else pager.num_pages })) := by
  by_cases hp : p > TABLE_MAX_PAGES
  · simp [get_page, hp] at h
  · have hp' : p ≤ TABLE_MAX_PAGES := Nat.le_of_not_lt hp
    cases hslot : pager.pages[p]? with
    | none => simp [get_page, hp, hslot] at h
    | some slot =>
      have hlen : p < pager.pages.length := by
        rcases Nat.lt_or_ge p pager.pages.length with hl | hl
        · exact hl
        · rw [List.getElem?_eq_none hl] at hslot; cases hslot
      refine ⟨hp', hlen, ?_⟩
      cases slot with
      | some page =>
        rw [get_page_hit fresh pager p page hp' hslot] at h
        injection h with h
        injection h with h1 h2
        subst h1; subst h2
        exact Or.inl ⟨rfl, rfl⟩
      | none =>
        rw [get_page_miss_eq fresh pager p hp' hslot] at h
        injection h with h
        injection h with h1 h2
        subst h1
        exact Or.inr ⟨rfl, rfl, h2.symm⟩

theorem get_page_slot (fresh : Page) (pager pager' : Pager) (p : Nat) (node : Page)
    (h : get_page fresh pager p = .ok (node, pager')) :
    pager'.pages[p]? = some (some node) := by
  obtain ⟨_, hlen, hc | hc⟩ := get_page_ok fresh pager pager' p node h
  · rw [hc.2]; exact hc.1
  · rw [hc.2.2]; simp [List.getElem?_set, hlen]

theorem get_page_again (fresh fresh' : Page) (pager pager' : Pager) (p : Nat) (node : Page)
    (h : get_page fresh pager p = .ok (node, pager')) :
    get_page fresh' pager' p = .ok (node, pager') :=
  get_page_hit fresh' pager' p node (get_page_ok fresh pager pager' p node h).1
    (get_page_slot fresh pager pager' p node h)

theorem leaf_node_find_ok (heap : Heap) (fuel : Nat) (table : Table)
    (page_num key : Nat) (node : Page) (pager' : Pager)
    (hget : get_page (heap.page page_num) table.pager page_num = .ok (node, pager'))
    (hcells : leaf_node_num_cells node ≤ LEAF_NODE_MAX_CELLS)
    (hsorted : ∀ i j, i < j → j < leaf_node_num_cells node →
      leaf_node_key node i < leaf_node_key node j)
    (hfuel : leaf_node_num_cells node ≤ fuel) :
    ∃ cursor,
      leaf_node_find heap fuel table page_num key = .ok (cursor, { table with pager := pager' }) ∧
      (page_num = table.root_page_num → get_node_type node = NODE_LEAF →
        table_find heap fuel table key = .ok (cursor, { table with pager := pager' })) ∧
      cursor.page_num = page_num ∧
      cursor.cell_num ≤ leaf_node_num_cells node ∧
      (∀ i, i < cursor.cell_num → leaf_node_key node i < key) ∧
      (cursor.cell_num < leaf_node_num_cells node → key ≤ leaf_node_key node cursor.cell_num) ∧
      (∀ i, i < leaf_node_num_cells node → leaf_node_key node i = key → cursor.cell_num = i) := by
  obtain ⟨r, hr, _, h2, h3, h4⟩ :=
    leaf_node_find_loop_spec node key (leaf_node_num_cells node)
      (lt_of_le_of_lt hcells (by decide)) hsorted fuel 0
      (leaf_node_num_cells node) (Nat.zero_le _) (le_refl _) (by omega)
      (fun i hi => absurd hi (Nat.not_lt_zero i)) (fun i h1 h2 => absurd h2 (by omega))
  have hfind : leaf_node_find heap fuel table page_num key =
      .ok ({ page_num := page_num, cell_num := r, end_of_table := heap.end_of_table },
        { table with pager := pager' }) := by
    simp only [leaf_node_find, hget, hr]
  refine ⟨_, hfind, ?_, rfl, h2, h3, h4, ?_⟩
  · intro hroot hleaf
    subst hroot
    have hagain := get_page_again (heap.page table.root_page_num) (heap.page table.root_page_num)
      table.pager pager' table.root_page_num node hget
    simp only [table_find, hget, hleaf, if_true, leaf_node_find, hagain, hr]
  · intro i hi hkey
    show r = i
    rcases Nat.lt_trichotomy r i with h | h | h
    · have := h4 (by omega)
      have := hsorted r i h hi
      omega
    · exact h
    · have := h3 i h
      omega

/-- C1: on a leaf page (its `num_cells` cells lie inside the page, so there are at most
`LEAF_NODE_MAX_CELLS` of them) whose keys are strictly ascending, `leaf_node_find`
returns a cursor on that page whose `cell_num` is the smallest index `i` with
`key ≤ keys[i]`, or `num_cells` when the key exceeds every key; a stored key is found
at its index; `table_find` returns the same cursor when the root is that leaf. -/
theorem leaf_node_find_smallest_index (heap : Heap) (fuel : Nat) (table : Table)
    (page_num key : Nat) (node : Page) (pager' : Pager)
    (hget : get_page (heap.page page_num) table.pager page_num = .ok (node, pager'))
    (hcells : leaf_node_num_cells node ≤ LEAF_NODE_MAX_CELLS)
    (hsorted : ∀ i j, i < j → j < leaf_node_num_cells node →
      leaf_node_key node i < leaf_node_key node j)
    (hfuel : leaf_node_num_cells node ≤ fuel) :
    ∃ cursor,
      leaf_node_find heap fuel table page_num key = .ok (cursor, { table with pager := pager' }) ∧
      (page_num = table.root_page_num → get_node_type node = NODE_LEAF →
        table_find heap fuel table key = .ok (cursor, { table with pager := pager' })) ∧
      cursor.page_num = page_num ∧
      cursor.cell_num ≤ leaf_node_num_cells node ∧
      (∀ i, i < cursor.cell_num → leaf_node_key node i < key) ∧
      (cursor.cell_num < leaf_node_num_cells node → key ≤ leaf_node_key node cursor.cell_num) ∧
      (∀ i, i < leaf_node_num_cells node → leaf_node_key node i = key → cursor.cell_num = i) :=
  leaf_node_find_ok heap fuel table page_num key node pager' hget hcells hsorted hfuel

theorem leaf_node_find_smallest_index_witness :
    ∃ cursor,
      leaf_node_find sample_heap 3
          { pager := sample_pager [some (sample_leaf 1 0 [10, 20, 30])], root_page_num := 0 } 0 20
        = .ok (cursor,
            { pager := sample_pager [some (sample_leaf 1 0 [10, 20, 30])], root_page_num := 0 }) ∧
      cursor.cell_num = 1 := by
  have hkeys : ∀ i j, i < j → j < leaf_node_num_cells (sample_leaf 1 0 [10, 20, 30]) →
      leaf_node_key (sample_leaf 1 0 [10, 20, 30]) i
        < leaf_node_key (sample_leaf 1 0 [10, 20, 30]) j := by
    intro i j hij hj
    have hn : leaf_node_num_cells (sample_leaf 1 0 [10, 20, 30]) = 3 := by decide
    rw [hn] at hj
    interval_cases j <;> interval_cases i <;> decide
  obtain ⟨c, h1, _, _, _, _, _, h7⟩ :=
    leaf_node_find_smallest_index sample_heap 3
      { pager := sample_pager [some (sample_leaf 1 0 [10, 20, 30])], root_page_num := 0 } 0 20
      (sample_leaf 1 0 [10, 20, 30]) (sample_pager [some (sample_leaf 1 0 [10, 20, 30])])
      (by rfl) (by decide) hkeys (by decide)
  exact ⟨c, h1, h7 1 (by decide) (by decide)⟩

/-! ## Pager -/

theorem pager_open_ok (file : List Nat) (pager : Pager) (h : pager_open file = .ok pager) :
    file.length % PAGE_SIZE = 0 ∧
    pager = { file := file, file_length := file.length % 2 ^ 32,
              num_pages := file.length / PAGE_SIZE % 2 ^ 32,
              pages := List.replicate TABLE_MAX_PAGES none } := by
  unfold pager_open at h
  by_cases hm : file.length % PAGE_SIZE ≠ 0
  · simp [hm] at h
  · simp only [hm, if_false] at h
    injection h with h
    exact ⟨not_not.mp hm, h.symm⟩

theorem get_page_fails (fresh : Page) (pager : Pager) (p : Nat) (h : p > TABLE_MAX_PAGES) :
    get_page fresh pager p = .error .exit_failure := by
  simp [get_page, h]

/-- In every state of a session the cache has `TABLE_MAX_PAGES` slots and every loaded
slot lies below `num_pages`. -/
theorem reachable_slots (file : List Nat) (pager : Pager) (hr : Reachable file pager) :
    pager.pages.length = TABLE_MAX_PAGES ∧
    ∀ i page, pager.pages[i]? = some (some page) → i < pager.num_pages := by
  induction hr with
  | opened pager h =>
    obtain ⟨_, hp⟩ := pager_open_ok file pager h
    subst hp
    refine ⟨by simp, ?_⟩
    intro i page hi
    simp only [List.getElem?_replicate] at hi
    split at hi <;> cases hi
  | fetched pager pager' fresh page_num node _ _ hget ih =>
    obtain ⟨hp, hlen, hc | hc⟩ := get_page_ok fresh pager pager' page_num node hget
    · rw [hc.2]; exact ih
    · rw [hc.2.2]
      refine ⟨by simp [ih.1], ?_⟩
      intro i page hi
      have hmod : (page_num + 1) % 2 ^ 32 = page_num + 1 :=
        Nat.mod_eq_of_lt (by have : TABLE_MAX_PAGES = 100 := rfl; omega)
      simp only [hmod]
      by_cases hip : i = page_num
      · subst hip; split <;> omega
      · have hi' : pager.pages[i]? = some (some page) := by
          simpa [List.getElem?_set, Ne.symm hip] using hi
        have := ih.2 i page hi'
        split <;> omega
  | stored pager page_num old new _ hold _ ih =>
    refine ⟨by simp [ih.1], ?_⟩
    intro i page hi
    by_cases hip : i = page_num
    · subst hip; exact ih.2 i old hold
    · have hi' : pager.pages[i]? = some (some page) := by
        simpa [List.getElem?_set, Ne.symm hip] using hi
      exact ih.2 i page hi'

/-- C6: in every pager state reachable from `pager_open` by successful `get_page` calls,
`get_page` on a page number below `TABLE_MAX_PAGES` returns and leaves
`num_pages = max (old num_pages) (page_num + 1)`, on a cache hit as on a miss; so
`get_page` on `get_unused_page_num` raises `num_pages` by exactly one and the next
unused page number is the next integer. -/
theorem get_page_num_pages (file : List Nat) (pager : Pager) (hr : Reachable file pager)
    (fresh : Page) (page_num : Nat) (hp : page_num < TABLE_MAX_PAGES) :
    ∃ node pager', get_page fresh pager page_num = .ok (node, pager') ∧
      pager'.num_pages = max pager.num_pages (page_num + 1) ∧
      (page_num = get_unused_page_num pager →
        pager'.num_pages = pager.num_pages + 1 ∧
        get_unused_page_num pager' = get_unused_page_num pager + 1) := by
  obtain ⟨hlen, hload⟩ := reachable_slots file pager hr
  have h100 : TABLE_MAX_PAGES = 100 := rfl
  have hsome : ∃ slot, pager.pages[page_num]? = some slot :=
    ⟨pager.pages[page_num], List.getElem?_eq_getElem (by omega)⟩
  obtain ⟨slot, hslot⟩ := hsome
  cases slot with
  | some page =>
    have hlt := hload page_num page hslot
    refine ⟨page, pager, get_page_hit fresh pager page_num page (by omega) hslot, ?_, ?_⟩
    · rw [max_eq_left (by omega)]
    · intro h; unfold get_unused_page_num at h; omega
  | none =>
    refine ⟨_, _, get_page_miss_eq fresh pager page_num (by omega) hslot, ?_, ?_⟩
    · have hmod : (page_num + 1) % 2 ^ 32 = page_num + 1 := Nat.mod_eq_of_lt (by omega)
      simp only [hmod]
      split
      · rw [max_eq_right (by omega)]
      · rw [max_eq_left (by omega)]
    · intro h
      unfold get_unused_page_num at h ⊢
      subst h
      have hmod : (pager.num_pages + 1) % 2 ^ 32 = pager.num_pages + 1 :=
        Nat.mod_eq_of_lt (by omega)
      simp only [hmod, ge_iff_le, le_refl, if_true, and_self]

theorem get_page_num_pages_witness :
    ∃ node pager', get_page (List.replicate PAGE_SIZE 0) (sample_pager []) 0 = .ok (node, pager') ∧
      pager'.num_pages = 1 := by
  obtain ⟨node, pager', h1, h2, _⟩ :=
    get_page_num_pages [] (sample_pager []) (Reachable.opened _ rfl) (List.replicate PAGE_SIZE 0)
      0 (by decide)
  exact ⟨node, pager', h1, h2⟩

/-- C5 (the code at the boundary): on the pager `pager_open` returns, `get_page` with
`page_num = TABLE_MAX_PAGES = 100` passes the guard `page_num > TABLE_MAX_PAGES`; it
does not stop with `exit(EXIT_FAILURE)` but goes on to the slot `pages[100]`, which
lies outside the 100-entry cache. Only page numbers above 100 fail fatally. -/
theorem get_page_at_table_max_pages (fresh : Page) :
    pager_open [] = .ok (sample_pager []) ∧
    (sample_pager []).pages.length = 100 ∧
    get_page fresh (sample_pager []) TABLE_MAX_PAGES = .error .undefined ∧
    get_page fresh (sample_pager []) TABLE_MAX_PAGES ≠ .error .exit_failure ∧
    get_page fresh (sample_pager []) (TABLE_MAX_PAGES + 1) = .error .exit_failure := by
  refine ⟨rfl, rfl, ?_, ?_, ?_⟩
  · simp [get_page, sample_pager, TABLE_MAX_PAGES]
  · simp [get_page, sample_pager, TABLE_MAX_PAGES]
  · simp [get_page, TABLE_MAX_PAGES]

/-! ## Cursor -/

/-- A successful `get_page` leaves the file and every loaded buffer as they were. -/
theorem get_page_preserves (fresh : Page) (pager pager' : Pager) (p : Nat) (node : Page)
    (h : get_page fresh pager p = .ok (node, pager')) :
    pager'.file = pager.file ∧ pager'.file_length = pager.file_length ∧
    pager'.pages.length = pager.pages.length ∧
    ∀ (q : Nat) (page : Page),
      pager.pages[q]? = some (some page) → pager'.pages[q]? = some (some page) := by
  obtain ⟨_, hlen, hc | hc⟩ := get_page_ok fresh pager pager' p node h
  · rw [hc.2]; exact ⟨rfl, rfl, rfl, fun _ _ hq => hq⟩
  · rw [hc.2.2]
    refine ⟨rfl, rfl, by simp, ?_⟩
    intro q page hq
    have hne : p ≠ q := by
      intro hpq; subst hpq; rw [hc.1] at hq; cases hq
    simpa [List.getElem?_set, hne] using hq

/-- C8: for every cursor `(page_num, cell_num, end_of_table)` on a leaf with `n` cells
and next-leaf pointer `nx`, where `cell_num + 1` is the `uint32_t` sum the code computes,
`cursor_advance` yields `(page_num, cell_num + 1)` with `end_of_table` unchanged if
`cell_num + 1 < n`; `(nx, 0)` with `end_of_table` unchanged if `cell_num + 1 ≥ n` and
`nx ≠ 0`; the same page with `end_of_table = true` if `cell_num + 1 ≥ n` and `nx = 0`.
The sum is the exact one for every `cell_num` below `2^32 - 1`. The file and every
loaded page buffer stay as they were. -/
theorem cursor_advance_cases (heap : Heap) (table : Table) (cursor : Cursor) (node : Page)
    (pager' : Pager)
    (hget : get_page (heap.page cursor.page_num) table.pager cursor.page_num = .ok (node, pager')) :
    ∃ next, cursor_advance heap table cursor = .ok (next, { table with pager := pager' }) ∧
      ((cursor.cell_num + 1) % 2 ^ 32 < leaf_node_num_cells node →
        next = { cursor with cell_num := (cursor.cell_num + 1) % 2 ^ 32 }) ∧
      ((cursor.cell_num + 1) % 2 ^ 32 ≥ leaf_node_num_cells node →
        leaf_node_next_leaf node ≠ 0 →
        next = { page_num := leaf_node_next_leaf node, cell_num := 0,
                 end_of_table := cursor.end_of_table }) ∧
      ((cursor.cell_num + 1) % 2 ^ 32 ≥ leaf_node_num_cells node →
        leaf_node_next_leaf node = 0 →
        next = { page_num := cursor.page_num, cell_num := (cursor.cell_num + 1) % 2 ^ 32,
                 end_of_table := true }) ∧
      (cursor.cell_num + 1 < 2 ^ 32 → (cursor.cell_num + 1) % 2 ^ 32 = cursor.cell_num + 1) ∧
      pager'.file = table.pager.file ∧
      (∀ (q : Nat) (page : Page), table.pager.pages[q]? = some (some page) →
        pager'.pages[q]? = some (some page)) := by
  obtain ⟨hfile, _, _, hpages⟩ := get_page_preserves _ _ _ _ _ hget
  refine ⟨_, by simp only [cursor_advance, hget]; rfl, ?_, ?_, ?_, Nat.mod_eq_of_lt, hfile,
    hpages⟩
  · intro h
    simp only [Nat.reducePow] at h
    simp [Nat.not_le.mpr h]
  · intro h hnx
    simp only [Nat.reducePow] at h
    simp [h, hnx]
  · intro h hnx
    simp only [Nat.reducePow] at h
    simp [h, hnx]

/-- An instance of `cursor_advance_cases`: from cell 0 of a two-cell leaf to its
cell 1. -/
theorem cursor_advance_cases_witness :
    ∃ next, cursor_advance sample_heap
        { pager := sample_pager [some (sample_leaf 1 0 [10, 20])], root_page_num := 0 }
        { page_num := 0, cell_num := 0, end_of_table := false }
      = .ok (next, { pager := sample_pager [some (sample_leaf 1 0 [10, 20])], root_page_num := 0 }) ∧
      next = { page_num := 0, cell_num := 1, end_of_table := false } := by
  obtain ⟨next, h1, h2, _⟩ := cursor_advance_cases sample_heap
    { pager := sample_pager [some (sample_leaf 1 0 [10, 20])], root_page_num := 0 }
    { page_num := 0, cell_num := 0, end_of_table := false }
    (sample_leaf 1 0 [10, 20]) (sample_pager [some (sample_leaf 1 0 [10, 20])])
    (by rfl)
  exact ⟨next, h1, h2 (by decide)⟩

theorem table_start_ok (heap : Heap) (fuel : Nat) (table : Table) (node : Page)
    (pager' : Pager)
    (hget : get_page (heap.page table.root_page_num) table.pager table.root_page_num
      = .ok (node, pager'))
    (hleaf : get_node_type node = NODE_LEAF)
    (hcells : leaf_node_num_cells node ≤ LEAF_NODE_MAX_CELLS)
    (hsorted : ∀ i j, i < j → j < leaf_node_num_cells node →
      leaf_node_key node i < leaf_node_key node j)
    (hfuel : leaf_node_num_cells node ≤ fuel) :
    table_start heap fuel table
      = .ok ({ page_num := table.root_page_num, cell_num := 0,
               end_of_table := decide (leaf_node_num_cells node = 0) },
             { table with pager := pager' }) := by
  obtain ⟨c, _, hfind, hpage, _, hlow, _, _⟩ :=
    leaf_node_find_ok heap fuel table table.root_page_num 0 node pager' hget hcells hsorted hfuel
  have hfind := hfind rfl hleaf
  have hzero : c.cell_num = 0 := by
    rcases Nat.eq_zero_or_pos c.cell_num with h | h
    · exact h
    · exact absurd (hlow 0 h) (Nat.not_lt_zero _)
  have hagain := get_page_again (heap.page table.root_page_num) (heap.page table.root_page_num)
    table.pager pager' table.root_page_num node hget
  simp only [table_start, hfind, hpage, hagain, hzero]

/-- C9: when the root is a leaf with strictly ascending keys, `table_start` returns a
cursor on the root page with `cell_num = 0` and with `end_of_table = true` exactly
when the leaf has no cell; the file and every loaded page buffer stay as they were. -/
theorem table_start_root_leaf (heap : Heap) (fuel : Nat) (table : Table) (node : Page)
    (pager' : Pager)
    (hget : get_page (heap.page table.root_page_num) table.pager table.root_page_num
      = .ok (node, pager'))
    (hleaf : get_node_type node = NODE_LEAF)
    (hcells : leaf_node_num_cells node ≤ LEAF_NODE_MAX_CELLS)
    (hsorted : ∀ i j, i < j → j < leaf_node_num_cells node →
      leaf_node_key node i < leaf_node_key node j)
    (hfuel : leaf_node_num_cells node ≤ fuel) :
    ∃ cursor, table_start heap fuel table = .ok (cursor, { table with pager := pager' }) ∧
      cursor.page_num = table.root_page_num ∧ cursor.cell_num = 0 ∧
      (cursor.end_of_table = true ↔ leaf_node_num_cells node = 0) ∧
      pager'.file = table.pager.file ∧
      (∀ (q : Nat) (page : Page), table.pager.pages[q]? = some (some page) →
        pager'.pages[q]? = some (some page)) := by
  obtain ⟨hfile, _, _, hpages⟩ := get_page_preserves _ _ _ _ _ hget
  exact ⟨_, table_start_ok heap fuel table node pager' hget hleaf hcells hsorted hfuel, rfl, rfl,
    by simp, hfile, hpages⟩

theorem table_start_root_leaf_witness :
    ∃ cursor, table_start sample_heap 3
        { pager := sample_pager [some (sample_leaf 1 0 [10, 20, 30])], root_page_num := 0 }
      = .ok (cursor,
          { pager := sample_pager [some (sample_leaf 1 0 [10, 20, 30])], root_page_num := 0 }) ∧
      cursor.cell_num = 0 ∧ cursor.end_of_table = false := by
  have hkeys : ∀ i j, i < j → j < leaf_node_num_cells (sample_leaf 1 0 [10, 20, 30]) →
      leaf_node_key (sample_leaf 1 0 [10, 20, 30]) i
        < leaf_node_key (sample_leaf 1 0 [10, 20, 30]) j := by
    intro i j hij hj
    have hn : leaf_node_num_cells (sample_leaf 1 0 [10, 20, 30]) = 3 := by decide
    rw [hn] at hj
    interval_cases j <;> interval_cases i <;> decide
  obtain ⟨c, h1, _, h3, h4, _⟩ :=
    table_start_root_leaf sample_heap 3
      { pager := sample_pager [some (sample_leaf 1 0 [10, 20, 30])], root_page_num := 0 }
      (sample_leaf 1 0 [10, 20, 30]) (sample_pager [some (sample_leaf 1 0 [10, 20, 30])])
      (by rfl) (by decide) (by decide) hkeys (by decide)
  refine ⟨c, h1, h3, ?_⟩
  cases hc : c.end_of_table with
  | false => rfl
  | true => exact absurd (h4.mp hc) (by decide)

/-! ## Insertion -/

/-- When the root is a leaf the page `execute_insert` fetched first is the leaf of the
cursor, and a stored key is reported as a duplicate without touching a page. -/
theorem execute_insert_duplicate_root_leaf (heap : Heap) (fuel : Nat)
    (leaf_node_insert : Table → Cursor → Nat → Row → Except Fault Table)
    (row : Row) (table : Table) (node : Page) (pager' : Pager)
    (hget : get_page (heap.page table.root_page_num) table.pager table.root_page_num
      = .ok (node, pager'))
    (hleaf : get_node_type node = NODE_LEAF)
    (hcells : leaf_node_num_cells node ≤ LEAF_NODE_MAX_CELLS)
    (hsorted : ∀ i j, i < j → j < leaf_node_num_cells node →
      leaf_node_key node i < leaf_node_key node j)
    (hfuel : leaf_node_num_cells node ≤ fuel)
    (i : Nat) (hi : i < leaf_node_num_cells node) (hkey : leaf_node_key node i = row.id) :
    execute_insert heap fuel leaf_node_insert row table
      = .ok (.EXECUTE_DUPLICATE_KEY, { table with pager := pager' }) := by
  have hagain := get_page_again (heap.page table.root_page_num) (heap.page table.root_page_num)
    table.pager pager' table.root_page_num node hget
  obtain ⟨c, _, hfind, _, _, _, _, hidx⟩ :=
    leaf_node_find_ok heap fuel { table with pager := pager' } table.root_page_num row.id node
      pager' hagain hcells hsorted hfuel
  have hfind := hfind rfl hleaf
  have hc : c.cell_num = i := hidx i hi hkey
  simp only [execute_insert, hget, hfind, hc, hi, hkey, and_self, if_true]

/-- C2 (the code on a tree with an internal root): key 2 is stored in the left leaf
(page 2) at cell 1 and `table_find` returns exactly that position, but
`execute_insert` compares against the root page it fetched first: it reads the
root's key count (1) as `num_cells`, so the guard `cell_num < num_cells` fails and
the row goes to `leaf_node_insert`; the result is never `EXECUTE_DUPLICATE_KEY`. -/
theorem execute_insert_misses_duplicate
    (leaf_node_insert : Table → Cursor → Nat → Row → Except Fault Table) :
    table_find sample_heap 7 sample_tree 2
      = .ok ({ page_num := 2, cell_num := 1, end_of_table := false }, sample_tree) ∧
    leaf_node_key (sample_leaf 0 1 [1, 2, 3, 4, 5, 6, 7]) 1 = 2 ∧
    execute_insert sample_heap 7 leaf_node_insert { sample_row with id := 2 } sample_tree
      = (match leaf_node_insert sample_tree { page_num := 2, cell_num := 1, end_of_table := false }
            2 { sample_row with id := 2 } with
         | .error e => .error e
         | .ok table => .ok (.EXECUTE_SUCCESS, table)) := by
  exact ⟨rfl, by decide, rfl⟩

/-! ## Files and `db_close` -/

theorem file_write_length (file : List Nat) (off : Nat) (data : List Nat) :
    (file_write file off data).length = max file.length (off + data.length) := by
  simp only [file_write, List.length_append, List.length_take, List.length_replicate,
    List.length_drop]
  omega

theorem file_read_getElem? (file : List Nat) (off n k : Nat) :
    (file_read file off n)[k]? = if k < n then file[off + k]? else none := by
  simp only [file_read, List.getElem?_take, List.getElem?_drop]

theorem file_write_getElem?_low (file : List Nat) (off : Nat) (data : List Nat) (i : Nat)
    (h1 : i < off) (h2 : i < file.length) : (file_write file off data)[i]? = file[i]? := by
  have hlen : ((file ++ List.replicate (off - file.length) 0).take off).length = off := by
    simp only [List.length_take, List.length_append, List.length_replicate]; omega
  simp only [file_write, List.append_assoc]
  rw [List.getElem?_append_left (by omega), List.getElem?_take, if_pos h1,
    List.getElem?_append_left h2]

theorem file_write_getElem?_mid (file : List Nat) (off : Nat) (data : List Nat) (i : Nat)
    (h1 : off ≤ i) (h2 : i < off + data.length) :
    (file_write file off data)[i]? = data[i - off]? := by
  have hlen : ((file ++ List.replicate (off - file.length) 0).take off).length = off := by
    simp only [List.length_take, List.length_append, List.length_replicate]; omega
  simp only [file_write, List.append_assoc]
  rw [List.getElem?_append_right (by omega), hlen, List.getElem?_append_left (by omega)]

theorem file_write_getElem?_high (file : List Nat) (off : Nat) (data : List Nat) (i : Nat)
    (h1 : off + data.length ≤ i) : (file_write file off data)[i]? = file[i]? := by
  have hlen : ((file ++ List.replicate (off - file.length) 0).take off).length = off := by
    simp only [List.length_take, List.length_append, List.length_replicate]; omega
  simp only [file_write, List.append_assoc]
  rw [List.getElem?_append_right (by omega), hlen, List.getElem?_append_right (by omega),
    List.getElem?_drop]
  congr 1
  omega

theorem file_read_write_same (file : List Nat) (off : Nat) (data : List Nat) :
    file_read (file_write file off data) off data.length = data := by
  apply List.ext_getElem?
  intro k
  rw [file_read_getElem?]
  by_cases hk : k < data.length
  · rw [if_pos hk, file_write_getElem?_mid file off data (off + k) (by omega) (by omega)]
    congr 1; omega
  · rw [if_neg hk, List.getElem?_eq_none (by omega)]

theorem file_read_write_other (file : List Nat) (off : Nat) (data : List Nat) (off' n : Nat)
    (hin : off' + n ≤ file.length) (hdisj : off' + n ≤ off ∨ off + data.length ≤ off') :
    file_read (file_write file off data) off' n = file_read file off' n := by
  apply List.ext_getElem?
  intro k
  rw [file_read_getElem?, file_read_getElem?]
  by_cases hk : k < n
  · rw [if_pos hk, if_pos hk]
    rcases hdisj with h | h
    · exact file_write_getElem?_low file off data _ (by omega) (by omega)
    · exact file_write_getElem?_high file off data _ (by omega)
  · rw [if_neg hk, if_neg hk]

theorem disk_page_length (file : List Nat) (p : Nat) (h : (p + 1) * PAGE_SIZE ≤ file.length) :
    (disk_page file p).length = PAGE_SIZE := by
  simp only [disk_page, file_read, List.length_take, List.length_drop]
  have : (p + 1) * PAGE_SIZE = p * PAGE_SIZE + PAGE_SIZE := by ring
  omega

theorem pager_flush_ok (pager : Pager) (i : Nat) (page : Page)
    (hi : i ≤ TABLE_MAX_PAGES) (hslot : pager.pages[i]? = some (some page))
    (hlen : page.length = PAGE_SIZE) :
    pager_flush pager i = .ok { pager with file := file_write pager.file (i * PAGE_SIZE) page } := by
  have hmod : i * PAGE_SIZE % 2 ^ 32 = i * PAGE_SIZE := by
    apply Nat.mod_eq_of_lt
    have h1 : TABLE_MAX_PAGES = 100 := rfl
    have h2 : PAGE_SIZE = 4096 := rfl
    rw [h2]; omega
  have htake : page.take PAGE_SIZE = page := List.take_of_length_le (by omega)
  simp only [pager_flush, hslot, hmod, htake]

/-- The first loop of `db_close` over the slots `[i, i + n)` inside the cache: it
returns; the file does not shrink and ends no later than page `i + n`; every loaded
page of the range stands in the file afterwards; every page of the file that is not
flushed keeps its bytes. -/
theorem db_close_loop_spec : ∀ (n i : Nat) (pager : Pager),
    i + n ≤ pager.pages.length → i + n ≤ TABLE_MAX_PAGES →
    (∀ (j : Nat) (page : Page), pager.pages[j]? = some (some page) → page.length = PAGE_SIZE) →
    ∃ pager', db_close_loop n i pager = .ok pager' ∧
      pager.file.length ≤ pager'.file.length ∧
      pager'.file.length ≤ max pager.file.length ((i + n) * PAGE_SIZE) ∧
      (∀ (p : Nat) (page : Page), i ≤ p → p < i + n → pager.pages[p]? = some (some page) →
        (p + 1) * PAGE_SIZE ≤ pager'.file.length ∧ disk_page pager'.file p = page) ∧
      (∀ (p : Nat), (p + 1) * PAGE_SIZE ≤ pager.file.length →
        (p < i ∨ i + n ≤ p ∨ pager.pages[p]? = some none) →
        disk_page pager'.file p = disk_page pager.file p) := by
  intro n
  induction n with
  | zero =>
    intro i pager _ _ _
    refine ⟨pager, rfl, le_refl _, le_max_left _ _, ?_, fun _ _ _ => rfl⟩
    intro p page h1 h2
    omega
  | succ n ih =>
    intro i pager hlen hmax hpages
    have hi : i < pager.pages.length := by omega
    obtain ⟨slot, hslot⟩ : ∃ slot, pager.pages[i]? = some slot :=
      ⟨pager.pages[i], List.getElem?_eq_getElem hi⟩
    cases slot with
    | none =>
      obtain ⟨pager', hrun, h1, h2, h3, h4⟩ := ih (i + 1) pager (by omega) (by omega) hpages
      refine ⟨pager', by simp only [db_close_loop, hslot, hrun], h1, ?_, ?_, ?_⟩
      · have : i + 1 + n = i + (n + 1) := by ring
        rw [this] at h2; exact h2
      · intro p page hp1 hp2 hp
        rcases Nat.eq_or_lt_of_le hp1 with h | h
        · subst h; rw [hslot] at hp; cases hp
        · exact h3 p page h (by omega) hp
      · intro p hin hp
        apply h4 p hin
        rcases hp with h | h | h
        · exact Or.inl (by omega)
        · exact Or.inr (Or.inl (by omega))
        · by_cases hpi : p < i + 1
          · exact Or.inl hpi
          · exact Or.inr (Or.inr h)
    | some page =>
      have hpl : page.length = PAGE_SIZE := hpages i page hslot
      have hflush := pager_flush_ok pager i page (by omega) hslot hpl
      have hwlen := file_write_length pager.file (i * PAGE_SIZE) page
      have hmul : (i + 1) * PAGE_SIZE = i * PAGE_SIZE + PAGE_SIZE := by ring
      obtain ⟨pager', hrun, h1, h2, h3, h4⟩ := ih (i + 1)
        ({ pager with file := file_write pager.file (i * PAGE_SIZE) page,
                      pages := pager.pages.set i none })
        (by simp only [List.length_set]; omega) (by omega)
        (by
          intro j pg hj
          by_cases hji : i = j
          · subst hji
            simp [List.getElem?_set, hi] at hj
          · have hj' : pager.pages[j]? = some (some pg) := by
              simpa [List.getElem?_set, hji] using hj
            exact hpages j pg hj')
      simp only at h1 h2 h3 h4
      refine ⟨pager', by simp only [db_close_loop, hslot, hflush, hrun], ?_, ?_, ?_, ?_⟩
      · omega
      · have hmul2 : (i + 1 + n) * PAGE_SIZE = (i + (n + 1)) * PAGE_SIZE := by ring_nf
        have hle : (i + 1) * PAGE_SIZE ≤ (i + 1 + n) * PAGE_SIZE :=
          Nat.mul_le_mul_right _ (by omega)
        rw [hmul2] at h2 hle
        omega
      · intro p pg hp1 hp2 hp
        rcases Nat.eq_or_lt_of_le hp1 with h | h
        · subst h
          rw [hslot] at hp
          injection hp with hp; injection hp with hp; subst hp
          have hin : (i + 1) * PAGE_SIZE ≤ (file_write pager.file (i * PAGE_SIZE) page).length := by
            omega
          refine ⟨by omega, ?_⟩
          rw [h4 i hin (Or.inl (by omega))]
          have := file_read_write_same pager.file (i * PAGE_SIZE) page
          rw [hpl] at this
          exact this
        · have hp' : (pager.pages.set i none)[p]? = some (some pg) := by
            simpa [List.getElem?_set, Nat.ne_of_lt h] using hp
          exact h3 p pg h (by omega) hp'
      · intro p hin hp
        have hne : p ≠ i := by
          rcases hp with h | h | h
          · omega
          · omega
          · intro hpi; subst hpi; rw [hslot] at h; cases h
        have hpm : (p + 1) * PAGE_SIZE = p * PAGE_SIZE + PAGE_SIZE := by ring
        have hkeep : disk_page (file_write pager.file (i * PAGE_SIZE) page) p
            = disk_page pager.file p := by
          apply file_read_write_other _ _ _ _ _ (by omega)
          rcases Nat.lt_or_gt_of_ne hne with h | h
          · left
            have : (p + 1) * PAGE_SIZE ≤ i * PAGE_SIZE := Nat.mul_le_mul_right _ h
            omega
          · right
            have : (i + 1) * PAGE_SIZE ≤ p * PAGE_SIZE := Nat.mul_le_mul_right _ h
            omega
        rw [← hkeep]
        apply h4 p (by omega)
        rcases hp with h | h | h
        · exact Or.inl (by omega)
        · exact Or.inr (Or.inl (by omega))
        · by_cases hpi : p < i + 1
          · exact Or.inl hpi
          · refine Or.inr (Or.inr ?_)
            simpa [List.getElem?_set, Ne.symm hne] using h

/-- The first loop of `db_close` returns only if the slots it visits lie in the cache. -/
theorem db_close_loop_in_cache : ∀ (n i : Nat) (pager pager' : Pager),
    db_close_loop n i pager = .ok pager' → n = 0 ∨ i + n ≤ pager.pages.length := by
  intro n
  induction n with
  | zero => intro i pager pager' _; exact Or.inl rfl
  | succ n ih =>
    intro i pager pager' h
    right
    cases hslot : pager.pages[i]? with
    | none => simp [db_close_loop, hslot] at h
    | some slot =>
      have hi : i < pager.pages.length := by
        rcases Nat.lt_or_ge i pager.pages.length with hl | hl
        · exact hl
        · rw [List.getElem?_eq_none hl] at hslot; cases hslot
      cases slot with
      | none =>
        simp only [db_close_loop, hslot] at h
        rcases ih (i + 1) pager pager' h with h0 | h0
        · omega
        · omega
      | some page =>
        simp only [db_close_loop, hslot] at h
        cases hflush : pager_flush pager i with
        | error e => simp [hflush] at h
        | ok flushed =>
          simp only [hflush] at h
          have hfl : flushed.pages = pager.pages := by
            simp only [pager_flush, hslot] at hflush
            injection hflush with hflush
            rw [← hflush]
          rcases ih (i + 1) _ pager' h with h0 | h0
          · omega
          · simp only [List.length_set, hfl] at h0
            omega

theorem get_page_miss_length (fresh : Page) (pager : Pager) (p : Nat)
    (h : fresh.length = PAGE_SIZE) : (get_page_miss fresh pager p).length = PAGE_SIZE := by
  have aux : ∀ (c : Prop) [Decidable c] (bytes : List Nat), bytes.length ≤ PAGE_SIZE →
      (if c then bytes ++ fresh.drop bytes.length else fresh).length = PAGE_SIZE := by
    intro c _ bytes hb
    split
    · simp only [List.length_append, List.length_drop]; omega
    · exact h
  unfold get_page_miss
  exact aux _ _ (by simp only [file_read, List.length_take]; omega)

/-- In every state of a session the file is the one that was opened and every loaded
buffer has `PAGE_SIZE` bytes. -/
theorem reachable_file (file : List Nat) (pager : Pager) (hr : Reachable file pager) :
    pager.file = file ∧ pager.file_length = file.length % 2 ^ 32 ∧
    file.length % PAGE_SIZE = 0 ∧
    ∀ (j : Nat) (page : Page), pager.pages[j]? = some (some page) → page.length = PAGE_SIZE := by
  induction hr with
  | opened pager h =>
    obtain ⟨hm, hp⟩ := pager_open_ok file pager h
    subst hp
    refine ⟨rfl, rfl, hm, ?_⟩
    intro j page hj
    simp only [List.getElem?_replicate] at hj
    split at hj <;> cases hj
  | fetched pager pager' fresh page_num node _ hfresh hget ih =>
    obtain ⟨_, hlen, hc | hc⟩ := get_page_ok fresh pager pager' page_num node hget
    · rw [hc.2]; exact ih
    · rw [hc.2.2]
      refine ⟨ih.1, ih.2.1, ih.2.2.1, ?_⟩
      intro j page hj
      by_cases hjp : page_num = j
      · subst hjp
        simp only [List.getElem?_set, hlen, if_true] at hj
        injection hj with hj; injection hj with hj
        rw [← hj, hc.2.1]
        exact get_page_miss_length fresh pager page_num hfresh
      · have hj' : pager.pages[j]? = some (some page) := by
          simpa [List.getElem?_set, hjp] using hj
        exact ih.2.2.2 j page hj'
  | stored pager page_num old new _ hold hnew ih =>
    refine ⟨ih.1, ih.2.1, ih.2.2.1, ?_⟩
    intro j page hj
    by_cases hjp : page_num = j
    · subst hjp
      have hlt : page_num < pager.pages.length := by
        rcases Nat.lt_or_ge page_num pager.pages.length with hl | hl
        · exact hl
        · rw [List.getElem?_eq_none hl] at hold; cases hold
      simp only [List.getElem?_set, hlt, if_true] at hj
      injection hj with hj; injection hj with hj
      rw [← hj]; exact hnew
    · have hj' : pager.pages[j]? = some (some page) := by
        simpa [List.getElem?_set, hjp] using hj
      exact ih.2.2.2 j page hj'

/-- In every state of a session on a file shorter than 2^32 bytes, the file ends at
or before page `num_pages`, and exactly there unless the last page is loaded. -/
theorem reachable_top (file : List Nat) (pager : Pager) (hr : Reachable file pager)
    (hsize : file.length < 2 ^ 32) :
    file.length ≤ pager.num_pages * PAGE_SIZE ∧
    (file.length = pager.num_pages * PAGE_SIZE ∨
      ∃ page, 1 ≤ pager.num_pages ∧ pager.pages[pager.num_pages - 1]? = some (some page)) := by
  induction hr with
  | opened pager h =>
    obtain ⟨hm, hp⟩ := pager_open_ok file pager h
    subst hp
    have h1 : file.length / PAGE_SIZE % 2 ^ 32 = file.length / PAGE_SIZE :=
      Nat.mod_eq_of_lt (lt_of_le_of_lt (Nat.div_le_self _ _) hsize)
    have h2 : file.length / PAGE_SIZE * PAGE_SIZE = file.length :=
      Nat.div_mul_cancel (Nat.dvd_of_mod_eq_zero hm)
    simp only [h1, h2, le_refl, true_or, and_self]
  | fetched pager pager' fresh page_num node hprev _ hget ih =>
    obtain ⟨hp, hlen, hc | hc⟩ := get_page_ok fresh pager pager' page_num node hget
    · rw [hc.2]; exact ih
    · rw [hc.2.2]
      have hmod : (page_num + 1) % 2 ^ 32 = page_num + 1 :=
        Nat.mod_eq_of_lt (by have : TABLE_MAX_PAGES = 100 := rfl; omega)
      simp only [hmod]
      by_cases hge : page_num ≥ pager.num_pages
      · simp only [hge, if_true]
        refine ⟨?_, Or.inr ⟨node, by omega, ?_⟩⟩
        · have : pager.num_pages * PAGE_SIZE ≤ (page_num + 1) * PAGE_SIZE :=
            Nat.mul_le_mul_right _ (by omega)
          omega
        · simp [List.getElem?_set, hlen]
      · simp only [hge, if_false]
        refine ⟨ih.1, ?_⟩
        rcases ih.2 with h | ⟨page, h1, h2⟩
        · exact Or.inl h
        · right
          by_cases hpn : page_num = pager.num_pages - 1
          · exact ⟨node, h1, by rw [← hpn]; simp [List.getElem?_set, hlen]⟩
          · exact ⟨page, h1, by simpa [List.getElem?_set, hpn] using h2⟩
  | stored pager page_num old new _ hold _ ih =>
    refine ⟨ih.1, ?_⟩
    rcases ih.2 with h | ⟨page, h1, h2⟩
    · exact Or.inl h
    · right
      have hlt : page_num < pager.pages.length := by
        rcases Nat.lt_or_ge page_num pager.pages.length with hl | hl
        · exact hl
        · rw [List.getElem?_eq_none hl] at hold; cases hold
      by_cases hpn : page_num = pager.num_pages - 1
      · exact ⟨new, h1, by rw [← hpn]; simp [List.getElem?_set, hlt]⟩
      · exact ⟨page, h1, by simpa [List.getElem?_set, hpn] using h2⟩

theorem zero_file_length (n : Nat) : (zero_file n).length = n := List.length_replicate _ _

theorem pager_open_eq (file : List Nat) (h : file.length % PAGE_SIZE = 0) :
    pager_open file = .ok { file := file, file_length := file.length % 2 ^ 32,
                            num_pages := file.length / PAGE_SIZE % 2 ^ 32,
                            pages := List.replicate TABLE_MAX_PAGES none } := by
  simp only [pager_open, h, ne_eq, not_true_eq_false, if_false]

theorem db_close_no_pages (pager : Pager) (root_page_num : Nat) (h : pager.num_pages = 0) :
    db_close { pager := pager, root_page_num := root_page_num } = .ok pager.file := by
  simp only [db_close, h, db_close_loop]

/-- C4 (as stated, on a very long file): the file of 2^44 zero bytes has a length that
is a multiple of `PAGE_SIZE`; `pager_open` stores its page count 2^32 into the 32-bit
`num_pages` as 0; `db_close` on that state succeeds and leaves the file as long as
it was, which is not `num_pages * PAGE_SIZE = 0`. -/
theorem db_close_huge_file :
    (zero_file (2 ^ 44)).length % PAGE_SIZE = 0 ∧
    pager_open (zero_file (2 ^ 44))
      = .ok { file := zero_file (2 ^ 44), file_length := 0, num_pages := 0,
              pages := List.replicate TABLE_MAX_PAGES none } ∧
    db_close { pager := { file := zero_file (2 ^ 44), file_length := 0, num_pages := 0,
                          pages := List.replicate TABLE_MAX_PAGES none },
               root_page_num := 0 } = .ok (zero_file (2 ^ 44)) ∧
    (zero_file (2 ^ 44)).length ≠ 0 * PAGE_SIZE := by
  have hp : PAGE_SIZE = 4096 := rfl
  have h1 : (zero_file (2 ^ 44)).length % PAGE_SIZE = 0 := by
    rw [zero_file_length, hp]; norm_num
  have h2 : (zero_file (2 ^ 44)).length % 2 ^ 32 = 0 := by
    rw [zero_file_length]; norm_num
  have h3 : (zero_file (2 ^ 44)).length / PAGE_SIZE % 2 ^ 32 = 0 := by
    rw [zero_file_length, hp]; norm_num
  refine ⟨h1, ?_, db_close_no_pages _ 0 rfl, ?_⟩
  · rw [pager_open_eq _ h1, h2, h3]
  · rw [zero_file_length]; norm_num

/-- C4 (amended): for every pager state reachable from `pager_open` on a file whose
length is a multiple of `PAGE_SIZE` and below 2^32 by successful `get_page` calls, a
successful `db_close` leaves the file with length exactly `num_pages * PAGE_SIZE`,
although it skips the slots that were never loaded; and `db_close` does succeed when
`num_pages ≤ TABLE_MAX_PAGES`. -/
theorem db_close_file_length (file : List Nat) (pager : Pager) (hr : Reachable file pager)
    (hsize : file.length < 2 ^ 32) (root_page_num : Nat) :
    (∀ file', db_close { pager := pager, root_page_num := root_page_num } = .ok file' →
      file'.length = pager.num_pages * PAGE_SIZE) ∧
    (pager.num_pages ≤ TABLE_MAX_PAGES →
      ∃ file', db_close { pager := pager, root_page_num := root_page_num } = .ok file') := by
  obtain ⟨hslots, _⟩ := reachable_slots file pager hr
  obtain ⟨hfile, _, _, hpages⟩ := reachable_file file pager hr
  obtain ⟨htop1, htop2⟩ := reachable_top file pager hr hsize
  have key : pager.num_pages ≤ TABLE_MAX_PAGES →
      ∃ file', db_close { pager := pager, root_page_num := root_page_num } = .ok file' ∧
        file'.length = pager.num_pages * PAGE_SIZE := by
    intro hle
    obtain ⟨pager', hrun, h1, h2, h3, _⟩ :=
      db_close_loop_spec pager.num_pages 0 pager (by omega) (by omega) hpages
    refine ⟨pager'.file, by simp only [db_close, hrun], ?_⟩
    rw [hfile] at h1 h2
    simp only [Nat.zero_add] at h2 h3
    rcases htop2 with h | ⟨page, hn, hp⟩
    · omega
    · have := (h3 (pager.num_pages - 1) page (Nat.zero_le _) (by omega) hp).1
      have hs : pager.num_pages - 1 + 1 = pager.num_pages := by omega
      rw [hs] at this
      omega
  refine ⟨?_, fun hle => ?_⟩
  · intro file' hclose
    have hle : pager.num_pages ≤ TABLE_MAX_PAGES := by
      cases hrun : db_close_loop pager.num_pages 0 pager with
      | error e => simp [db_close, hrun] at hclose
      | ok pager' =>
        rcases db_close_loop_in_cache _ _ _ _ hrun with h | h
        · omega
        · omega
    obtain ⟨f, hf, hlen⟩ := key hle
    rw [hf] at hclose
    injection hclose with hclose
    rw [← hclose]; exact hlen
  · obtain ⟨f, hf, _⟩ := key hle
    exact ⟨f, hf⟩

theorem db_close_file_length_witness :
    ∃ file', db_close { pager := sample_pager [some (List.replicate PAGE_SIZE 0)],
                        root_page_num := 0 } = .ok file' ∧
      file'.length = 1 * PAGE_SIZE := by
  have hr : Reachable [] (sample_pager [some (List.replicate PAGE_SIZE 0)]) :=
    Reachable.fetched (sample_pager []) _ (List.replicate PAGE_SIZE 0) 0
      (List.replicate PAGE_SIZE 0) (Reachable.opened _ rfl) (List.length_replicate _ _) rfl
  obtain ⟨h1, h2⟩ := db_close_file_length [] _ hr (by decide) 0
  obtain ⟨file', hf⟩ := h2 (by decide)
  exact ⟨file', hf, h1 file' hf⟩

/-! ## Scanning the leaves -/

theorem get_page_at (heap : Heap) (pager : Pager) (p : Nat) (h : Fetchable pager p) :
    ∃ pager', get_page (heap.page p) pager p = .ok (page_at heap pager p, pager') ∧
      SamePages heap pager pager' ∧ pager'.file = pager.file ∧
      (∀ (q : Nat) (page : Page), pager.pages[q]? = some (some page) →
        pager'.pages[q]? = some (some page)) := by
  obtain ⟨h1, h2⟩ := h
  obtain ⟨slot, hslot⟩ : ∃ slot, pager.pages[p]? = some slot :=
    ⟨pager.pages[p], List.getElem?_eq_getElem h2⟩
  cases slot with
  | some page =>
    refine ⟨pager, ?_, ⟨rfl, fun _ => rfl⟩, rfl, fun _ _ hq => hq⟩
    rw [get_page_hit _ pager p page h1 hslot]
    simp only [page_at, hslot]
  | none =>
    have hpa : page_at heap pager p = get_page_miss (heap.page p) pager p := by
      simp only [page_at, hslot]
    have hget := get_page_miss_eq (heap.page p) pager p h1 hslot
    refine ⟨{ pager with
        pages := pager.pages.set p (some (get_page_miss (heap.page p) pager p))
        num_pages := if p ≥ pager.num_pages then (p + 1) % 2 ^ 32 else pager.num_pages },
      by rw [hget, hpa], ⟨by simp, ?_⟩, rfl, ?_⟩
    · intro q
      by_cases hq : p = q
      · subst hq
        simp only [page_at, hslot, List.getElem?_set, h2, if_true]
      · simp only [page_at, List.getElem?_set, hq, if_false]
        rfl
    · intro q page hq
      have hne : p ≠ q := by
        intro hpq; subst hpq; rw [hslot] at hq; cases hq
      simpa [List.getElem?_set, hne] using hq

theorem same_pages_refl (heap : Heap) (a : Pager) : SamePages heap a a := ⟨rfl, fun _ => rfl⟩

theorem same_pages_trans {heap : Heap} {a b c : Pager} (h1 : SamePages heap a b)
    (h2 : SamePages heap b c) : SamePages heap a c :=
  ⟨h1.1.trans h2.1, fun q => (h1.2 q).trans (h2.2 q)⟩

theorem same_pages_fetchable {heap : Heap} {a b : Pager} (h : SamePages heap a b) {p : Nat}
    (hp : Fetchable a p) : Fetchable b p := ⟨hp.1, h.1 ▸ hp.2⟩

theorem internal_node_find_child_zero (node : Page) : internal_node_find_child node 0 = 0 := by
  unfold internal_node_find_child
  cases hn : internal_node_num_keys node with
  | zero => simp
  | succ n => simp [List.range_succ_eq_map]

theorem leftmost_mono {heap : Heap} {a b : Pager} (hab : SamePages heap a b) {p leaf : Nat}
    (h : Leftmost heap a p leaf) : Leftmost heap b p leaf := by
  induction h with
  | leaf p hf ht => exact Leftmost.leaf p (same_pages_fetchable hab hf) (by rw [← hab.2]; exact ht)
  | step p leaf hf ht _ ih =>
    exact Leftmost.step p leaf (same_pages_fetchable hab hf) (by rw [← hab.2]; exact ht)
      (by rw [← hab.2]; exact ih)

theorem leaf_chain_mono {heap : Heap} {a b : Pager} (hab : SamePages heap a b) {p : Nat}
    {leaves : List Page} (h : LeafChain heap a p leaves) : LeafChain heap b p leaves := by
  induction h with
  | last p node hf hn hx => exact LeafChain.last p node (same_pages_fetchable hab hf) (by rw [← hab.2]; exact hn) hx
  | next p node rest hf hn hx _ ih =>
    exact LeafChain.next p node rest (same_pages_fetchable hab hf) (by rw [← hab.2]; exact hn) hx ih

theorem leftmost_fetchable {heap : Heap} {pager : Pager} {p leaf : Nat}
    (h : Leftmost heap pager p leaf) : Fetchable pager p := by
  cases h with
  | leaf _ hf _ => exact hf
  | step _ _ hf _ _ => exact hf

theorem leftmost_of_leaf {heap : Heap} {pager : Pager} {p leaf : Nat}
    (h : Leftmost heap pager p leaf)
    (ht : get_node_type (page_at heap pager p) = NODE_LEAF) : p = leaf := by
  cases h with
  | leaf _ _ _ => rfl
  | step _ _ _ hi _ => rw [hi] at ht; exact absurd ht (by decide)

theorem leftmost_leaf_type {heap : Heap} {pager : Pager} {p leaf : Nat}
    (h : Leftmost heap pager p leaf) :
    Fetchable pager leaf ∧ get_node_type (page_at heap pager leaf) = NODE_LEAF := by
  induction h with
  | leaf p hf ht => exact ⟨hf, ht⟩
  | step p leaf _ _ _ ih => exact ih

theorem leftmost_node_type {heap : Heap} {pager : Pager} {p leaf : Nat}
    (h : Leftmost heap pager p leaf) :
    get_node_type (page_at heap pager p) = NODE_LEAF ∨
    get_node_type (page_at heap pager p) = NODE_INTERNAL := by
  cases h with
  | leaf _ _ ht => exact Or.inl ht
  | step _ _ _ ht _ => exact Or.inr ht

/-- The leaf search for key 0 on a fetchable, sorted leaf ends on its first cell. -/
theorem leaf_node_find_at (heap : Heap) (fuel root : Nat) (pager : Pager) (p : Nat)
    (hf : Fetchable pager p)
    (hcells : leaf_node_num_cells (page_at heap pager p) ≤ LEAF_NODE_MAX_CELLS)
    (hsorted : LeafSorted (page_at heap pager p))
    (hfuel : leaf_node_num_cells (page_at heap pager p) ≤ fuel) :
    ∃ pager', leaf_node_find heap fuel { pager := pager, root_page_num := root } p 0
        = .ok ({ page_num := p, cell_num := 0, end_of_table := heap.end_of_table },
               { pager := pager', root_page_num := root }) ∧
      SamePages heap pager pager' := by
  obtain ⟨pager', hget, hsame, _⟩ := get_page_at heap pager p hf
  obtain ⟨r, hr, _, _, h3, _⟩ :=
    leaf_node_find_loop_spec (page_at heap pager p) 0 (leaf_node_num_cells (page_at heap pager p))
      (lt_of_le_of_lt hcells (by decide)) hsorted fuel 0
      (leaf_node_num_cells (page_at heap pager p)) (Nat.zero_le _) (le_refl _) (by omega)
      (fun i hi => absurd hi (Nat.not_lt_zero i)) (fun i h1 h2 => absurd h2 (by omega))
  have hzero : r = 0 := by
    rcases Nat.eq_zero_or_pos r with h | h
    · exact h
    · exact absurd (h3 0 h) (Nat.not_lt_zero _)
  subst hzero
  exact ⟨pager', by simp only [leaf_node_find, hget, hr], hsame⟩

/-- Going down from an internal page for key 0 follows the first children and ends on
the first cell of the leftmost leaf, given fuel for the depth and the leaf search. -/
theorem internal_node_find_leftmost (heap : Heap) (root : Nat) (pager : Pager) (p leaf : Nat)
    (h : Leftmost heap pager p leaf)
    (hcells : leaf_node_num_cells (page_at heap pager leaf) ≤ LEAF_NODE_MAX_CELLS)
    (hsorted : LeafSorted (page_at heap pager leaf)) :
    get_node_type (page_at heap pager p) = NODE_INTERNAL →
    ∃ d, ∀ fuel, d + leaf_node_num_cells (page_at heap pager leaf) ≤ fuel →
      ∀ pager2, SamePages heap pager pager2 →
      ∃ pager', internal_node_find heap fuel { pager := pager2, root_page_num := root } p 0
          = .ok ({ page_num := leaf, cell_num := 0, end_of_table := heap.end_of_table },
                 { pager := pager', root_page_num := root }) ∧
        SamePages heap pager2 pager' := by
  induction h with
  | leaf p _ ht =>
    intro hi
    rw [hi] at ht
    exact absurd ht (by decide)
  | step p leaf hf _ hsub ih =>
    intro _
    have hcf := leftmost_fetchable hsub
    have step1 : ∀ fuel pager2, SamePages heap pager pager2 →
        ∃ pagerB, SamePages heap pager2 pagerB ∧
          internal_node_find heap (fuel + 1) { pager := pager2, root_page_num := root } p 0 =
            (if get_node_type (page_at heap pager
                  (internal_node_child (page_at heap pager p) 0)) = NODE_LEAF then
              leaf_node_find heap fuel { pager := pagerB, root_page_num := root }
                (internal_node_child (page_at heap pager p) 0) 0
            else if get_node_type (page_at heap pager
                  (internal_node_child (page_at heap pager p) 0)) = NODE_INTERNAL then
              internal_node_find heap fuel { pager := pagerB, root_page_num := root }
                (internal_node_child (page_at heap pager p) 0) 0
            else .error .undefined) := by
      intro fuel pager2 h2
      obtain ⟨pagerA, hgetA, hsA, _⟩ := get_page_at heap pager2 p (same_pages_fetchable h2 hf)
      rw [← h2.2] at hgetA
      have h2A := same_pages_trans h2 hsA
      obtain ⟨pagerB, hgetB, hsB, _⟩ := get_page_at heap pagerA
        (internal_node_child (page_at heap pager p) 0) (same_pages_fetchable h2A hcf)
      rw [← h2A.2] at hgetB
      refine ⟨pagerB, same_pages_trans hsA hsB, ?_⟩
      simp only [internal_node_find, hgetA, internal_node_find_child_zero, hgetB]
    rcases leftmost_node_type hsub with hleaf | hint
    · have hc : internal_node_child (page_at heap pager p) 0 = leaf := leftmost_of_leaf hsub hleaf
      refine ⟨1, ?_⟩
      intro fuel hfuel pager2 h2
      obtain ⟨f, rfl⟩ : ∃ f, fuel = f + 1 := ⟨fuel - 1, by omega⟩
      obtain ⟨pagerB, hsB, heq⟩ := step1 f pager2 h2
      rw [heq, if_pos hleaf, hc]
      have h2B := same_pages_trans h2 hsB
      obtain ⟨pager', hfind, hs'⟩ := leaf_node_find_at heap f root pagerB leaf
        (same_pages_fetchable h2B (hc ▸ hcf)) (by rw [← h2B.2]; exact hcells)
        (by rw [← h2B.2]; exact hsorted) (by rw [← h2B.2]; omega)
      exact ⟨pager', hfind, same_pages_trans hsB hs'⟩
    · obtain ⟨d, hd⟩ := ih hcells hsorted hint
      refine ⟨d + 1, ?_⟩
      intro fuel hfuel pager2 h2
      obtain ⟨f, rfl⟩ : ∃ f, fuel = f + 1 := ⟨fuel - 1, by omega⟩
      obtain ⟨pagerB, hsB, heq⟩ := step1 f pager2 h2
      have hnl : ¬ get_node_type (page_at heap pager
          (internal_node_child (page_at heap pager p) 0)) = NODE_LEAF := by
        rw [hint]; decide
      rw [heq, if_neg hnl, if_pos hint]
      obtain ⟨pager', hfind, hs'⟩ := hd f (by omega) pagerB (same_pages_trans h2 hsB)
      exact ⟨pager', hfind, same_pages_trans hsB hs'⟩

/-- `table_find` for key 0 ends on the first cell of the leftmost leaf. -/
theorem table_find_leftmost (heap : Heap) (table : Table) (leaf : Nat)
    (h : Leftmost heap table.pager table.root_page_num leaf)
    (hcells : leaf_node_num_cells (page_at heap table.pager leaf) ≤ LEAF_NODE_MAX_CELLS)
    (hsorted : LeafSorted (page_at heap table.pager leaf)) :
    ∃ d, ∀ fuel, d + leaf_node_num_cells (page_at heap table.pager leaf) ≤ fuel →
      ∃ pager', table_find heap fuel table 0
          = .ok ({ page_num := leaf, cell_num := 0, end_of_table := heap.end_of_table },
                 { pager := pager', root_page_num := table.root_page_num }) ∧
        SamePages heap table.pager pager' := by
  obtain ⟨pagerA, hgetA, hsA, _⟩ := get_page_at heap table.pager table.root_page_num (leftmost_fetchable h)
  rcases leftmost_node_type h with hleaf | hint
  · have hc : table.root_page_num = leaf := leftmost_of_leaf h hleaf
    refine ⟨0, ?_⟩
    intro fuel hfuel
    obtain ⟨pager', hfind, hs'⟩ := leaf_node_find_at heap fuel table.root_page_num pagerA leaf
      (same_pages_fetchable hsA (hc ▸ leftmost_fetchable h)) (by rw [← hsA.2]; exact hcells)
      (by rw [← hsA.2]; exact hsorted) (by rw [← hsA.2]; omega)
    refine ⟨pager', ?_, same_pages_trans hsA hs'⟩
    simp only [table_find, hgetA, hleaf, if_true]
    rw [← hfind, hc]
  · obtain ⟨d, hd⟩ := internal_node_find_leftmost heap table.root_page_num table.pager
      table.root_page_num leaf h hcells hsorted hint
    refine ⟨d, ?_⟩
    intro fuel hfuel
    obtain ⟨pager', hfind, hs'⟩ := hd fuel hfuel pagerA hsA
    refine ⟨pager', ?_, same_pages_trans hsA hs'⟩
    have hnl : ¬ get_node_type (page_at heap table.pager table.root_page_num) = NODE_LEAF := by
      rw [hint]; decide
    simp only [table_find, hgetA, hnl, if_false]
    exact hfind

theorem byte_at_lt (buf : List Nat) (off : Nat) : byte_at buf off < 256 :=
  Nat.mod_lt _ (by decide)

theorem read_u32_lt (buf : List Nat) (off : Nat) : read_u32 buf off < 2 ^ 32 := by
  have h0 := byte_at_lt buf off
  have h1 := byte_at_lt buf (off + 1)
  have h2 := byte_at_lt buf (off + 2)
  have h3 := byte_at_lt buf (off + 3)
  unfold read_u32
  omega

theorem leaf_rows_from_cons (node : Page) (k : Nat) (h : k < leaf_node_num_cells node) :
    leaf_rows_from node k
      = deserialize_row (leaf_node_value node k) :: leaf_rows_from node (k + 1) := by
  unfold leaf_rows_from
  obtain ⟨m, hm⟩ : ∃ m, leaf_node_num_cells node - k = m + 1 :=
    ⟨leaf_node_num_cells node - k - 1, by omega⟩
  have hm' : leaf_node_num_cells node - (k + 1) = m := by omega
  rw [hm, hm', List.range'_succ, List.map_cons]

theorem leaf_rows_from_end (node : Page) (k : Nat) (h : leaf_node_num_cells node ≤ k) :
    leaf_rows_from node k = [] := by
  unfold leaf_rows_from
  have : leaf_node_num_cells node - k = 0 := by omega
  rw [this, List.range'_zero, List.map_nil]

/-- One iteration of the scan loop on a cell of a fetchable leaf. -/
theorem execute_select_loop_step (heap : Heap) (root : Nat) (pager : Pager) (p k : Nat)
    (hf : Fetchable pager p) (hk : k < leaf_node_num_cells (page_at heap pager p))
    (fuel : Nat) :
    ∃ pager', SamePages heap pager pager' ∧
      execute_select_loop heap (fuel + 1) { pager := pager, root_page_num := root }
          { page_num := p, cell_num := k, end_of_table := false } =
        (match execute_select_loop heap fuel { pager := pager', root_page_num := root }
            (if k + 1 ≥ leaf_node_num_cells (page_at heap pager p) then
              (if leaf_node_next_leaf (page_at heap pager p) = 0 then
                { page_num := p, cell_num := k + 1, end_of_table := true }
              else
                { page_num := leaf_node_next_leaf (page_at heap pager p), cell_num := 0,
                  end_of_table := false })
            else { page_num := p, cell_num := k + 1, end_of_table := false }) with
        | .error e => .error e
        | .ok (rows, table) =>
          .ok (deserialize_row (leaf_node_value (page_at heap pager p) k) :: rows, table)) := by
  obtain ⟨pagerA, hgetA, hsA, _⟩ := get_page_at heap pager p hf
  obtain ⟨pagerB, hgetB, hsB, _⟩ := get_page_at heap pagerA p (same_pages_fetchable hsA hf)
  rw [← hsA.2] at hgetB
  have hn := read_u32_lt (page_at heap pager p) LEAF_NODE_NUM_CELLS_OFFSET
  have hmod : (k + 1) % 2 ^ 32 = k + 1 := by
    apply Nat.mod_eq_of_lt
    unfold leaf_node_num_cells at hk
    omega
  refine ⟨pagerB, same_pages_trans hsA hsB, ?_⟩
  rw [execute_select_loop.eq_def]
  simp only [Bool.false_eq_true, if_false, cursor_value, hgetA, cursor_advance, hgetB, hmod]

theorem execute_select_loop_done (heap : Heap) (fuel : Nat) (table : Table) (cursor : Cursor)
    (h : cursor.end_of_table = true) :
    execute_select_loop heap fuel table cursor = .ok ([], table) := by
  rw [execute_select_loop.eq_def]
  simp only [h, if_true]

/-- The scan loop, started on cell `k` of the first leaf of a chain of non-empty
leaves, yields the rows of the remaining cells of that leaf and of all cells of the
following leaves, in order, given one unit of fuel per cell. -/
theorem execute_select_loop_chain (heap : Heap) (root : Nat) (pager : Pager) (p : Nat)
    (leaves : List Page) (h : LeafChain heap pager p leaves) :
    (∀ node ∈ leaves, 0 < leaf_node_num_cells node) →
    ∀ (m k fuel : Nat) (pager2 : Pager), SamePages heap pager pager2 →
      k + m = leaf_node_num_cells (page_at heap pager p) → 0 < m →
      m + ((leaves.tail.map leaf_node_num_cells).sum) ≤ fuel →
      ∃ pager', execute_select_loop heap fuel { pager := pager2, root_page_num := root }
          { page_num := p, cell_num := k, end_of_table := false }
          = .ok (leaf_rows_from (page_at heap pager p) k ++ leaves.tail.flatMap leaf_rows,
                 { pager := pager', root_page_num := root }) ∧
        SamePages heap pager2 pager' := by
  induction h with
  | last p node hf hnode hnx =>
    intro _ m
    induction m with
    | zero => intro k fuel pager2 _ _ hm; omega
    | succ m ihm =>
      intro k fuel pager2 h2 hkm _ hfuel
      obtain ⟨f, rfl⟩ : ∃ f, fuel = f + 1 := ⟨fuel - 1, by omega⟩
      obtain ⟨pagerB, hsB, heq⟩ := execute_select_loop_step heap root pager2 p k
        (same_pages_fetchable h2 hf) (by rw [← h2.2]; omega) f
      rw [← h2.2] at heq
      rw [heq, leaf_rows_from_cons _ k (by omega)]
      by_cases hend : k + 1 ≥ leaf_node_num_cells (page_at heap pager p)
      · rw [hnode] at hend ⊢
        simp only [hend, hnx, if_true]
        rw [execute_select_loop_done _ _ _ _ rfl, leaf_rows_from_end _ _ hend]
        exact ⟨pagerB, rfl, hsB⟩
      · simp only [hend, if_false]
        obtain ⟨pager', hrun, hs'⟩ := ihm (k + 1) f pagerB (same_pages_trans h2 hsB) (by omega) (by omega)
          (by simp only [List.tail_cons, List.map_nil, List.sum_nil] at hfuel ⊢; omega)
        rw [hrun]
        exact ⟨pager', rfl, same_pages_trans hsB hs'⟩
  | next p node rest hf hnode hnx hrest ih =>
    intro hpos m
    have hrestpos : ∀ n ∈ rest, 0 < leaf_node_num_cells n :=
      fun n hn => hpos n (List.mem_cons_of_mem _ hn)
    induction m with
    | zero => intro k fuel pager2 _ _ hm; omega
    | succ m ihm =>
      intro k fuel pager2 h2 hkm _ hfuel
      obtain ⟨f, rfl⟩ : ∃ f, fuel = f + 1 := ⟨fuel - 1, by omega⟩
      obtain ⟨pagerB, hsB, heq⟩ := execute_select_loop_step heap root pager2 p k
        (same_pages_fetchable h2 hf) (by rw [← h2.2]; omega) f
      rw [← h2.2] at heq
      rw [heq, leaf_rows_from_cons _ k (by omega)]
      simp only [List.tail_cons] at hfuel ⊢
      by_cases hend : k + 1 ≥ leaf_node_num_cells (page_at heap pager p)
      · rw [hnode] at hend ⊢
        simp only [hend, hnx, if_true, if_false]
        rw [leaf_rows_from_end _ _ hend]
        have hhead : ∃ first others, rest = first :: others ∧
            page_at heap pager (leaf_node_next_leaf node) = first := by
          cases hrest with
          | last _ n _ hn _ => exact ⟨n, [], rfl, hn⟩
          | next _ n r _ hn _ _ => exact ⟨n, r, rfl, hn⟩
        obtain ⟨first, others, hr, hfirst⟩ := hhead
        have hfpos : 0 < leaf_node_num_cells first := hrestpos first (by rw [hr]; simp)
        obtain ⟨pager', hrun, hs'⟩ := ih hrestpos (leaf_node_num_cells first) 0 f pagerB
          (same_pages_trans h2 hsB) (by rw [hfirst]; omega) hfpos
          (by
            rw [hr] at hfuel ⊢
            simp only [List.map_cons, List.sum_cons, List.tail_cons] at hfuel ⊢
            rw [hnode] at hkm
            omega)
        rw [hrun, hfirst]
        refine ⟨pager', ?_, same_pages_trans hsB hs'⟩
        rw [hr]
        simp only [List.nil_append, List.tail_cons, List.flatMap_cons, leaf_rows]
        rfl
      · simp only [hend, if_false]
        obtain ⟨pager', hrun, hs'⟩ := ihm (k + 1) f pagerB (same_pages_trans h2 hsB) (by omega) (by omega)
          (by simp only [List.tail_cons]; omega)
        rw [hrun]
        exact ⟨pager', rfl, same_pages_trans hsB hs'⟩

theorem leaf_keys_pairwise (node : Page) (h : LeafSorted node) :
    (leaf_keys node).Pairwise (· < ·) := by
  unfold leaf_keys
  rw [List.pairwise_map]
  have hr : (List.range (leaf_node_num_cells node)).Pairwise (· < ·) := List.pairwise_lt_range _
  have hm : ∀ i ∈ List.range (leaf_node_num_cells node), i < leaf_node_num_cells node :=
    fun i hi => List.mem_range.mp hi
  revert hr hm
  generalize List.range (leaf_node_num_cells node) = l
  intro hr hm
  induction l with
  | nil => exact List.Pairwise.nil
  | cons a l ih =>
    rw [List.pairwise_cons] at hr ⊢
    refine ⟨fun b hb => h a b (hr.1 b hb) (hm b (List.mem_cons_of_mem _ hb)), ?_⟩
    exact ih hr.2 (fun i hi => hm i (List.mem_cons_of_mem _ hi))

theorem leaf_keys_bounds (node : Page) (h : LeafSorted node) (x : Nat) (hx : x ∈ leaf_keys node) :
    leaf_node_key node 0 ≤ x ∧ x ≤ leaf_node_key node (leaf_node_num_cells node - 1) := by
  unfold leaf_keys at hx
  obtain ⟨i, hi, rfl⟩ := List.mem_map.mp hx
  have hi' := List.mem_range.mp hi
  constructor
  · rcases Nat.eq_zero_or_pos i with h0 | h0
    · rw [h0]
    · exact le_of_lt (h 0 i h0 hi')
  · rcases Nat.eq_or_lt_of_le (Nat.le_sub_one_of_lt hi') with h0 | h0
    · rw [h0]
    · exact le_of_lt (h i _ h0 (by omega))

/-- Sorted non-empty leaves whose last key lies below the first key of the next leaf
hold, read in chain order, a strictly ascending sequence of keys. -/
theorem chain_keys_pairwise (leaves : List Page)
    (hpos : ∀ node ∈ leaves, 0 < leaf_node_num_cells node)
    (hsorted : ∀ node ∈ leaves, LeafSorted node)
    (hacross : List.Chain'
      (fun a b => leaf_node_key a (leaf_node_num_cells a - 1) < leaf_node_key b 0) leaves) :
    (leaves.flatMap leaf_keys).Pairwise (· < ·) ∧
    ∀ first rest, leaves = first :: rest →
      ∀ y ∈ leaves.flatMap leaf_keys, leaf_node_key first 0 ≤ y := by
  induction leaves with
  | nil => exact ⟨List.Pairwise.nil, fun _ _ h => by cases h⟩
  | cons a rest ih =>
    have hrest := ih (fun n hn => hpos n (List.mem_cons_of_mem _ hn))
      (fun n hn => hsorted n (List.mem_cons_of_mem _ hn)) (List.Chain'.tail hacross)
    have ha := hsorted a (List.mem_cons_self _ _)
    have hcross : ∀ x ∈ leaf_keys a, ∀ y ∈ rest.flatMap leaf_keys, x < y := by
      intro x hx y hy
      cases rest with
      | nil => simp at hy
      | cons b rest' =>
        have h1 := (leaf_keys_bounds a ha x hx).2
        have h2 := hrest.2 b rest' rfl y hy
        have h3 : leaf_node_key a (leaf_node_num_cells a - 1) < leaf_node_key b 0 :=
          (List.chain'_cons.mp hacross).1
        omega
    refine ⟨?_, ?_⟩
    · rw [List.flatMap_cons, List.pairwise_append]
      exact ⟨leaf_keys_pairwise a ha, hrest.1, hcross⟩
    · intro first rest' hfr y hy
      injection hfr with h1 h2
      subst h1
      rw [List.flatMap_cons, List.mem_append] at hy
      rcases hy with hy | hy
      · exact (leaf_keys_bounds a ha y hy).1
      · have hmem : leaf_node_key a 0 ∈ leaf_keys a := by
          unfold leaf_keys
          exact List.mem_map.mpr ⟨0, List.mem_range.mpr (hpos a (List.mem_cons_self _ _)), rfl⟩
        exact le_of_lt (hcross _ hmem y hy)

theorem leaf_chain_head {heap : Heap} {pager : Pager} {p : Nat} {leaves : List Page}
    (h : LeafChain heap pager p leaves) :
    Fetchable pager p ∧ ∃ rest, leaves = page_at heap pager p :: rest := by
  cases h with
  | last _ node hf hn _ => exact ⟨hf, [], by rw [hn]⟩
  | next _ node rest hf hn _ _ => exact ⟨hf, rest, by rw [hn]⟩

/-- The scan of `execute_select` over a chain of leaves: `table_start`, then the loop. -/
theorem execute_select_chain (heap : Heap) (table : Table) (p0 : Nat) (leaves : List Page)
    (hleft : Leftmost heap table.pager table.root_page_num p0)
    (hchain : LeafChain heap table.pager p0 leaves)
    (hne : (∀ node ∈ leaves, 0 < leaf_node_num_cells node) ∨
      (∃ node, leaves = [node] ∧ leaf_node_num_cells node = 0))
    (hcells : ∀ node ∈ leaves, leaf_node_num_cells node ≤ LEAF_NODE_MAX_CELLS)
    (hsorted : ∀ node ∈ leaves, LeafSorted node) :
    ∃ N, ∀ fuel, N ≤ fuel →
      ∃ pager', execute_select heap fuel table
          = .ok (.EXECUTE_SUCCESS, leaves.flatMap leaf_rows,
                 { pager := pager', root_page_num := table.root_page_num }) ∧
        SamePages heap table.pager pager' := by
  obtain ⟨hf0, rest, hl⟩ := leaf_chain_head hchain
  have hmem : page_at heap table.pager p0 ∈ leaves := by rw [hl]; exact List.mem_cons_self _ _
  obtain ⟨d, hd⟩ := table_find_leftmost heap table p0 hleft (hcells _ hmem) (hsorted _ hmem)
  refine ⟨d + (leaves.map leaf_node_num_cells).sum, ?_⟩
  intro fuel hfuel
  have hsum : (leaves.map leaf_node_num_cells).sum
      = leaf_node_num_cells (page_at heap table.pager p0)
        + (leaves.tail.map leaf_node_num_cells).sum := by
    rw [hl]; simp only [List.map_cons, List.sum_cons, List.tail_cons]
  obtain ⟨pager1, hfind, hs1⟩ := hd fuel (by omega)
  obtain ⟨pager2, hget2, hs2, _⟩ := get_page_at heap pager1 p0 (same_pages_fetchable hs1 hf0)
  rw [← hs1.2] at hget2
  have hs12 := same_pages_trans hs1 hs2
  have hstart : table_start heap fuel table
      = .ok ({ page_num := p0, cell_num := 0,
               end_of_table := decide (leaf_node_num_cells (page_at heap table.pager p0) = 0) },
             { pager := pager2, root_page_num := table.root_page_num }) := by
    simp only [table_start, hfind, hget2]
  rcases Nat.eq_zero_or_pos (leaf_node_num_cells (page_at heap table.pager p0)) with hz | hpos
  · have hone : leaves = [page_at heap table.pager p0] := by
      rcases hne with h | ⟨node, h, _⟩
      · exact absurd (h _ hmem) (by omega)
      · rw [h] at hl ⊢
        injection hl with h1 h2
        rw [h1]
    refine ⟨pager2, ?_, hs12⟩
    simp only [execute_select, hstart, hz, decide_True]
    rw [execute_select_loop_done _ _ _ _ rfl, hone]
    simp only [List.flatMap_cons, List.flatMap_nil, List.append_nil, leaf_rows]
    rw [leaf_rows_from_end _ _ (by omega)]
  · have hall : ∀ node ∈ leaves, 0 < leaf_node_num_cells node := by
      rcases hne with h | ⟨node, h, hn⟩
      · exact h
      · rw [h] at hl
        injection hl with h1 h2
        rw [← h1] at hpos
        omega
    obtain ⟨pager3, hloop, hs3⟩ := execute_select_loop_chain heap table.root_page_num
      table.pager p0 leaves hchain hall (leaf_node_num_cells (page_at heap table.pager p0)) 0
      fuel pager2 hs12 (by omega) hpos (by omega)
    refine ⟨pager3, ?_, same_pages_trans hs12 hs3⟩
    have hd : decide (leaf_node_num_cells (page_at heap table.pager p0) = 0) = false := by
      simp only [decide_eq_false_iff_not]; omega
    simp only [execute_select, hstart, hd, hloop]
    congr 3
    rw [hl]
    simp only [List.flatMap_cons, List.tail_cons, leaf_rows]

/-- C7: on a tree whose leaves form a `next_leaf` chain from the leftmost leaf to a leaf
with `next_leaf = 0`, with keys strictly ascending within each leaf and from each leaf
to the next and every leaf non-empty (or a single empty leaf), the scan of
`execute_select` returns for every large enough step budget, yields exactly the rows of
the cells of the chain's leaves in chain and cell order, each once, and the keys of
those cells in that order are strictly ascending. -/
theorem execute_select_visits_chain (heap : Heap) (table : Table) (p0 : Nat)
    (leaves : List Page)
    (hleft : Leftmost heap table.pager table.root_page_num p0)
    (hchain : LeafChain heap table.pager p0 leaves)
    (hne : (∀ node ∈ leaves, 0 < leaf_node_num_cells node) ∨
      (∃ node, leaves = [node] ∧ leaf_node_num_cells node = 0))
    (hcells : ∀ node ∈ leaves, leaf_node_num_cells node ≤ LEAF_NODE_MAX_CELLS)
    (hsorted : ∀ node ∈ leaves, LeafSorted node)
    (hacross : List.Chain'
      (fun a b => leaf_node_key a (leaf_node_num_cells a - 1) < leaf_node_key b 0) leaves) :
    (∃ N, ∀ fuel, N ≤ fuel →
      ∃ pager', execute_select heap fuel table
          = .ok (.EXECUTE_SUCCESS, leaves.flatMap leaf_rows,
                 { pager := pager', root_page_num := table.root_page_num }) ∧
        SamePages heap table.pager pager') ∧
    (leaves.flatMap leaf_keys).Pairwise (· < ·) := by
  refine ⟨execute_select_chain heap table p0 leaves hleft hchain hne hcells hsorted, ?_⟩
  rcases hne with h | ⟨node, h, hn⟩
  · exact (chain_keys_pairwise leaves h hsorted hacross).1
  · rw [h]
    simp only [List.flatMap_cons, List.flatMap_nil, List.append_nil, leaf_keys, hn,
      List.range_zero, List.map_nil, List.Pairwise.nil]

theorem sample_leaf_sorted_low : LeafSorted (sample_leaf 0 1 [1, 2, 3, 4, 5, 6, 7]) := by
  intro i j hij hj
  have hn : leaf_node_num_cells (sample_leaf 0 1 [1, 2, 3, 4, 5, 6, 7]) = 7 := by decide
  rw [hn] at hj
  interval_cases j <;> interval_cases i <;> decide

theorem sample_leaf_sorted_high : LeafSorted (sample_leaf 0 0 [8, 9, 10, 11, 12, 13, 14]) := by
  intro i j hij hj
  have hn : leaf_node_num_cells (sample_leaf 0 0 [8, 9, 10, 11, 12, 13, 14]) = 7 := by decide
  rw [hn] at hj
  interval_cases j <;> interval_cases i <;> decide

theorem execute_select_visits_chain_witness :
    (∃ N, ∀ fuel, N ≤ fuel →
      ∃ pager', execute_select sample_heap fuel sample_tree
          = .ok (.EXECUTE_SUCCESS,
                 [sample_leaf 0 1 [1, 2, 3, 4, 5, 6, 7],
                  sample_leaf 0 0 [8, 9, 10, 11, 12, 13, 14]].flatMap leaf_rows,
                 { pager := pager', root_page_num := sample_tree.root_page_num }) ∧
        SamePages sample_heap sample_tree.pager pager') ∧
    ([sample_leaf 0 1 [1, 2, 3, 4, 5, 6, 7],
      sample_leaf 0 0 [8, 9, 10, 11, 12, 13, 14]].flatMap leaf_keys).Pairwise (· < ·) := by
  have hf : ∀ p, p < 3 → Fetchable sample_tree.pager p := by
    intro p hp
    have h100 : TABLE_MAX_PAGES = 100 := rfl
    have hlen : sample_tree.pager.pages.length = 100 := rfl
    exact ⟨by omega, by omega⟩
  have hchild : internal_node_child (page_at sample_heap sample_tree.pager 0) 0 = 2 := by decide
  have hleft : Leftmost sample_heap sample_tree.pager sample_tree.root_page_num 2 :=
    Leftmost.step 0 2 (hf 0 (by decide)) (by decide)
      (by rw [hchild]; exact Leftmost.leaf 2 (hf 2 (by decide)) (by decide))
  have hnext : leaf_node_next_leaf (sample_leaf 0 1 [1, 2, 3, 4, 5, 6, 7]) = 1 := by decide
  have hchain : LeafChain sample_heap sample_tree.pager 2
      [sample_leaf 0 1 [1, 2, 3, 4, 5, 6, 7], sample_leaf 0 0 [8, 9, 10, 11, 12, 13, 14]] :=
    LeafChain.next 2 _ _ (hf 2 (by decide)) rfl (by rw [hnext]; decide)
      (by rw [hnext]; exact LeafChain.last 1 _ (hf 1 (by decide)) rfl (by decide))
  exact execute_select_visits_chain sample_heap sample_tree 2 _ hleft hchain
    (Or.inl (by
      intro node hnode
      simp only [List.mem_cons, List.mem_singleton, List.not_mem_nil, or_false] at hnode
      rcases hnode with h | h <;> subst h <;> decide))
    (by
      intro node hnode
      simp only [List.mem_cons, List.mem_singleton, List.not_mem_nil, or_false] at hnode
      rcases hnode with h | h <;> subst h <;> decide)
    (by
      intro node hnode
      simp only [List.mem_cons, List.mem_singleton, List.not_mem_nil, or_false] at hnode
      rcases hnode with h | h
      · subst h; exact sample_leaf_sorted_low
      · subst h; exact sample_leaf_sorted_high)
    (by
      refine List.chain'_cons.mpr ⟨by decide, List.chain'_singleton _⟩)

/-! ## Runs on pagers that hand out the same bytes -/

theorem same_pages_symm {heap : Heap} {a b : Pager} (h : SamePages heap a b) :
    SamePages heap b a := ⟨h.1.symm, fun q => (h.2 q).symm⟩

theorem get_page_sim (heap : Heap) (a b : Pager) (h : SamePages heap a b) (p : Nat) :
    (∃ e, get_page (heap.page p) a p = .error e ∧ get_page (heap.page p) b p = .error e) ∨
    (∃ node a' b', get_page (heap.page p) a p = .ok (node, a') ∧
      get_page (heap.page p) b p = .ok (node, b') ∧ SamePages heap a' b') := by
  by_cases hp : p > TABLE_MAX_PAGES
  · exact Or.inl ⟨.exit_failure, get_page_fails _ a p hp, get_page_fails _ b p hp⟩
  · by_cases hl : p < a.pages.length
    · have hfa : Fetchable a p := ⟨Nat.le_of_not_lt hp, hl⟩
      obtain ⟨a', hga, hsa, _⟩ := get_page_at heap a p hfa
      obtain ⟨b', hgb, hsb, _⟩ := get_page_at heap b p (same_pages_fetchable h hfa)
      rw [← h.2] at hgb
      exact Or.inr ⟨_, a', b', hga, hgb, same_pages_trans (same_pages_symm hsa) (same_pages_trans h hsb)⟩
    · have ha : a.pages[p]? = none := List.getElem?_eq_none (Nat.le_of_not_lt hl)
      have hb : b.pages[p]? = none := List.getElem?_eq_none (by rw [← h.1]; exact Nat.le_of_not_lt hl)
      refine Or.inl ⟨.undefined, ?_, ?_⟩
      · simp only [get_page, hp, if_false, ha]
      · simp only [get_page, hp, if_false, hb]

theorem leaf_node_find_sim (heap : Heap) (fuel : Nat) (ta tb : Table) (h : TableSim heap ta tb)
    (p key : Nat) :
    ResultSim heap (leaf_node_find heap fuel ta p key) (leaf_node_find heap fuel tb p key) := by
  rcases get_page_sim heap ta.pager tb.pager h.2 p with ⟨e, h1, h2⟩ | ⟨node, a', b', h1, h2, hs⟩
  · exact Or.inl ⟨e, by simp only [leaf_node_find, h1], by simp only [leaf_node_find, h2]⟩
  · cases hloop : leaf_node_find_loop node key fuel 0 (leaf_node_num_cells node) with
    | error e =>
      exact Or.inl ⟨e, by simp only [leaf_node_find, h1, hloop],
        by simp only [leaf_node_find, h2, hloop]⟩
    | ok r =>
      exact Or.inr ⟨_, { ta with pager := a' }, { tb with pager := b' },
        by simp only [leaf_node_find, h1, hloop]; rfl,
        by simp only [leaf_node_find, h2, hloop], h.1, hs⟩

theorem internal_node_find_sim (heap : Heap) : ∀ (fuel : Nat) (ta tb : Table),
    TableSim heap ta tb → ∀ (p key : Nat),
    ResultSim heap (internal_node_find heap fuel ta p key)
      (internal_node_find heap fuel tb p key) := by
  intro fuel
  induction fuel with
  | zero =>
    intro ta tb _ p key
    exact Or.inl ⟨.out_of_fuel, rfl, rfl⟩
  | succ fuel ih =>
    intro ta tb h p key
    rcases get_page_sim heap ta.pager tb.pager h.2 p with ⟨e, h1, h2⟩ | ⟨node, a', b', h1, h2, hs⟩
    · exact Or.inl ⟨e, by simp only [internal_node_find, h1],
        by simp only [internal_node_find, h2]⟩
    · rcases get_page_sim heap a' b' hs
          (internal_node_child node (internal_node_find_child node key)) with
        ⟨e, h3, h4⟩ | ⟨child, a'', b'', h3, h4, hs'⟩
      · exact Or.inl ⟨e, by simp only [internal_node_find, h1, h3],
          by simp only [internal_node_find, h2, h4]⟩
      · have hsim : TableSim heap { ta with pager := a'' } { tb with pager := b'' } :=
          ⟨h.1, hs'⟩
        simp only [internal_node_find, h1, h3, h2, h4]
        by_cases hleaf : get_node_type child = NODE_LEAF
        · simp only [hleaf, if_true]
          exact leaf_node_find_sim heap fuel _ _ hsim _ _
        · simp only [hleaf, if_false]
          by_cases hint : get_node_type child = NODE_INTERNAL
          · simp only [hint, if_true]
            exact ih _ _ hsim _ _
          · simp only [hint, if_false]
            exact Or.inl ⟨.undefined, rfl, rfl⟩

theorem table_find_sim (heap : Heap) (fuel : Nat) (ta tb : Table) (h : TableSim heap ta tb)
    (key : Nat) :
    ResultSim heap (table_find heap fuel ta key) (table_find heap fuel tb key) := by
  have hroot := h.1
  rcases get_page_sim heap ta.pager tb.pager h.2 ta.root_page_num with
    ⟨e, h1, h2⟩ | ⟨node, a', b', h1, h2, hs⟩
  · rw [hroot] at h2
    exact Or.inl ⟨e, by simp only [table_find, h1], by simp only [table_find, h2]⟩
  · have hsim : TableSim heap { ta with pager := a' } { tb with pager := b' } := ⟨h.1, hs⟩
    have h2' := h2
    rw [hroot] at h2'
    simp only [table_find, h1, h2']
    by_cases hleaf : get_node_type node = NODE_LEAF
    · simp only [hleaf, if_true]
      have := leaf_node_find_sim heap fuel _ _ hsim ta.root_page_num key
      rw [hroot] at this ⊢
      exact this
    · simp only [hleaf, if_false]
      have := internal_node_find_sim heap fuel _ _ hsim ta.root_page_num key
      rw [hroot] at this ⊢
      exact this

theorem table_start_sim (heap : Heap) (fuel : Nat) (ta tb : Table) (h : TableSim heap ta tb) :
    ResultSim heap (table_start heap fuel ta) (table_start heap fuel tb) := by
  rcases table_find_sim heap fuel ta tb h 0 with ⟨e, h1, h2⟩ | ⟨c, ta', tb', h1, h2, hs⟩
  · exact Or.inl ⟨e, by simp only [table_start, h1], by simp only [table_start, h2]⟩
  · rcases get_page_sim heap ta'.pager tb'.pager hs.2 c.page_num with
      ⟨e, h3, h4⟩ | ⟨node, a', b', h3, h4, hs'⟩
    · exact Or.inl ⟨e, by simp only [table_start, h1, h3], by simp only [table_start, h2, h4]⟩
    · exact Or.inr ⟨_, { ta' with pager := a' }, { tb' with pager := b' },
        by simp only [table_start, h1, h3]; rfl, by simp only [table_start, h2, h4],
        hs.1, hs'⟩

theorem cursor_value_sim (heap : Heap) (ta tb : Table) (h : TableSim heap ta tb)
    (cursor : Cursor) :
    ResultSim heap (cursor_value heap ta cursor) (cursor_value heap tb cursor) := by
  rcases get_page_sim heap ta.pager tb.pager h.2 cursor.page_num with
    ⟨e, h1, h2⟩ | ⟨node, a', b', h1, h2, hs⟩
  · exact Or.inl ⟨e, by simp only [cursor_value, h1], by simp only [cursor_value, h2]⟩
  · exact Or.inr ⟨_, { ta with pager := a' }, { tb with pager := b' },
      by simp only [cursor_value, h1]; rfl, by simp only [cursor_value, h2], h.1, hs⟩

theorem cursor_advance_sim (heap : Heap) (ta tb : Table) (h : TableSim heap ta tb)
    (cursor : Cursor) :
    ResultSim heap (cursor_advance heap ta cursor) (cursor_advance heap tb cursor) := by
  rcases get_page_sim heap ta.pager tb.pager h.2 cursor.page_num with
    ⟨e, h1, h2⟩ | ⟨node, a', b', h1, h2, hs⟩
  · exact Or.inl ⟨e, by simp only [cursor_advance, h1], by simp only [cursor_advance, h2]⟩
  · exact Or.inr ⟨_, { ta with pager := a' }, { tb with pager := b' },
      by simp only [cursor_advance, h1]; rfl, by simp only [cursor_advance, h2], h.1, hs⟩

theorem execute_select_loop_sim (heap : Heap) : ∀ (fuel : Nat) (ta tb : Table),
    TableSim heap ta tb → ∀ (cursor : Cursor),
    ResultSim heap (execute_select_loop heap fuel ta cursor)
      (execute_select_loop heap fuel tb cursor) := by
  intro fuel
  induction fuel with
  | zero =>
    intro ta tb h cursor
    rw [execute_select_loop.eq_def, execute_select_loop.eq_def]
    by_cases he : cursor.end_of_table = true
    · simp only [he, if_true]
      exact Or.inr ⟨_, _, _, rfl, rfl, h⟩
    · simp only [he, if_false]
      exact Or.inl ⟨_, rfl, rfl⟩
  | succ fuel ih =>
    intro ta tb h cursor
    rw [execute_select_loop.eq_def, execute_select_loop.eq_def]
    by_cases he : cursor.end_of_table = true
    · simp only [he, if_true]
      exact Or.inr ⟨_, _, _, rfl, rfl, h⟩
    · simp only [he, if_false]
      rcases cursor_value_sim heap ta tb h cursor with ⟨e, h1, h2⟩ | ⟨v, ta1, tb1, h1, h2, hs1⟩
      · simp only [h1, h2]
        exact Or.inl ⟨_, rfl, rfl⟩
      · simp only [h1, h2]
        rcases cursor_advance_sim heap ta1 tb1 hs1 cursor with
          ⟨e, h3, h4⟩ | ⟨c, ta2, tb2, h3, h4, hs2⟩
        · simp only [h3, h4]
          exact Or.inl ⟨_, rfl, rfl⟩
        · simp only [h3, h4]
          rcases ih ta2 tb2 hs2 c with ⟨e, h5, h6⟩ | ⟨rows, ta3, tb3, h5, h6, hs3⟩
          · simp only [h5, h6]
            exact Or.inl ⟨_, rfl, rfl⟩
          · simp only [h5, h6]
            exact Or.inr ⟨_, _, _, rfl, rfl, hs3⟩

/-- On two tables whose pagers hand out the same bytes `execute_select` shows the
same rows, or fails alike. -/
theorem execute_select_sim (heap : Heap) (fuel : Nat) (ta tb : Table)
    (h : TableSim heap ta tb) :
    select_output (execute_select heap fuel ta) = select_output (execute_select heap fuel tb) := by
  rcases table_start_sim heap fuel ta tb h with ⟨e, h1, h2⟩ | ⟨c, ta1, tb1, h1, h2, hs1⟩
  · simp only [execute_select, h1, h2, select_output]
  · rcases execute_select_loop_sim heap fuel ta1 tb1 hs1 c with
      ⟨e, h3, h4⟩ | ⟨rows, ta2, tb2, h3, h4, _⟩
    · simp only [execute_select, h1, h2, h3, h4, select_output]
    · simp only [execute_select, h1, h2, h3, h4, select_output]

/-! ## Close and reopen -/

theorem memcpy_length (dest : List Nat) (off : Nat) (src : List Nat) (n : Nat)
    (h1 : off + n ≤ dest.length) (h2 : n ≤ src.length) :
    (memcpy dest off src n).length = dest.length := by
  simp only [memcpy, List.length_append, List.length_take, List.length_drop]
  omega

theorem write_byte_length (buf : List Nat) (off v : Nat) (h : off + 1 ≤ buf.length) :
    (write_byte buf off v).length = buf.length := by
  unfold write_byte
  exact memcpy_length _ _ _ _ h (by simp)

theorem write_u32_length (buf : List Nat) (off v : Nat) (h : off + 4 ≤ buf.length) :
    (write_u32 buf off v).length = buf.length := by
  unfold write_u32
  exact memcpy_length _ _ _ _ h (by simp [u32_bytes])

theorem set_node_root_length (node : Page) (b : Bool) (h : node.length = PAGE_SIZE) :
    (set_node_root node b).length = PAGE_SIZE := by
  have hp : PAGE_SIZE = 4096 := rfl
  unfold set_node_root
  rw [write_byte_length _ _ _ (by rw [h, hp]; decide)]
  exact h

theorem initialize_leaf_node_length (node : Page) (h : node.length = PAGE_SIZE) :
    (initialize_leaf_node node).length = PAGE_SIZE := by
  have hp : PAGE_SIZE = 4096 := rfl
  have h1 : (write_byte node NODE_TYPE_OFFSET NODE_LEAF).length = PAGE_SIZE := by
    rw [write_byte_length _ _ _ (by rw [h, hp]; decide)]
    exact h
  have h2 := set_node_root_length _ false h1
  have h3 : (write_u32 (set_node_root (write_byte node NODE_TYPE_OFFSET NODE_LEAF) false)
      LEAF_NODE_NUM_CELLS_OFFSET 0).length = PAGE_SIZE := by
    rw [write_u32_length _ _ _ (by rw [h2, hp]; decide)]
    exact h2
  unfold initialize_leaf_node
  rw [write_u32_length _ _ _ (by rw [h3, hp]; decide)]
  exact h3

/-- What a successful `db_open` did. -/
theorem db_open_ok (heap : Heap) (file : List Nat) (table : Table)
    (h : db_open heap file = .ok table) :
    table.root_page_num = 0 ∧
    ∃ pager0, pager_open file = .ok pager0 ∧
      ((pager0.num_pages ≠ 0 ∧ table.pager = pager0) ∨
       (pager0.num_pages = 0 ∧ ∃ node pager1,
          get_page (heap.page 0) pager0 0 = .ok (node, pager1) ∧
          table.pager = { pager1 with
            pages := pager1.pages.set 0 (some (set_node_root (initialize_leaf_node node) true)) })) := by
  unfold db_open at h
  cases hopen : pager_open file with
  | error e => simp [hopen] at h
  | ok pager0 =>
    simp only [hopen] at h
    by_cases hz : pager0.num_pages = 0
    · simp only [hz, if_true] at h
      cases hget : get_page (heap.page 0) pager0 0 with
      | error e => simp [hget] at h
      | ok r =>
        obtain ⟨node, pager1⟩ := r
        simp only [hget] at h
        injection h with h
        subst h
        exact ⟨rfl, pager0, rfl, Or.inr ⟨hz, node, pager1, hget, rfl⟩⟩
    · simp only [hz, if_false] at h
      injection h with h
      subst h
      exact ⟨rfl, pager0, rfl, Or.inl ⟨hz, rfl⟩⟩

theorem session_reachable (heap : Heap) (file : List Nat) (pager : Pager)
    (h : Session heap file pager) : Reachable file pager := by
  induction h with
  | opened table hheap hopen =>
    obtain ⟨_, pager0, hp0, hc | ⟨_, node, pager1, hget, heq⟩⟩ := db_open_ok heap file table hopen
    · rw [hc.2]; exact Reachable.opened pager0 hp0
    · rw [heq]
      have hr1 : Reachable file pager1 :=
        Reachable.fetched pager0 pager1 (heap.page 0) 0 node (Reachable.opened pager0 hp0)
          hheap hget
      have hnode : node.length = PAGE_SIZE :=
        (reachable_file file pager1 hr1).2.2.2 0 node (get_page_slot _ _ _ _ _ hget)
      exact Reachable.stored pager1 0 node _ hr1 (get_page_slot _ _ _ _ _ hget)
        (set_node_root_length _ true (initialize_leaf_node_length node hnode))
  | fetched pager pager' fresh page_num node _ hfresh _ hget ih =>
    exact Reachable.fetched pager pager' fresh page_num node ih hfresh hget
  | stored pager page_num old new _ hold hnew ih =>
    exact Reachable.stored pager page_num old new ih hold hnew

/-- In a session there is at least one page, and every page beyond those of the file
is loaded. -/
theorem session_no_gap (heap : Heap) (file : List Nat) (pager : Pager)
    (h : Session heap file pager) (hsize : file.length < 2 ^ 32) :
    1 ≤ pager.num_pages ∧
    ∀ p, file.length / PAGE_SIZE ≤ p → p < pager.num_pages →
      ∃ page, pager.pages[p]? = some (some page) := by
  induction h with
  | opened table hheap hopen =>
    obtain ⟨_, pager0, hp0, hc | ⟨hz, node, pager1, hget, heq⟩⟩ :=
      db_open_ok heap file table hopen
    · obtain ⟨_, hp⟩ := pager_open_ok file pager0 hp0
      rw [hc.2]
      have hne := hc.1
      rw [hp] at hne ⊢
      simp only at hne ⊢
      have h1 : file.length / PAGE_SIZE % 2 ^ 32 = file.length / PAGE_SIZE :=
        Nat.mod_eq_of_lt (lt_of_le_of_lt (Nat.div_le_self _ _) hsize)
      rw [h1] at hne ⊢
      exact ⟨by omega, fun p h1 h2 => absurd h2 (by omega)⟩
    · obtain ⟨_, hlen, hcase | hcase⟩ := get_page_ok _ _ _ _ _ hget
      · have := (reachable_slots file pager0 (Reachable.opened pager0 hp0)).2 0 node hcase.1
        omega
      · rw [heq, hcase.2.2]
        simp only [hz, ge_iff_le, le_refl, if_true, Nat.zero_add]
        refine ⟨by decide, ?_⟩
        intro p _ hp
        have hp0' : p = 0 := by
          have : (1 : Nat) % 2 ^ 32 = 1 := by decide
          omega
        subst hp0'
        exact ⟨set_node_root (initialize_leaf_node node) true,
          by simp [List.getElem?_set, hlen]⟩
  | fetched pager pager' fresh page_num node hprev _ hle hget ih =>
    obtain ⟨hp, hlen, hc | hc⟩ := get_page_ok fresh pager pager' page_num node hget
    · rw [hc.2]; exact ih
    · rw [hc.2.2]
      have hmod : (page_num + 1) % 2 ^ 32 = page_num + 1 :=
        Nat.mod_eq_of_lt (by have : TABLE_MAX_PAGES = 100 := rfl; omega)
      simp only [hmod]
      unfold get_unused_page_num at hle
      constructor
      · split <;> omega
      · intro p hp1 hp2
        by_cases hpp : page_num = p
        · subst hpp; exact ⟨node, by simp [List.getElem?_set, hlen]⟩
        · have hp3 : p < pager.num_pages := by
            split at hp2 <;> omega
          obtain ⟨page, hpage⟩ := ih.2 p hp1 hp3
          exact ⟨page, by simpa [List.getElem?_set, hpp] using hpage⟩
  | stored pager page_num old new _ hold _ ih =>
    refine ⟨ih.1, ?_⟩
    intro p hp1 hp2
    have hlt : page_num < pager.pages.length := by
      rcases Nat.lt_or_ge page_num pager.pages.length with hl | hl
      · exact hl
      · rw [List.getElem?_eq_none hl] at hold; cases hold
    by_cases hpp : page_num = p
    · subst hpp; exact ⟨new, by simp [List.getElem?_set, hlt]⟩
    · obtain ⟨page, hpage⟩ := ih.2 p hp1 hp2
      exact ⟨page, by simpa [List.getElem?_set, hpp] using hpage⟩

theorem get_page_miss_disk (fresh : Page) (pager : Pager) (p : Nat)
    (hfl : pager.file_length = pager.file.length)
    (hmod : pager.file.length % PAGE_SIZE = 0) (hfresh : fresh.length = PAGE_SIZE)
    (hp : (p + 1) * PAGE_SIZE ≤ pager.file.length) (hsmall : pager.file.length < 2 ^ 32) :
    get_page_miss fresh pager p = disk_page pager.file p := by
  have hps : PAGE_SIZE = 4096 := rfl
  have hmul : (p + 1) * PAGE_SIZE = p * PAGE_SIZE + PAGE_SIZE := by ring
  have hle : p ≤ pager.file.length / PAGE_SIZE := by
    rw [Nat.le_div_iff_mul_le (by rw [hps]; decide)]
    omega
  have hoff : p * PAGE_SIZE % 2 ^ 32 = p * PAGE_SIZE := Nat.mod_eq_of_lt (by omega)
  have hlen := disk_page_length pager.file p hp
  unfold get_page_miss
  simp only [hfl, hmod, ne_eq, not_true_eq_false, if_false, hle, if_true, hoff]
  unfold disk_page at hlen ⊢
  rw [hlen, List.drop_of_length_le (by omega), List.append_nil]

theorem get_page_miss_fresh (fresh : Page) (pager : Pager) (p : Nat)
    (hfl : pager.file_length = pager.file.length)
    (hmod : pager.file.length % PAGE_SIZE = 0)
    (hp : pager.file.length ≤ p * PAGE_SIZE) (hsmall : pager.file.length < 2 ^ 32) :
    get_page_miss fresh pager p = fresh := by
  have hps : PAGE_SIZE = 4096 := rfl
  unfold get_page_miss
  simp only [hfl, hmod, ne_eq, not_true_eq_false, if_false]
  by_cases hle : p ≤ pager.file.length / PAGE_SIZE
  · have h1 : p * PAGE_SIZE ≤ pager.file.length :=
      (Nat.le_div_iff_mul_le (by rw [hps]; decide)).mp hle
    have heq : p * PAGE_SIZE = pager.file.length := by omega
    have hoff : p * PAGE_SIZE % 2 ^ 32 = pager.file.length := by
      rw [heq]; exact Nat.mod_eq_of_lt hsmall
    simp only [hle, if_true, hoff, file_read, List.drop_length, List.take_nil, List.length_nil,
      List.drop_zero, List.nil_append]
  · simp only [hle, if_false]

/-- Closing a session on a file of at most `TABLE_MAX_PAGES` pages succeeds and leaves a
file of exactly `num_pages` pages holding, page by page, what the session held. -/
theorem session_close (heap : Heap) (file : List Nat) (pager : Pager)
    (hs : Session heap file pager) (hsize : file.length ≤ TABLE_MAX_PAGES * PAGE_SIZE) :
    pager.num_pages ≤ TABLE_MAX_PAGES ∧ 1 ≤ pager.num_pages ∧
    ∃ file', db_close { pager := pager, root_page_num := 0 } = .ok file' ∧
      file'.length = pager.num_pages * PAGE_SIZE ∧
      ∀ p, p < pager.num_pages →
        disk_page file' p = page_held pager p ∧ (page_held pager p).length = PAGE_SIZE ∧
        (pager.pages[p]? = some none → (p + 1) * PAGE_SIZE ≤ file.length) := by
  have hps : PAGE_SIZE = 4096 := rfl
  have h100 : TABLE_MAX_PAGES = 100 := rfl
  have hsmall : file.length < 2 ^ 32 := by rw [h100, hps] at hsize; omega
  have hr := session_reachable heap file pager hs
  obtain ⟨hslots, hloaded⟩ := reachable_slots file pager hr
  obtain ⟨hfile, _, hmod, hpages⟩ := reachable_file file pager hr
  obtain ⟨htop1, htop2⟩ := reachable_top file pager hr hsmall
  obtain ⟨hone, hgap⟩ := session_no_gap heap file pager hs hsmall
  have hdiv : file.length / PAGE_SIZE * PAGE_SIZE = file.length :=
    Nat.div_mul_cancel (Nat.dvd_of_mod_eq_zero hmod)
  have hle : pager.num_pages ≤ TABLE_MAX_PAGES := by
    rcases htop2 with h | ⟨page, _, hp⟩
    · rw [h] at hsize
      exact Nat.le_of_mul_le_mul_right hsize (by rw [hps]; decide)
    · have hlt : pager.num_pages - 1 < pager.pages.length := by
        rcases Nat.lt_or_ge (pager.num_pages - 1) pager.pages.length with hl | hl
        · exact hl
        · rw [List.getElem?_eq_none hl] at hp; cases hp
      omega
  obtain ⟨pager1, hrun, h1, h2, h3, h4⟩ :=
    db_close_loop_spec pager.num_pages 0 pager (by omega) (by omega) hpages
  rw [hfile] at h1 h2 h4
  simp only [Nat.zero_add] at h2 h3 h4
  refine ⟨hle, hone, pager1.file, by simp only [db_close, hrun], ?_, ?_⟩
  · rcases htop2 with h | ⟨page, hn, hp⟩
    · omega
    · have := (h3 (pager.num_pages - 1) page (Nat.zero_le _) (by omega) hp).1
      have hs1 : pager.num_pages - 1 + 1 = pager.num_pages := by omega
      rw [hs1] at this
      omega
  · intro p hp
    obtain ⟨slot, hslot⟩ : ∃ slot, pager.pages[p]? = some slot :=
      ⟨pager.pages[p], List.getElem?_eq_getElem (by omega)⟩
    cases slot with
    | some page =>
      have hheld : page_held pager p = page := by simp only [page_held, hslot]
      rw [hheld]
      exact ⟨(h3 p page (Nat.zero_le _) hp hslot).2, hpages p page hslot,
        fun h => by rw [hslot] at h; cases h⟩
    | none =>
      have hheld : page_held pager p = disk_page file p := by
        simp only [page_held, hslot, hfile]
      have hin : p < file.length / PAGE_SIZE := by
        by_contra hcon
        obtain ⟨page, hpage⟩ := hgap p (Nat.le_of_not_lt hcon) hp
        rw [hslot] at hpage; cases hpage
      have hin2 : (p + 1) * PAGE_SIZE ≤ file.length := by
        rw [← hdiv]
        exact Nat.mul_le_mul_right _ hin
      rw [hheld]
      exact ⟨h4 p hin2 (Or.inr (Or.inr hslot)), disk_page_length file p hin2, fun _ => hin2⟩

theorem page_at_unloaded (heap : Heap) (pager : Pager) (q : Nat)
    (h : ∀ page, pager.pages[q]? ≠ some (some page)) :
    page_at heap pager q = get_page_miss (heap.page q) pager q := by
  unfold page_at
  split
  · next page hq => exact absurd hq (h page)
  · rfl

/-- After a session on a file of at most `TABLE_MAX_PAGES` pages is closed, `db_open` on
the file returns a pager with the same `num_pages` that hands out, for every page and
the same `malloc` contents, the bytes the session handed out. -/
theorem session_reopen (heap0 heap : Heap) (file : List Nat) (pager : Pager)
    (hs : Session heap0 file pager) (hsize : file.length ≤ TABLE_MAX_PAGES * PAGE_SIZE)
    (hheap : ∀ q, (heap.page q).length = PAGE_SIZE) :
    ∃ file' table', db_close { pager := pager, root_page_num := 0 } = .ok file' ∧
      db_open heap file' = .ok table' ∧ table'.root_page_num = 0 ∧
      table'.pager.num_pages = pager.num_pages ∧
      table'.pager.pages = List.replicate TABLE_MAX_PAGES none ∧
      (∀ p fresh, p < pager.num_pages → fresh.length = PAGE_SIZE →
        get_page_miss fresh table'.pager p = page_held pager p) ∧
      SamePages heap table'.pager pager := by
  have hps : PAGE_SIZE = 4096 := rfl
  have h100 : TABLE_MAX_PAGES = 100 := rfl
  have hsmall : file.length < 2 ^ 32 := by rw [h100, hps] at hsize; omega
  have hr := session_reachable heap0 file pager hs
  obtain ⟨hslots, hloaded⟩ := reachable_slots file pager hr
  obtain ⟨hfile, hflen, hmod, hpages⟩ := reachable_file file pager hr
  obtain ⟨htop1, _⟩ := reachable_top file pager hr hsmall
  obtain ⟨hle, hone, file', hclose, hlen', hcontent⟩ := session_close heap0 file pager hs hsize
  have hflen' : pager.file_length = pager.file.length := by
    rw [hflen, hfile]; exact Nat.mod_eq_of_lt hsmall
  have hsmall' : file'.length < 2 ^ 32 := by rw [hlen', hps]; omega
  have hmod' : file'.length % PAGE_SIZE = 0 := by rw [hlen']; exact Nat.mul_mod_left _ _
  have hnum : file'.length / PAGE_SIZE % 2 ^ 32 = pager.num_pages := by
    rw [hlen', Nat.mul_div_cancel _ (by rw [hps]; decide)]
    exact Nat.mod_eq_of_lt (by omega)
  have hopen : db_open heap file'
      = .ok { pager := { file := file', file_length := file'.length % 2 ^ 32,
                         num_pages := pager.num_pages,
                         pages := List.replicate TABLE_MAX_PAGES none },
              root_page_num := 0 } := by
    have hnz : ¬ pager.num_pages = 0 := by omega
    simp only [db_open, pager_open_eq file' hmod', hnum, hnz, if_false]
  have hmiss : ∀ p fresh, p < pager.num_pages → fresh.length = PAGE_SIZE →
      get_page_miss fresh { file := file', file_length := file'.length % 2 ^ 32,
                            num_pages := pager.num_pages,
                            pages := List.replicate TABLE_MAX_PAGES none } p
        = page_held pager p := by
    intro p fresh hp hfresh
    rw [get_page_miss_disk fresh _ p (Nat.mod_eq_of_lt hsmall') hmod' hfresh
      (by
        show (p + 1) * PAGE_SIZE ≤ file'.length
        rw [hlen']; exact Nat.mul_le_mul_right _ hp)
      hsmall']
    exact (hcontent p hp).1
  refine ⟨file', _, hclose, hopen, rfl, rfl, rfl, hmiss, by simp [hslots], ?_⟩
  intro q
  have hnone : ∀ page, (List.replicate TABLE_MAX_PAGES (none : Option Page))[q]? ≠ some (some page) := by
    intro page hq
    rw [List.getElem?_replicate] at hq
    split at hq <;> cases hq
  rw [page_at_unloaded heap _ q hnone]
  by_cases hq : q < pager.num_pages
  · rw [hmiss q (heap.page q) hq (hheap q)]
    obtain ⟨slot, hslot⟩ : ∃ slot, pager.pages[q]? = some slot :=
      ⟨pager.pages[q], List.getElem?_eq_getElem (by omega)⟩
    cases slot with
    | some page => simp only [page_held, page_at, hslot]
    | none =>
      have hin := (hcontent q hq).2.2 hslot
      rw [page_at_unloaded heap pager q (by intro page h; rw [hslot] at h; cases h)]
      rw [get_page_miss_disk (heap.page q) pager q hflen' (by rw [hfile]; exact hmod) (hheap q)
        (by rw [hfile]; exact hin) (by rw [hfile]; exact hsmall)]
      simp only [page_held, hslot]
  · have hq' : pager.num_pages ≤ q := Nat.le_of_not_lt hq
    have hge : pager.num_pages * PAGE_SIZE ≤ q * PAGE_SIZE := Nat.mul_le_mul_right _ hq'
    rw [get_page_miss_fresh (heap.page q) _ q (Nat.mod_eq_of_lt hsmall') hmod'
      (by
        show file'.length ≤ q * PAGE_SIZE
        omega)
      hsmall']
    rw [page_at_unloaded heap pager q
      (by intro page h; have := hloaded q page h; omega)]
    rw [get_page_miss_fresh (heap.page q) pager q hflen' (by rw [hfile]; exact hmod)
      (by rw [hfile]; omega) (by rw [hfile]; exact hsmall)]

/-- The first loop of `db_close` on an all-empty cache runs off the array when it is to
visit more slots than the cache has. -/
theorem db_close_loop_past_cache : ∀ (n i : Nat) (pager : Pager),
    pager.pages = List.replicate TABLE_MAX_PAGES none → i ≤ TABLE_MAX_PAGES →
    TABLE_MAX_PAGES < i + n → db_close_loop n i pager = .error .undefined := by
  intro n
  induction n with
  | zero => intro i pager _ h1 h2; omega
  | succ n ih =>
    intro i pager hp h1 h2
    rcases Nat.eq_or_lt_of_le h1 with h | h
    · have hnone : pager.pages[i]? = none := by
        rw [hp, h]; exact List.getElem?_eq_none (by simp)
      simp only [db_close_loop, hnone]
    · have hsome : pager.pages[i]? = some none := by
        rw [hp, List.getElem?_replicate, if_pos h]
      simp only [db_close_loop, hsome]
      exact ih (i + 1) pager hp h (by omega)

theorem db_open_nonempty (heap : Heap) (file : List Nat) (h : file.length % PAGE_SIZE = 0)
    (hn : file.length / PAGE_SIZE % 2 ^ 32 ≠ 0) :
    db_open heap file
      = .ok { pager := { file := file, file_length := file.length % 2 ^ 32,
                         num_pages := file.length / PAGE_SIZE % 2 ^ 32,
                         pages := List.replicate TABLE_MAX_PAGES none },
              root_page_num := 0 } := by
  simp only [db_open, pager_open_eq file h, hn, if_false]

/-- C3 (as stated, on a file of 101 pages): `db_open` on a file of 101 zero pages
returns a table with `num_pages = 101`; `db_close` on that state visits the slots
`0 .. 100` and reads `pages[100]`, outside the 100-entry cache, so it does not return a
closed file that could be reopened. -/
theorem db_close_oversized_file :
    (zero_file 413696).length = 101 * PAGE_SIZE ∧
    db_open sample_heap (zero_file 413696)
      = .ok { pager := { file := zero_file 413696, file_length := 413696, num_pages := 101,
                         pages := List.replicate TABLE_MAX_PAGES none },
              root_page_num := 0 } ∧
    Session sample_heap (zero_file 413696)
      { file := zero_file 413696, file_length := 413696, num_pages := 101,
        pages := List.replicate TABLE_MAX_PAGES none } ∧
    db_close { pager := { file := zero_file 413696, file_length := 413696, num_pages := 101,
                          pages := List.replicate TABLE_MAX_PAGES none },
               root_page_num := 0 } = .error .undefined := by
  have hp : PAGE_SIZE = 4096 := rfl
  have h1 : (zero_file 413696).length % PAGE_SIZE = 0 := by
    rw [zero_file_length, hp]
  have h2 : (zero_file 413696).length % 2 ^ 32 = 413696 := by
    rw [zero_file_length]; norm_num
  have h3 : (zero_file 413696).length / PAGE_SIZE % 2 ^ 32 = 101 := by
    rw [zero_file_length, hp]; norm_num
  have hopen : db_open sample_heap (zero_file 413696)
      = .ok { pager := { file := zero_file 413696, file_length := 413696, num_pages := 101,
                         pages := List.replicate TABLE_MAX_PAGES none },
              root_page_num := 0 } := by
    have h := db_open_nonempty sample_heap (zero_file 413696) h1 (by rw [h3]; decide)
    rw [h2, h3] at h
    exact h
  refine ⟨by rw [zero_file_length, hp], hopen, ?_, ?_⟩
  · exact Session.opened _ (List.length_replicate _ _) hopen
  · have h := db_close_loop_past_cache 101 0
      ({ file := zero_file 413696, file_length := 413696, num_pages := 101,
         pages := List.replicate TABLE_MAX_PAGES none } : Pager) rfl (Nat.zero_le _) (by decide)
    simp only [db_close, h]

/-- C3 (amended): for every pager state of a session started by `db_open` on a file of
at most `TABLE_MAX_PAGES` pages in which new pages are obtained only through
`get_page(get_unused_page_num)`, `db_close` followed by `db_open` on the same file
yields a pager with the same `num_pages` in which, for every `p < num_pages`,
`get_page(p)` returns exactly the 4096 bytes that page held before the close (the
cached buffer if it was loaded, the bytes on disk otherwise). When the leftmost path
from the root ends on a `next_leaf` chain of leaves of at most `LEAF_NODE_MAX_CELLS`
cells each, so that the scan stays inside the page buffers, `execute_select` shows the
same before the close and after the reopen; when moreover the keys of each leaf are
ascending and every leaf has a cell (or the tree is one empty leaf), both scans return
for every large enough step budget, with the rows of the cells of the chain in chain
and cell order. -/
theorem close_reopen_roundtrip (heap0 heap : Heap) (file : List Nat) (pager : Pager)
    (hs : Session heap0 file pager) (hsize : file.length ≤ TABLE_MAX_PAGES * PAGE_SIZE)
    (hheap : ∀ q, (heap.page q).length = PAGE_SIZE) :
    ∃ file' table', db_close { pager := pager, root_page_num := 0 } = .ok file' ∧
      db_open heap file' = .ok table' ∧
      table'.pager.num_pages = pager.num_pages ∧
      (∀ p fresh, p < pager.num_pages → fresh.length = PAGE_SIZE →
        ∃ pager'', get_page fresh table'.pager p = .ok (page_held pager p, pager'') ∧
          (page_held pager p).length = PAGE_SIZE) ∧
      (∀ (p0 : Nat) (leaves : List Page),
        Leftmost heap pager 0 p0 → LeafChain heap pager p0 leaves →
        (∀ node ∈ leaves, leaf_node_num_cells node ≤ LEAF_NODE_MAX_CELLS) →
        (∀ fuel, select_output (execute_select heap fuel table')
          = select_output (execute_select heap fuel { pager := pager, root_page_num := 0 })) ∧
        (((∀ node ∈ leaves, 0 < leaf_node_num_cells node) ∨
            (∃ node, leaves = [node] ∧ leaf_node_num_cells node = 0)) →
          (∀ node ∈ leaves, LeafSorted node) →
          ∃ N, ∀ fuel, N ≤ fuel →
            select_output (execute_select heap fuel { pager := pager, root_page_num := 0 })
              = .ok (.EXECUTE_SUCCESS, leaves.flatMap leaf_rows) ∧
            select_output (execute_select heap fuel table')
              = .ok (.EXECUTE_SUCCESS, leaves.flatMap leaf_rows))) := by
  obtain ⟨hle, _, _, _, _, hcontent⟩ := session_close heap0 file pager hs hsize
  obtain ⟨file', table', hclose, hopen, hroot, hnum, hpages, hmiss, hsame⟩ :=
    session_reopen heap0 heap file pager hs hsize hheap
  have hsim : ∀ fuel, select_output (execute_select heap fuel table')
      = select_output (execute_select heap fuel { pager := pager, root_page_num := 0 }) :=
    fun fuel => execute_select_sim heap fuel table' { pager := pager, root_page_num := 0 }
      ⟨hroot, hsame⟩
  refine ⟨file', table', hclose, hopen, hnum, ?_, ?_⟩
  · intro p fresh hp hfresh
    have hslot : table'.pager.pages[p]? = some none := by
      rw [hpages, List.getElem?_replicate, if_pos (by omega)]
    have hget := get_page_miss_eq fresh table'.pager p (by omega) hslot
    rw [hmiss p fresh hp hfresh] at hget
    exact ⟨_, hget, (hcontent p hp).2.1⟩
  · intro p0 leaves hleft hchain hcells
    refine ⟨hsim, ?_⟩
    intro hne hsorted
    obtain ⟨N, hN⟩ := execute_select_chain heap { pager := pager, root_page_num := 0 } p0
      leaves hleft hchain hne hcells hsorted
    refine ⟨N, ?_⟩
    intro fuel hfuel
    obtain ⟨pager', hsel, _⟩ := hN fuel hfuel
    have hbefore : select_output (execute_select heap fuel { pager := pager, root_page_num := 0 })
        = .ok (.EXECUTE_SUCCESS, leaves.flatMap leaf_rows) := by
      rw [hsel]; rfl
    exact ⟨hbefore, by rw [hsim fuel, hbefore]⟩

/-- The two example rows are what the cells of the example leaf hold. -/
theorem sample_row_leaf_rows :
    leaf_rows (sample_row_leaf [sample_row, sample_row_two]) = [sample_row, sample_row_two] := by
  decide

theorem sample_row_leaf_length :
    (sample_row_leaf [sample_row, sample_row_two]).length = PAGE_SIZE := by
  simp only [sample_row_leaf, serialize_row, memcpy, u32_bytes, List.length_append,
    List.length_cons, List.length_nil, List.length_replicate, List.length_take,
    List.length_drop, List.flatMap_cons, List.flatMap_nil, sample_row, sample_row_two,
    PAGE_SIZE, ROW_SIZE, ID_SIZE, USERNAME_SIZE, EMAIL_SIZE, COLUMN_USERNAME_SIZE,
    COLUMN_EMAIL_SIZE, ID_OFFSET, USERNAME_OFFSET, EMAIL_OFFSET]
  rfl

theorem sample_row_leaf_sorted : LeafSorted (sample_row_leaf [sample_row, sample_row_two]) := by
  intro i j hij hj
  have hn : leaf_node_num_cells (sample_row_leaf [sample_row, sample_row_two]) = 2 := by decide
  rw [hn] at hj
  have hi : i = 0 := by omega
  have hj' : j = 1 := by omega
  subst hi; subst hj'
  decide

/-- An instance of `close_reopen_roundtrip`: a session on an empty file stores two rows
into the root leaf; after `db_close` and `db_open` the pager has its one page,
`get_page(0)` returns the leaf with the two rows, and `execute_select` shows the two
rows before the close and after the reopen. -/
theorem close_reopen_roundtrip_witness :
    ∃ file' table', db_close { pager := sample_session, root_page_num := 0 } = .ok file' ∧
      db_open sample_heap file' = .ok table' ∧
      table'.pager.num_pages = 1 ∧
      (∃ pager'', get_page (sample_heap.page 0) table'.pager 0
        = .ok (sample_row_leaf [sample_row, sample_row_two], pager'')) ∧
      ∃ N, ∀ fuel, N ≤ fuel →
        select_output (execute_select sample_heap fuel
            { pager := sample_session, root_page_num := 0 })
          = .ok (.EXECUTE_SUCCESS, [sample_row, sample_row_two]) ∧
        select_output (execute_select sample_heap fuel table')
          = .ok (.EXECUTE_SUCCESS, [sample_row, sample_row_two]) := by
  have hopened : Session sample_heap [] sample_open.pager :=
    Session.opened sample_open (List.length_replicate _ _) rfl
  have hs : Session sample_heap [] sample_session :=
    Session.stored sample_open.pager 0 _ (sample_row_leaf [sample_row, sample_row_two])
      hopened rfl sample_row_leaf_length
  have hheld : page_held sample_session 0 = sample_row_leaf [sample_row, sample_row_two] := rfl
  have hat : page_at sample_heap sample_session 0
      = sample_row_leaf [sample_row, sample_row_two] := rfl
  have hf : Fetchable sample_session 0 := by
    have h100 : TABLE_MAX_PAGES = 100 := rfl
    have hlen : sample_session.pages.length = 100 := rfl
    exact ⟨by omega, by omega⟩
  obtain ⟨file', table', h1, h2, h3, h4, h5⟩ :=
    close_reopen_roundtrip sample_heap sample_heap [] sample_session hs (by decide)
      (fun _ => List.length_replicate _ _)
  have hnum : sample_session.num_pages = 1 := rfl
  rw [hnum] at h3 h4
  obtain ⟨pager'', hget, _⟩ := h4 0 (sample_heap.page 0) (by decide) (List.length_replicate _ _)
  rw [hheld] at hget
  obtain ⟨_, hrows⟩ := h5 0 [sample_row_leaf [sample_row, sample_row_two]]
    (Leftmost.leaf 0 hf (by rw [hat]; decide))
    (LeafChain.last 0 _ hf hat (by decide))
    (by
      intro node hnode
      simp only [List.mem_singleton] at hnode
      subst hnode
      decide)
  obtain ⟨N, hN⟩ := hrows
    (Or.inl (by
      intro node hnode
      simp only [List.mem_singleton] at hnode
      subst hnode
      decide))
    (by
      intro node hnode
      simp only [List.mem_singleton] at hnode
      subst hnode
      exact sample_row_leaf_sorted)
  have hflat : [sample_row_leaf [sample_row, sample_row_two]].flatMap leaf_rows
      = [sample_row, sample_row_two] := by
    simp only [List.flatMap_cons, List.flatMap_nil, List.append_nil, sample_row_leaf_rows]
  rw [hflat] at hN
  exact ⟨file', table', h1, h2, h3, ⟨pager'', hget⟩, N, hN⟩

/-! ## The 32-bit arithmetic of the leaf search -/

/-- A pass whose key read lies inside the page buffer is a pass of the loop of
`leaf_node_find`: the loop is the repetition of such passes. -/
theorem leaf_node_find_loop_iter (node : Page) (key fuel lo hi : Nat) (step : LoopStep)
    (h : leaf_node_find_iter node key lo hi = .ok step) :
    leaf_node_find_loop node key (fuel + 1) lo hi =
      (match step with
       | .done r => .ok r
       | .next lo' hi' => leaf_node_find_loop node key fuel lo' hi') := by
  rw [leaf_node_find_loop.eq_def]
  unfold leaf_node_find_iter at h
  by_cases hne : hi = lo
  · simp only [hne, if_true] at h ⊢
    injection h with h
    subst h
    rfl
  · simp only [hne, if_false] at h ⊢
    split at h
    · split at h
      · injection h with h; subst h; simp only [*, if_true]
      · split at h
        · injection h with h; subst h; simp only [*, if_true, if_false]
        · injection h with h; subst h; simp only [*, if_false]
    · cases h

/-- A pass whose key read lies inside the page buffer is defined. -/
theorem leaf_node_find_iter_defined (node : Page) (key lo hi : Nat)
    (h : LEAF_NODE_HEADER_SIZE + (lo + hi) % 2 ^ 32 / 2 * LEAF_NODE_CELL_SIZE
      + LEAF_NODE_KEY_SIZE ≤ node.length) :
    ∃ step, leaf_node_find_iter node key lo hi = .ok step := by
  unfold leaf_node_find_iter
  by_cases hne : hi = lo
  · exact ⟨.done lo, by simp only [hne, if_true]⟩
  · simp only [hne, if_false, h, if_true]
    split
    · exact ⟨_, rfl⟩
    · split <;> exact ⟨_, rfl⟩

/-- A pass that starts inside `[0, n]` with `n < 2^31` computes the exact midpoint and
leaves a strictly shorter interval inside its own. -/
theorem leaf_node_find_iter_bounds (node : Page) (key n lo hi : Nat) (hn : n < 2 ^ 31)
    (h1 : lo ≤ hi) (h2 : hi ≤ n) (hne : hi ≠ lo) :
    lo + hi < 2 ^ 32 ∧ (lo + hi) % 2 ^ 32 / 2 = (lo + hi) / 2 ∧
    lo ≤ (lo + hi) / 2 ∧ (lo + hi) / 2 < hi ∧
    (∀ r, leaf_node_find_iter node key lo hi = .ok (.done r) → lo ≤ r ∧ r < hi) ∧
    ∀ lo' hi', leaf_node_find_iter node key lo hi = .ok (.next lo' hi') →
      lo ≤ lo' ∧ lo' ≤ hi' ∧ hi' ≤ hi ∧ hi' - lo' < hi - lo := by
  have hsum : lo + hi < 2 ^ 32 := by omega
  have hmod : (lo + hi) % 2 ^ 32 / 2 = (lo + hi) / 2 := by rw [Nat.mod_eq_of_lt hsum]
  have hmod2 : ((lo + hi) / 2 + 1) % 2 ^ 32 = (lo + hi) / 2 + 1 := Nat.mod_eq_of_lt (by omega)
  refine ⟨hsum, hmod, by omega, by omega, ?_, ?_⟩
  · intro r hstep
    unfold leaf_node_find_iter at hstep
    simp only [hne, if_false, hmod, hmod2] at hstep
    split at hstep
    · split at hstep
      · injection hstep with e
        injection e with e
        subst e
        omega
      · split at hstep
        · injection hstep with e; cases e
        · injection hstep with e; cases e
    · cases hstep
  · intro lo' hi' hstep
    unfold leaf_node_find_iter at hstep
    simp only [hne, if_false, hmod, hmod2] at hstep
    split at hstep
    · split at hstep
      · injection hstep with e; cases e
      · split at hstep
        · injection hstep with e
          injection e with e1 e2
          subst e1; subst e2
          omega
        · injection hstep with e
          injection e with e1 e2
          subst e1; subst e2
          omega
    · cases hstep

theorem loop_reach_bounds (node : Page) (key : Nat) (hn : leaf_node_num_cells node < 2 ^ 31)
    (lo hi : Nat) (h : LoopReach node key lo hi) :
    lo ≤ hi ∧ hi ≤ leaf_node_num_cells node := by
  induction h with
  | start => exact ⟨Nat.zero_le _, le_refl _⟩
  | pass lo hi lo' hi' _ hstep ih =>
    have hne : hi ≠ lo := by
      intro heq
      unfold leaf_node_find_iter at hstep
      simp only [heq, if_true] at hstep
      injection hstep with e
      cases e
    obtain ⟨_, _, _, _, _, hnext⟩ :=
      leaf_node_find_iter_bounds node key _ lo hi hn ih.1 ih.2 hne
    obtain ⟨_, h2, h3, _⟩ := hnext lo' hi' hstep
    exact ⟨h2, by omega⟩

/-- When the keys of all cells below `n` lie inside the page buffer, the loop returns
once it has one unit of fuel per cell of the interval. -/
theorem leaf_node_find_loop_returns (node : Page) (key n : Nat) (hn : n < 2 ^ 31)
    (hkeys : ∀ i, i < n →
      LEAF_NODE_HEADER_SIZE + i * LEAF_NODE_CELL_SIZE + LEAF_NODE_KEY_SIZE ≤ node.length) :
    ∀ fuel lo hi, lo ≤ hi → hi ≤ n → hi - lo ≤ fuel →
      ∃ r, leaf_node_find_loop node key fuel lo hi = .ok r ∧ lo ≤ r ∧ r ≤ hi := by
  intro fuel
  induction fuel with
  | zero =>
    intro lo hi h1 h2 h3
    have : hi = lo := by omega
    subst this
    exact ⟨hi, by rw [leaf_node_find_loop.eq_def]; simp, le_refl _, le_refl _⟩
  | succ fuel ih =>
    intro lo hi h1 h2 h3
    by_cases hne : hi = lo
    · subst hne
      exact ⟨hi, by rw [leaf_node_find_loop.eq_def]; simp, le_refl _, le_refl _⟩
    · obtain ⟨_, hmod, hlo, hhi, hdone, hnext⟩ :=
        leaf_node_find_iter_bounds node key n lo hi hn h1 h2 hne
      obtain ⟨step, hstep⟩ := leaf_node_find_iter_defined node key lo hi
        (by rw [hmod]; exact hkeys _ (by omega))
      rw [leaf_node_find_loop_iter node key fuel lo hi step hstep]
      cases step with
      | done r =>
        obtain ⟨a, b⟩ := hdone r hstep
        exact ⟨r, rfl, a, by omega⟩
      | next lo' hi' =>
        obtain ⟨a, b, c, d⟩ := hnext lo' hi' hstep
        obtain ⟨r, hr, hr1, hr2⟩ := ih lo' hi' b (by omega) (by omega)
        exact ⟨r, hr, by omega, by omega⟩

/-- C13 (as stated, on a 4096-byte page whose cell count reads `2^31 - 1`): the count
is below `2^31`, the first pass of the loop computes the index `2^30 - 1`, and the key
of that cell would lie far beyond the 4096 bytes of the page buffer (with or without a
32-bit reduction of the offset): for every key the read of table.c 166 is outside the
buffer, so neither a valid key read nor the end of the loop is obtained. -/
theorem leaf_node_find_reads_past_page :
    sample_huge_leaf.length = PAGE_SIZE ∧
    leaf_node_num_cells sample_huge_leaf = 2 ^ 31 - 1 ∧
    leaf_node_num_cells sample_huge_leaf < 2 ^ 31 ∧
    (0 + leaf_node_num_cells sample_huge_leaf) % 2 ^ 32 / 2 = 2 ^ 30 - 1 ∧
    PAGE_SIZE < LEAF_NODE_HEADER_SIZE + (2 ^ 30 - 1) * LEAF_NODE_CELL_SIZE ∧
    PAGE_SIZE < LEAF_NODE_HEADER_SIZE + (2 ^ 30 - 1) * LEAF_NODE_CELL_SIZE % 2 ^ 32 ∧
    ∀ key, leaf_node_find_iter sample_huge_leaf key 0 (leaf_node_num_cells sample_huge_leaf)
      = .error .undefined := by
  have hlen : sample_huge_leaf.length = 4096 := by
    simp only [sample_huge_leaf, u32_bytes, List.length_append, List.length_cons,
      List.length_nil, List.length_replicate, PAGE_SIZE]
  have hn : leaf_node_num_cells sample_huge_leaf = 2147483647 := by decide
  refine ⟨hlen, hn, by rw [hn]; decide, by rw [hn]; decide, by decide, by decide, ?_⟩
  intro key
  have h1 : ¬ (2147483647 = 0) := by decide
  have h2 : ¬ (LEAF_NODE_HEADER_SIZE + (0 + 2147483647) % 2 ^ 32 / 2 * LEAF_NODE_CELL_SIZE
      + LEAF_NODE_KEY_SIZE ≤ 4096) := by decide
  unfold leaf_node_find_iter
  rw [hn, hlen]
  simp only [h1, h2, if_false]

/-- C13 (amended): on a leaf page buffer that holds its header and the keys of its
`num_cells < 2^31` cells, at the start of every pass of the binary-search loop of
`leaf_node_find` the bounds satisfy `min ≤ max ≤ num_cells`; when the loop goes on, the
32-bit sum `min + max` is below 2^32, so the computed index is the exact
`(min + max) / 2` and `min ≤ index < max ≤ num_cells`; the key read at that index lies
inside the buffer and the pass is defined; the interval a pass leaves is strictly
shorter; and the loop returns, with a `cell_num ≤ num_cells`, within `num_cells`
passes. -/
theorem leaf_node_find_no_wrap (node : Page) (key : Nat)
    (_hheader : LEAF_NODE_HEADER_SIZE ≤ node.length)
    (hcells : leaf_node_num_cells node < 2 ^ 31)
    (hkeys : ∀ i, i < leaf_node_num_cells node →
      LEAF_NODE_HEADER_SIZE + i * LEAF_NODE_CELL_SIZE + LEAF_NODE_KEY_SIZE ≤ node.length) :
    (∀ lo hi, LoopReach node key lo hi →
      lo ≤ hi ∧ hi ≤ leaf_node_num_cells node ∧
      (hi ≠ lo →
        lo + hi < 2 ^ 32 ∧ (lo + hi) % 2 ^ 32 / 2 = (lo + hi) / 2 ∧
        lo ≤ (lo + hi) / 2 ∧ (lo + hi) / 2 < hi ∧ (lo + hi) / 2 < leaf_node_num_cells node ∧
        LEAF_NODE_HEADER_SIZE + (lo + hi) / 2 * LEAF_NODE_CELL_SIZE + LEAF_NODE_KEY_SIZE
          ≤ node.length ∧
        (∃ step, leaf_node_find_iter node key lo hi = .ok step) ∧
        ∀ lo' hi', leaf_node_find_iter node key lo hi = .ok (.next lo' hi') →
          hi' - lo' < hi - lo)) ∧
    (∀ fuel, leaf_node_num_cells node ≤ fuel →
      ∃ r, leaf_node_find_loop node key fuel 0 (leaf_node_num_cells node) = .ok r ∧
        r ≤ leaf_node_num_cells node) := by
  constructor
  · intro lo hi hreach
    obtain ⟨h1, h2⟩ := loop_reach_bounds node key hcells lo hi hreach
    refine ⟨h1, h2, ?_⟩
    intro hne
    obtain ⟨a, b, c, d, _, e⟩ := leaf_node_find_iter_bounds node key _ lo hi hcells h1 h2 hne
    have hin := hkeys ((lo + hi) / 2) (by omega)
    exact ⟨a, b, c, d, by omega, hin,
      leaf_node_find_iter_defined node key lo hi (by rw [b]; exact hin),
      fun lo' hi' hs => (e lo' hi' hs).2.2.2⟩
  · intro fuel hfuel
    obtain ⟨r, hr, _, hr2⟩ := leaf_node_find_loop_returns node key _ hcells hkeys fuel 0
      (leaf_node_num_cells node) (Nat.zero_le _) (le_refl _) (by omega)
    exact ⟨r, hr, hr2⟩

/-- An instance of `leaf_node_find_no_wrap`: in a 4096-byte leaf with the keys 10, 20,
30 the first pass of the search for key 25 adds 0 and 3 without wrap, reads the key of
cell 1 inside the page and is defined, and the search returns within three passes. -/
theorem leaf_node_find_no_wrap_witness :
    leaf_node_num_cells (sample_leaf 1 0 [10, 20, 30]) = 3 ∧
    (0 + 3 < 2 ^ 32 ∧ (0 + 3) % 2 ^ 32 / 2 = (0 + 3) / 2 ∧ (0 + 3) / 2 < 3 ∧
      LEAF_NODE_HEADER_SIZE + (0 + 3) / 2 * LEAF_NODE_CELL_SIZE + LEAF_NODE_KEY_SIZE
        ≤ (sample_leaf 1 0 [10, 20, 30]).length ∧
      ∃ step, leaf_node_find_iter (sample_leaf 1 0 [10, 20, 30]) 25 0 3 = .ok step) ∧
    ∃ r, leaf_node_find_loop (sample_leaf 1 0 [10, 20, 30]) 25 3 0 3 = .ok r ∧ r ≤ 3 := by
  have hlen : (sample_leaf 1 0 [10, 20, 30]).length = 4096 := by
    simp only [sample_leaf, u32_bytes, List.length_append, List.length_cons, List.length_nil,
      List.length_replicate, List.flatMap_cons, List.flatMap_nil, PAGE_SIZE, ROW_SIZE, ID_SIZE,
      USERNAME_SIZE, EMAIL_SIZE, COLUMN_USERNAME_SIZE, COLUMN_EMAIL_SIZE]
  have hn : leaf_node_num_cells (sample_leaf 1 0 [10, 20, 30]) = 3 := by decide
  have h := leaf_node_find_no_wrap (sample_leaf 1 0 [10, 20, 30]) 25
    (by rw [hlen]; decide) (by rw [hn]; decide)
    (by
      intro i hi
      rw [hn] at hi
      rw [hlen]
      have c1 : LEAF_NODE_HEADER_SIZE = 14 := rfl
      have c2 : LEAF_NODE_CELL_SIZE = 297 := rfl
      have c3 : LEAF_NODE_KEY_SIZE = 4 := rfl
      rw [c1, c2, c3]
      omega)
  rw [hn] at h
  obtain ⟨_, _, hpass⟩ := h.1 0 3 (by
    have hstart : LoopReach (sample_leaf 1 0 [10, 20, 30]) 25 0 _ := LoopReach.start
    rw [hn] at hstart
    exact hstart)
  obtain ⟨a, b, _, c, _, d, e, _⟩ := hpass (by decide)
  exact ⟨hn, ⟨a, b, c, d, e⟩, h.2 3 (by decide)⟩

/-! ## Parsing an insert -/

/-- The first token of `insert 7 bob b@x` and the text left to scan. -/
theorem strtok_sample_insert_line :
    strtok sample_insert_line = (some [105, 110, 115, 101, 114, 116], [55, 32, 98, 111, 98, 32, 98, 64, 120]) := by
  decide

/-- A well-formed insert line is prepared and its three fields are copied. -/
theorem prepare_insert_sample_success :
    prepare_insert sample_atoi sample_insert_line
        { type := .STATEMENT_SELECT
          row_to_insert := { id := 0, username := List.replicate 5 1, email := List.replicate 6 2 } }
      = (.PREPARE_SUCCESS,
          { type := .STATEMENT_INSERT
            row_to_insert :=
              { id := 7, username := [98, 111, 98, 0, 1], email := [98, 64, 120, 0, 2, 2] } }) := by
  decide

end BTree

namespace Arr

/-! ## The array-backed variant: close and reopen -/

theorem arr_constants :
    ROWS_PER_PAGE = 13 ∧ ROW_SIZE = 293 ∧ PAGE_SIZE = 4096 ∧ TABLE_MAX_ROWS = 1300 ∧
      TABLE_MAX_PAGES = 100 := by
  decide

/-- A row with fields of 33 and 256 bytes is written over 293 bytes and the memory
keeps its length. -/
theorem arr_serialize_row_length (row : Row) (dest : List Nat)
    (hu : row.username.length = USERNAME_SIZE) (he : row.email.length = EMAIL_SIZE)
    (hd : ROW_SIZE ≤ dest.length) : (serialize_row row dest).length = dest.length := by
  have c1 : ID_OFFSET = 0 := rfl
  have c2 : ID_SIZE = 4 := rfl
  have c3 : USERNAME_OFFSET = 4 := rfl
  have c4 : USERNAME_SIZE = 33 := rfl
  have c5 : EMAIL_OFFSET = 37 := rfl
  have c6 : EMAIL_SIZE = 256 := rfl
  have c7 : ROW_SIZE = 293 := rfl
  rw [c4] at hu
  rw [c6] at he
  rw [c7] at hd
  have h1 : (BTree.memcpy dest ID_OFFSET (BTree.u32_bytes row.id) ID_SIZE).length
      = dest.length :=
    BTree.memcpy_length _ _ _ _ (by rw [c1, c2]; omega) (by rw [c2]; simp [BTree.u32_bytes])
  have h2 : (BTree.memcpy (BTree.memcpy dest ID_OFFSET (BTree.u32_bytes row.id) ID_SIZE)
      USERNAME_OFFSET row.username USERNAME_SIZE).length = dest.length := by
    rw [BTree.memcpy_length _ _ _ _ (by rw [h1, c3, c4]; omega) (by rw [c4, hu]), h1]
  show (BTree.memcpy _ EMAIL_OFFSET row.email EMAIL_SIZE).length = dest.length
  rw [BTree.memcpy_length _ _ _ _ (by rw [h2, c5, c6]; omega) (by rw [c6, he]), h2]

/-- On a pager whose file is empty `get_page` returns a buffer of `PAGE_SIZE` bytes
and changes at most the slot asked for. -/
theorem arr_get_page_empty_file (fresh : BTree.Page) (pager : Pager) (p : Nat)
    (hp : p < TABLE_MAX_PAGES) (hfresh : fresh.length = PAGE_SIZE) (hfile : pager.file = [])
    (hlen : pager.pages.length = TABLE_MAX_PAGES)
    (hpages : ∀ (q : Nat) (page : BTree.Page),
      pager.pages[q]? = some (some page) → page.length = PAGE_SIZE) :
    ∃ page pager', get_page fresh pager p = .ok (page, pager') ∧ page.length = PAGE_SIZE ∧
      pager'.file = [] ∧ pager'.file_length = pager.file_length ∧
      pager'.pages.length = TABLE_MAX_PAGES ∧ pager'.pages[p]? = some (some page) ∧
      ∀ q : Nat, q ≠ p → pager'.pages[q]? = pager.pages[q]? := by
  have hp' : ¬ p > TABLE_MAX_PAGES := by omega
  have hlt : p < pager.pages.length := by omega
  have hget : pager.pages[p]? = some (pager.pages.get ⟨p, hlt⟩) := List.getElem?_eq_getElem hlt
  cases hslot : pager.pages.get ⟨p, hlt⟩ with
  | some page =>
    rw [hslot] at hget
    refine ⟨page, pager, ?_, hpages p page hget, hfile, rfl, hlen, hget, fun _ _ => rfl⟩
    simp only [get_page, if_neg hp', hget]
  | none =>
    rw [hslot] at hget
    have hread : ∀ off n : Nat, BTree.file_read pager.file off n = [] := by
      intro off n; rw [hfile]; simp [BTree.file_read]
    refine ⟨fresh, { pager with pages := pager.pages.set p (some fresh) }, ?_, hfresh, hfile,
      rfl, ?_, ?_, ?_⟩
    · simp [get_page, hp', hget, hread]
    · simp [hlen]
    · simp [List.getElem?_set, hlt]
    · intro q hq
      simp [List.getElem?_set, Ne.symm hq]

/-- One `execute_insert` on a table that was never written out. -/
theorem arr_execute_insert_loaded (heap : BTree.Heap) (row : Row) (table : Table) (n : Nat)
    (hheap : ∀ p : Nat, (heap.page p).length = PAGE_SIZE)
    (hu : row.username.length = USERNAME_SIZE) (he : row.email.length = EMAIL_SIZE)
    (hn : n < TABLE_MAX_ROWS) (h : Loaded table n) :
    ∃ table', execute_insert heap row table = .ok (.EXECUTE_SUCCESS, table') ∧
      Loaded table' (n + 1) := by
  obtain ⟨hrows, hfile, hflen, hlen, hpages, hheld⟩ := h
  subst hrows
  generalize hnum : table.num_rows = n at *
  obtain ⟨k1, k2, k3, k4, k5⟩ := arr_constants
  have hp : n / ROWS_PER_PAGE < TABLE_MAX_PAGES := by rw [k1, k5]; rw [k4] at hn; omega
  obtain ⟨page, pager', hget, hplen, hfile', hflen', hlen', hslot, hother⟩ :=
    arr_get_page_empty_file (heap.page (n / ROWS_PER_PAGE)) table.pager (n / ROWS_PER_PAGE) hp
      (hheap _) hfile hlen hpages
  have hfull : ¬ n ≥ TABLE_MAX_ROWS := by omega
  have hoff : n % ROWS_PER_PAGE * ROW_SIZE % 2 ^ 32 = n % ROWS_PER_PAGE * ROW_SIZE := by
    rw [k1, k2]; omega
  have hoff' : n % ROWS_PER_PAGE * ROW_SIZE + ROW_SIZE ≤ PAGE_SIZE := by
    rw [k1, k2, k3]; omega
  refine ⟨{ pager := { pager' with
              pages := pager'.pages.set (n / ROWS_PER_PAGE)
                (some (page.take (n % ROWS_PER_PAGE * ROW_SIZE % 2 ^ 32)
                  ++ serialize_row row (page.drop (n % ROWS_PER_PAGE * ROW_SIZE % 2 ^ 32)))) }
            num_rows := (n + 1) % 2 ^ 32 }, ?_, ?_⟩
  · simp only [execute_insert, hnum, if_neg hfull, row_slot, hget, slot_memory, slot_store,
      hslot]
  · refine ⟨?_, hfile', ?_, ?_, ?_, ?_⟩
    · show (n + 1) % 2 ^ 32 = n + 1
      rw [k4] at hn; omega
    · show pager'.file_length = 0
      rw [hflen', hflen]
    · show (pager'.pages.set _ _).length = TABLE_MAX_PAGES
      rw [List.length_set, hlen']
    · intro q pg hq
      change (pager'.pages.set (n / ROWS_PER_PAGE) _)[q]? = some (some pg) at hq
      by_cases hqp : q = n / ROWS_PER_PAGE
      · subst hqp
        have hlt : n / ROWS_PER_PAGE < pager'.pages.length := by rw [hlen']; exact hp
        rw [List.getElem?_set_self hlt] at hq
        injection hq with hq
        injection hq with hq
        rw [← hq, hoff, List.length_append, List.length_take,
          arr_serialize_row_length row _ hu he (by rw [List.length_drop, hplen]; omega),
          List.length_drop, hplen]
        omega
      · rw [List.getElem?_set_ne (Ne.symm hqp), hother q hqp] at hq
        exact hpages q pg hq
    · intro q hq
      change ∃ pg, (pager'.pages.set (n / ROWS_PER_PAGE) _)[q]? = some (some pg)
      by_cases hqp : q = n / ROWS_PER_PAGE
      · subst hqp
        have hlt : n / ROWS_PER_PAGE < pager'.pages.length := by rw [hlen']; exact hp
        exact ⟨_, List.getElem?_set_self hlt⟩
      · rw [List.getElem?_set_ne (Ne.symm hqp), hother q hqp]
        apply hheld
        rw [k1] at hq hqp ⊢
        omega

/-- Inserting rows one after the other into a table that was never written out. -/
theorem arr_insert_rows_loaded (heap : BTree.Heap)
    (hheap : ∀ p : Nat, (heap.page p).length = PAGE_SIZE) (rows : List Row) :
    ∀ (table : Table) (n : Nat),
      (∀ row ∈ rows, row.username.length = USERNAME_SIZE ∧ row.email.length = EMAIL_SIZE) →
      n + rows.length ≤ TABLE_MAX_ROWS → Loaded table n →
      ∃ table', insert_rows heap rows table = .ok (some table') ∧
        Loaded table' (n + rows.length) := by
  induction rows with
  | nil => intro table n _ _ h; exact ⟨table, rfl, h⟩
  | cons row rows ih =>
    intro table n hrows hn h
    have hrow := hrows row (List.mem_cons_self _ _)
    rw [List.length_cons] at hn
    obtain ⟨t1, h1, hl1⟩ := arr_execute_insert_loaded heap row table n hheap hrow.1 hrow.2
      (by omega) h
    obtain ⟨t2, h2, hl2⟩ := ih t1 (n + 1)
      (fun r hr => hrows r (List.mem_cons_of_mem _ hr)) (by omega) hl1
    refine ⟨t2, ?_, ?_⟩
    · simp only [insert_rows, h1, h2]
    · rw [List.length_cons]
      have : n + (rows.length + 1) = n + 1 + rows.length := by omega
      rw [this]; exact hl2

/-- The table `db_open` builds on an empty file holds no row. -/
theorem arr_db_open_empty : Loaded (db_open []) 0 := by
  refine ⟨rfl, rfl, rfl, ?_, ?_, ?_⟩
  · simp [db_open, pager_open]
  · intro p page h
    simp [db_open, pager_open, List.getElem?_replicate] at h
  · intro p hp
    omega

/-- The first loop of `db_close` on `k` cached pages from page `i` on, when the file
ends where page `i` starts: each of them is appended to the file in full. -/
theorem arr_db_close_loop_length (k : Nat) :
    ∀ (i : Nat) (pager : Pager), pager.file.length = i * PAGE_SIZE →
      i + k ≤ TABLE_MAX_PAGES →
      (∀ p : Nat, i ≤ p → p < i + k →
        ∃ page, pager.pages[p]? = some (some page) ∧ page.length = PAGE_SIZE) →
      ∃ pager', db_close_loop k i pager = .ok pager' ∧
        pager'.file.length = (i + k) * PAGE_SIZE ∧
        ∀ p : Nat, i + k ≤ p → pager'.pages[p]? = pager.pages[p]? := by
  induction k with
  | zero => intro i pager hfile _ _; exact ⟨pager, rfl, hfile, fun _ _ => rfl⟩
  | succ k ih =>
    intro i pager hfile hi hfull
    obtain ⟨k1, k2, k3, k4, k5⟩ := arr_constants
    obtain ⟨page, hslot, hplen⟩ := hfull i (Nat.le_refl i) (by omega)
    have hwrap : i * PAGE_SIZE % 2 ^ 32 = i * PAGE_SIZE := by rw [k3]; rw [k5] at hi; omega
    have hflush : pager_flush pager i PAGE_SIZE
        = .ok { pager with file := BTree.file_write pager.file (i * PAGE_SIZE) (page.take PAGE_SIZE) } := by
      simp only [pager_flush, hslot, hwrap]
    obtain ⟨pager', hloop, hlen', hother⟩ := ih (i + 1)
      { file := BTree.file_write pager.file (i * PAGE_SIZE) (page.take PAGE_SIZE)
        file_length := pager.file_length
        pages := pager.pages.set i none }
      (by
        show (BTree.file_write pager.file (i * PAGE_SIZE) (page.take PAGE_SIZE)).length = _
        rw [BTree.file_write_length, hfile, List.length_take, hplen, Nat.min_self, Nat.add_mul,
          Nat.one_mul]
        omega)
      (by omega)
      (by
        intro p hp1 hp2
        obtain ⟨pg, hpg, hpglen⟩ := hfull p (by omega) (by omega)
        refine ⟨pg, ?_, hpglen⟩
        show (pager.pages.set i none)[p]? = some (some pg)
        rw [List.getElem?_set_ne (by omega), hpg])
    refine ⟨pager', ?_, ?_, ?_⟩
    · simp only [db_close_loop, hslot, hflush]
      exact hloop
    · rw [hlen']
      congr 1
      omega
    · intro p hp
      rw [hother p (by omega)]
      show (pager.pages.set i none)[p]? = pager.pages[p]?
      rw [List.getElem?_set_ne (by omega)]

/-- The file `db_close` leaves behind a table of `n` rows that was never written out
before: a full page of `PAGE_SIZE` bytes for every `ROWS_PER_PAGE` rows, then the
remaining rows. -/
theorem arr_db_close_length (table : Table) (n : Nat) (hn : n ≤ TABLE_MAX_ROWS)
    (h : Loaded table n) :
    ∃ file, db_close table = .ok file ∧
      file.length = n / ROWS_PER_PAGE * PAGE_SIZE + n % ROWS_PER_PAGE * ROW_SIZE := by
  obtain ⟨hrows, hfile, hflen, hlen, hpages, hheld⟩ := h
  obtain ⟨k1, k2, k3, k4, k5⟩ := arr_constants
  have hheld' : ∀ p : Nat, p * ROWS_PER_PAGE < n →
      ∃ page, table.pager.pages[p]? = some (some page) ∧ page.length = PAGE_SIZE := by
    intro p hp
    obtain ⟨page, hpage⟩ := hheld p hp
    exact ⟨page, hpage, hpages p page hpage⟩
  obtain ⟨pager', hloop, hlen', hother⟩ :=
    arr_db_close_loop_length (n / ROWS_PER_PAGE) 0 table.pager (by rw [hfile]; simp)
      (by rw [k1, k5]; rw [k4] at hn; omega)
      (by
        intro p _ hp
        apply hheld'
        rw [k1] at hp ⊢
        omega)
  rw [Nat.zero_add] at hlen' hother
  by_cases hadd : n % ROWS_PER_PAGE > 0
  · obtain ⟨page, hslot, hplen⟩ := hheld' (n / ROWS_PER_PAGE) (by rw [k1] at hadd ⊢; omega)
    have hslot' : pager'.pages[n / ROWS_PER_PAGE]? = some (some page) := by
      rw [hother _ (by omega), hslot]
    have hwrap : n / ROWS_PER_PAGE * PAGE_SIZE % 2 ^ 32 = n / ROWS_PER_PAGE * PAGE_SIZE := by
      rw [k1, k3]; rw [k4] at hn; omega
    have hsize : n % ROWS_PER_PAGE * ROW_SIZE % 2 ^ 32 = n % ROWS_PER_PAGE * ROW_SIZE := by
      rw [k1, k2]; omega
    refine ⟨BTree.file_write pager'.file (n / ROWS_PER_PAGE * PAGE_SIZE)
      (page.take (n % ROWS_PER_PAGE * ROW_SIZE)), ?_, ?_⟩
    · simp only [db_close, hrows, hloop, if_pos hadd, hslot', pager_flush, hwrap, hsize]
    · rw [BTree.file_write_length, hlen', List.length_take, hplen]
      rw [k1, k2, k3]
      omega
  · refine ⟨pager'.file, ?_, ?_⟩
    · simp only [db_close, hrows, hloop, if_neg hadd]
    · rw [hlen']
      have : n % ROWS_PER_PAGE = 0 := by omega
      rw [this]; simp

/-- C12: in the array-backed variant, take any 26 to 1300 rows with fields of 33 and
256 bytes and insert them with `execute_insert` into the table `db_open` builds on an
empty file. Every insert succeeds and the table counts the rows inserted. `db_close`
then writes every full page with its 4096 bytes, 287 more than its 13 rows, and
`db_open` on that file divides the length of the file by the size of a row: the
reopened table counts more rows than were inserted. -/
theorem arr_reopen_miscounts_rows (heap : BTree.Heap) (rows : List Row)
    (hheap : ∀ p : Nat, (heap.page p).length = PAGE_SIZE)
    (hrows : ∀ row ∈ rows, row.username.length = USERNAME_SIZE ∧ row.email.length = EMAIL_SIZE)
    (hlow : 2 * ROWS_PER_PAGE ≤ rows.length) (hhigh : rows.length ≤ TABLE_MAX_ROWS) :
    ∃ table file,
      insert_rows heap rows (db_open []) = .ok (some table) ∧
      table.num_rows = rows.length ∧
      db_close table = .ok file ∧
      (db_open file).num_rows
        = (rows.length / ROWS_PER_PAGE * PAGE_SIZE + rows.length % ROWS_PER_PAGE * ROW_SIZE)
            / ROW_SIZE ∧
      rows.length < (db_open file).num_rows := by
  obtain ⟨k1, k2, k3, k4, k5⟩ := arr_constants
  obtain ⟨table, hins, hloaded⟩ := arr_insert_rows_loaded heap hheap rows (db_open []) 0 hrows
    (by omega) arr_db_open_empty
  rw [Nat.zero_add] at hloaded
  obtain ⟨file, hclose, hlen⟩ := arr_db_close_length table rows.length hhigh hloaded
  have hnum : (db_open file).num_rows
      = (rows.length / ROWS_PER_PAGE * PAGE_SIZE + rows.length % ROWS_PER_PAGE * ROW_SIZE)
          / ROW_SIZE := by
    show file.length % 2 ^ 32 / ROW_SIZE = _
    rw [hlen, Nat.mod_eq_of_lt]
    rw [k1, k2, k3]; rw [k4] at hhigh; omega
  refine ⟨table, file, hins, hloaded.1, hclose, hnum, ?_⟩
  rw [hnum, k1, k2, k3]
  rw [k1] at hlow
  omega

/-- An instance of `arr_reopen_miscounts_rows`: 26 rows are inserted, the closed file
has 8192 bytes and the reopened table counts 27 rows. -/
theorem arr_reopen_miscounts_rows_witness :
    ∃ table file,
      insert_rows sample_heap (sample_rows 26) (db_open []) = .ok (some table) ∧
      table.num_rows = 26 ∧ db_close table = .ok file ∧ (db_open file).num_rows = 27 := by
  have hlen : (sample_rows 26).length = 26 := by simp [sample_rows]
  obtain ⟨table, file, h1, h2, h3, h4, _⟩ :=
    arr_reopen_miscounts_rows sample_heap (sample_rows 26)
      (fun _ => List.length_replicate _ _)
      (by
        intro row hrow
        simp only [sample_rows, List.mem_map] at hrow
        obtain ⟨i, _, hi⟩ := hrow
        rw [← hi]
        exact ⟨rfl, rfl⟩)
      (by rw [hlen]; decide) (by rw [hlen]; decide)
  rw [hlen] at h2 h4
  exact ⟨table, file, h1, h2, h3, h4⟩

end Arr
